import Mathlib

/-!
# PropWare: the I2C slave engine, the SPI driver and two device drivers

A shallow embedding of `class I2CSlave` (`PropWare/serial/i2c/i2cslave.h`), of the
constants of the two SPI headers (`PropWare/spi.h`, `spi.h`), of the SPI driver as the
design document describes it, of the MCP300x driver (`PropWare/mcp300x.cpp`) and of the
WS2812 driver (`PropWare/ws2812.h`).

* The Propeller is a 32-bit machine: `uint32_t` and `size_t` values are natural numbers
  below `2 ^ 32`, and every arithmetic result is reduced with `u32`.
* `uint8_t` values are natural numbers below `256`; a value is reduced `% 256` where the
  source converts to `uint8_t`.
* The receive buffer is the block returned by `malloc(receive_buffer_size)`: a list of
  `receive_buffer_size` bytes whose initial contents are whatever the heap held.
-/

namespace PropWare

/-! ## Machine integers -/

/-- Reduction of an integer to `uint32_t` (arithmetic modulo `2 ^ 32`). -/
def u32 (n : Int) : Nat := (n % 2 ^ 32).toNat

/-- Reduction of a natural number to `uint8_t`. -/
def u8 (n : Nat) : Nat := n % 256

/-! ## The engine state -/

/-- The data members of `class I2CSlave` (the two pins and the two callback pointers are
kept outside of the record: the pins are only used by the inline assembly, the callbacks
are arguments of `run`). -/
structure I2CSlave where
  /-- Field `const uint8_t m_slave_address`. -/
  m_slave_address : Nat
  /-- Field `uint8_t* m_receive_buffer`: the cells of the allocated block, cell `i` being
  `m_receive_buffer[i]`. -/
  m_receive_buffer : List Nat
  /-- Field `uint32_t m_buffer_upper_bound`, commented `receive_buffer_size - 1`. -/
  m_buffer_upper_bound : Nat
  /-- Field `uint32_t m_buffer_ptr`, commented "index always pointing to the last written
  element in the receiveBuffer (= receive_buffer_size when empty)". -/
  m_buffer_ptr : Nat
  /-- Field `bool m_request_ended`. -/
  m_request_ended : Bool
  deriving DecidableEq

/-- Cell `i` of the receive buffer, `m_receive_buffer[i]`. A cell outside of the allocated
block is not part of the model and reads as `0`. -/
def I2CSlave.cell (s : I2CSlave) (i : Nat) : Nat := s.m_receive_buffer.getD i 0

/-- The constructor `I2CSlave::I2CSlave(address, receive_buffer_size, sclMask, sdaMask)`.
`heap i` is the byte that the freshly allocated block holds at offset `i`, and
`request_ended` the value that the uninitialised member `m_request_ended` happens to have. -/
def I2CSlave.ctor (address receive_buffer_size : Nat) (heap : Nat → Nat)
    (request_ended : Bool) : I2CSlave where
  m_slave_address := u8 address
  m_receive_buffer := (List.range receive_buffer_size).map (fun i => u8 (heap i))
  m_buffer_upper_bound := u32 ((receive_buffer_size : Int) - 1)
  m_buffer_ptr := u32 receive_buffer_size
  m_request_ended := request_ended

/-- Method `uint32_t available()`: `m_buffer_upper_bound - m_buffer_ptr + 1`. -/
def I2CSlave.available (s : I2CSlave) : Nat :=
  u32 ((s.m_buffer_upper_bound : Int) - s.m_buffer_ptr + 1)

/-- Method `int read()`: the returned `int` and the engine afterwards. -/
def I2CSlave.read (s : I2CSlave) : Int × I2CSlave :=
  if s.m_buffer_ptr ≤ s.m_buffer_upper_bound then
    ((s.cell s.m_buffer_ptr : Nat), { s with m_buffer_ptr := u32 ((s.m_buffer_ptr : Int) + 1) })
  else
    (-1, s)

/-- Method `void append_receive_buffer(uint8_t c)`:
`if (m_buffer_ptr > 0) m_receive_buffer[--m_buffer_ptr] = c;`. -/
def I2CSlave.append_receive_buffer (s : I2CSlave) (c : Nat) : I2CSlave :=
  if s.m_buffer_ptr > 0 then
    { s with
      m_buffer_ptr := u32 ((s.m_buffer_ptr : Int) - 1)
      m_receive_buffer := s.m_receive_buffer.set (u32 ((s.m_buffer_ptr : Int) - 1)) (u8 c) }
  else
    s

/-- Method `void reset_receive_buffer()`: `m_buffer_ptr = m_buffer_upper_bound + 1`. -/
def I2CSlave.reset_receive_buffer (s : I2CSlave) : I2CSlave :=
  { s with m_buffer_ptr := u32 ((s.m_buffer_upper_bound : Int) + 1) }

/-! ## Sequences of buffer operations -/

/-- The bytes `bs` handed to `append_receive_buffer` one after the other, first byte first. -/
def I2CSlave.appends (s : I2CSlave) (bs : List Nat) : I2CSlave :=
  bs.foldl I2CSlave.append_receive_buffer s

/-- The results of `n` successive calls of `read()`, and the engine afterwards. -/
def I2CSlave.reads : Nat → I2CSlave → List Int × I2CSlave
  | 0, s => ([], s)
  | n + 1, s => ((s.read).1 :: (I2CSlave.reads n (s.read).2).1, (I2CSlave.reads n (s.read).2).2)

/-- One of the three operations that act on the receive buffer. -/
inductive BufferOp where
  | append_receive_buffer (c : Nat)
  | read
  | reset_receive_buffer
  deriving DecidableEq

/-- The engine after one buffer operation. -/
def I2CSlave.apply (s : I2CSlave) : BufferOp → I2CSlave
  | .append_receive_buffer c => s.append_receive_buffer c
  | .read => (s.read).2
  | .reset_receive_buffer => s.reset_receive_buffer

/-- The engine after a sequence of buffer operations, first operation first. -/
def I2CSlave.applyAll (s : I2CSlave) (ops : List BufferOp) : I2CSlave :=
  ops.foldl I2CSlave.apply s

/-- The engine was built for a receive buffer of `C` bytes: the allocated block has `C`
cells and the upper bound is `C - 1`. Only the constructor sets these two, no method
changes them. -/
def I2CSlave.HasCapacity (C : Nat) (s : I2CSlave) : Prop :=
  s.m_receive_buffer.length = C ∧ s.m_buffer_upper_bound = C - 1

/-- The receive buffer of a `C`-byte engine is empty: freshly constructed or freshly reset,
the fill pointer is `C`. -/
def I2CSlave.Fresh (C : Nat) (s : I2CSlave) : Prop :=
  s.HasCapacity C ∧ s.m_buffer_ptr = C

/-- The pointer invariant of a `C`-byte engine. -/
def I2CSlave.Inv (C : Nat) (s : I2CSlave) : Prop :=
  s.HasCapacity C ∧ s.m_buffer_ptr ≤ C

instance (C : Nat) (s : I2CSlave) : Decidable (s.HasCapacity C) := by
  unfold I2CSlave.HasCapacity; infer_instance

instance (C : Nat) (s : I2CSlave) : Decidable (s.Fresh C) := by
  unfold I2CSlave.Fresh; infer_instance

instance (C : Nat) (s : I2CSlave) : Decidable (s.Inv C) := by
  unfold I2CSlave.Inv; infer_instance

/-- The stored bytes in the order in which `read()` will hand them out. -/
def I2CSlave.content (s : I2CSlave) : List Nat := s.m_receive_buffer.drop s.m_buffer_ptr

/-! ## The bus, seen from the engine

`run()` talks to the bus only through inline assembly: `await_start`, `read_address`,
`send_ack`, the block inside `read_to_end`, and the block inside `write`. Each block is
modelled by what it leaves in its output registers. The bus is the script of those
outputs, in the order in which the engine will fetch them: the address bytes for
`read_address`, the frames for `read_to_end`, the ACK/NAK answers for `write`. A block
whose script has run out keeps waiting on the silent bus and never returns (every wait in
the assembly is an unbounded `waitpeq`/`waitpne`); `await_start` and `send_ack` have no
output and are only recorded in the trace.
-/

/-- The output registers of one execution of the assembly block of `read_to_end`:
`is_restart` is `2` when eight bits were shifted into `result`, `1` when a restart
condition was seen and `0` when a stop condition was seen. -/
structure Frame where
  /-- Register `result`. -/
  result : Nat
  /-- Register `is_restart`. -/
  is_restart : Nat
  deriving DecidableEq

/-- A call made by the engine, as it shows in the trace. `on_request` and `on_receive`
carry the engine (`this`) as the callback finds it, `read_to_end` the engine as the
receive phase finds it. -/
inductive Event where
  | await_start
  | read_address
  | send_ack
  | read_to_end (dev : I2CSlave)
  | append_receive_buffer (c : Nat)
  | on_request (dev : I2CSlave)
  | on_receive (dev : I2CSlave)
  | write (byte : Nat)
  | reset_receive_buffer
  deriving DecidableEq

/-- The engine on its cog: the `I2CSlave` object, what the bus holds in store for the
coming executions of the assembly of `read_to_end` (`frames`) and of `write` (`naks`, the
value left in `m_request_ended`), and the calls made so far, oldest first. -/
structure Cog where
  dev : I2CSlave
  frames : List Frame
  naks : List Bool
  trace : List Event
  deriving DecidableEq

/-- Outcome of a call that waits on the bus: it returns a value, or it never returns
because the bus stays silent. Either way the cog is left in some state. -/
inductive Outcome (α : Type) where
  | returned (value : α) (c : Cog)
  | waiting (c : Cog)
  deriving DecidableEq

/-- The cog that an outcome leaves behind. -/
def Outcome.cog {α : Type} : Outcome α → Cog
  | .returned _ c => c
  | .waiting c => c

/-- The call has returned. -/
def Outcome.isReturned {α : Type} : Outcome α → Bool
  | .returned _ _ => true
  | .waiting _ => false

/-- Append a call to the trace. -/
def Cog.log (c : Cog) (e : Event) : Cog := { c with trace := c.trace ++ [e] }

/-- Method `void send_ack()`: the data line is pulled low for one clock pulse. -/
def Cog.send_ack (c : Cog) : Cog := c.log .send_ack

/-- Method `void await_start()`. -/
def Cog.await_start (c : Cog) : Cog := c.log .await_start

/-- The call `append_receive_buffer(c)` made by `read_to_end`. -/
def Cog.append_receive_buffer (c : Cog) (byte : Nat) : Cog :=
  { (c.log (.append_receive_buffer byte)) with dev := c.dev.append_receive_buffer byte }

/-- The call `reset_receive_buffer()` made by `run`. -/
def Cog.reset_receive_buffer (c : Cog) : Cog :=
  { (c.log .reset_receive_buffer) with dev := c.dev.reset_receive_buffer }

/-- The assignment `m_request_ended = b`. -/
def Cog.set_request_ended (c : Cog) (b : Bool) : Cog :=
  { c with dev := { c.dev with m_request_ended := b } }

/-- Method `void write(const uint8_t byte)`: nothing when the request has ended, otherwise
the byte is clocked out and the assembly stores the master's answer in `m_request_ended`. -/
def Cog.write (c : Cog) (byte : Nat) : Outcome Unit :=
  if c.dev.m_request_ended then
    .returned () c
  else
    match c.naks with
    | [] => .waiting (c.log (.write (u8 byte)))
    | nak :: naks =>
      .returned () { ((c.log (.write (u8 byte))).set_request_ended nak) with naks := naks }

/-- A callback (`I2CCallback`, a function that receives the engine): a program over the
public methods `available`, `read` and `write` that may look at every value it gets
back. -/
inductive Handler where
  | done
  | available (next : Nat → Handler)
  | read (next : Int → Handler)
  | write (byte : Nat) (next : Handler)

/-- The callback that calls `read()` exactly `k` times. -/
def Handler.reads : Nat → Handler
  | 0 => .done
  | k + 1 => .read (fun _ => Handler.reads k)

/-- Run a callback on the cog. -/
def Handler.call : Handler → Cog → Outcome Unit
  | .done, c => .returned () c
  | .available next, c => (next c.dev.available).call c
  | .read next, c => (next (c.dev.read).1).call { c with dev := (c.dev.read).2 }
  | .write byte next, c =>
    match c.write byte with
    | .returned _ c1 => next.call c1
    | .waiting c1 => .waiting c1

/-- The call `m_on_request(this)`. -/
def Cog.on_request (c : Cog) (on_request : Handler) : Outcome Unit :=
  on_request.call (c.log (.on_request c.dev))

/-- The call `m_on_receive(this)`. -/
def Cog.on_receive (c : Cog) (on_receive : Handler) : Outcome Unit :=
  on_receive.call (c.log (.on_receive c.dev))

/-- The `while(true)` loop of `read_to_end`, on the frames that the bus still holds: a
frame with `is_restart != 2` ends the loop with `(bool) is_restart`, any other frame is a
data byte, which is acknowledged and appended. -/
def Cog.read_to_end_loop : List Frame → Cog → Outcome Bool
  | [], c => .waiting { c with frames := [] }
  | f :: fs, c =>
    if f.is_restart ≠ 2 then
      .returned (decide (f.is_restart ≠ 0)) { c with frames := fs }
    else
      Cog.read_to_end_loop fs
        ({ c with frames := fs }.send_ack.append_receive_buffer (u8 f.result))

/-- Method `bool read_to_end()`. -/
def Cog.read_to_end (c : Cog) : Outcome Bool :=
  Cog.read_to_end_loop c.frames (c.log (.read_to_end c.dev))

/-- Body of the restart loop of `run()`, from the moment `read_address` has returned with
`result` in its register. The value is `false` when the body leaves the restart loop with
`break`, `true` when the loop goes round. -/
def Cog.restart_body (on_receive on_request : Handler) (result : Nat) (c : Cog) :
    Outcome Bool :=
  if u8 result >>> 1 = c.dev.m_slave_address then
    if u8 result &&& 1 ≠ 0 then
      match (c.send_ack.set_request_ended false).on_request on_request with
      | .returned _ c1 => .returned false c1
      | .waiting c1 => .waiting c1
    else
      match c.send_ack.read_to_end with
      | .waiting c1 => .waiting c1
      | .returned restart c1 =>
        match c1.on_receive on_receive with
        | .waiting c2 => .waiting c2
        | .returned _ c2 => .returned restart c2.reset_receive_buffer
  else
    .returned false c

/-- The restart loop of `run()` on the address bytes that the bus still holds, together
with what follows it: when the body leaves the loop with `break`, the outer loop of `run()`
calls `await_start()` and enters the restart loop again. The result is the cog at the
point where the bus has gone silent. -/
def Cog.restart_loop (on_receive on_request : Handler) : List Nat → Cog → Cog
  | [], c => c.log .read_address
  | result :: addresses, c =>
    match Cog.restart_body on_receive on_request result (c.log .read_address) with
    | .waiting c1 => c1
    | .returned true c1 => Cog.restart_loop on_receive on_request addresses c1
    | .returned false c1 => Cog.restart_loop on_receive on_request addresses c1.await_start

/-- Method `void run()`: `while(true) { await_start(); while(true) { ... } }`. -/
def Cog.run (on_receive on_request : Handler) (addresses : List Nat) (c : Cog) : Cog :=
  Cog.restart_loop on_receive on_request addresses c.await_start

/-- The cog on which `run()` is entered right after construction. -/
def Cog.boot (address receive_buffer_size : Nat) (heap : Nat → Nat) (request_ended : Bool)
    (frames : List Frame) (naks : List Bool) : Cog where
  dev := I2CSlave.ctor address receive_buffer_size heap request_ended
  frames := frames
  naks := naks
  trace := []

/-! ## Vocabulary of the statements -/

/-- What a callback may have done to the engine `s` when it leaves it as `s'`: it cannot
touch the address, the buffer cells or the upper bound, and an empty buffer stays empty. -/
def I2CSlave.Handled (s s' : I2CSlave) : Prop :=
  s'.m_slave_address = s.m_slave_address ∧
  s'.m_receive_buffer = s.m_receive_buffer ∧
  s'.m_buffer_upper_bound = s.m_buffer_upper_bound ∧
  (s.m_buffer_upper_bound < s.m_buffer_ptr → s'.m_buffer_ptr = s.m_buffer_ptr)

/-- The frames that the complete data bytes `ds` leave in the registers of `read_to_end`. -/
def Frame.data (ds : List Nat) : List Frame := ds.map (fun d => ⟨d, 2⟩)

/-- The calls that `read_to_end` makes for the data bytes `ds`. -/
def Event.received (ds : List Nat) : List Event :=
  ds.flatMap (fun d => [Event.send_ack, Event.append_receive_buffer (u8 d)])

/-- The property of a call in the trace that `read_to_end`, when it is entered, finds the
buffer of the `C`-byte engine empty. -/
def Event.entersFresh (C : Nat) : Event → Prop
  | .read_to_end dev => dev.Fresh C
  | _ => True

/-- The call is an invocation of the request callback. -/
def Event.isOnRequest : Event → Bool
  | .on_request _ => true
  | _ => false

/-- The call is an invocation of the receive callback. -/
def Event.isOnReceive : Event → Bool
  | .on_receive _ => true
  | _ => false

/-- The calls made between the cog `c0` and the later cog `c`. -/
def Cog.since (c0 c : Cog) : List Event := c.trace.drop c0.trace.length

/-- The cog of the worked examples: a 4-byte engine at address `0x42`, just booted and
past its first `await_start`; the bus holds the data bytes `0x11`, `0x22`, a restart, the
data byte `0x33` and a stop, and will answer one `write` with a NAK. -/
def Cog.demo : Cog :=
  (Cog.boot 0x42 4 (fun _ => 0) true
    [⟨0x11, 2⟩, ⟨0x22, 2⟩, ⟨1, 1⟩, ⟨0x33, 2⟩, ⟨0, 0⟩] [true]).await_start

/-! ## The SPI driver: constants of `PropWare/spi.h` and of the legacy `spi.h`

An enumerator without an initialiser has the value of its predecessor plus one, the first
one has the value `0`. An object-like macro stands for the value of its replacement text.
-/

/-- Enumerator `MODE_0` of `SPI::Mode`. -/
def SPI.MODE_0 : Nat := 0

/-- Enumerator `MODE_1` of `SPI::Mode`. -/
def SPI.MODE_1 : Nat := SPI.MODE_0 + 1

/-- Enumerator `MODE_2` of `SPI::Mode`. -/
def SPI.MODE_2 : Nat := SPI.MODE_1 + 1

/-- Enumerator `MODE_3` of `SPI::Mode`. -/
def SPI.MODE_3 : Nat := SPI.MODE_2 + 1

/-- Enumerator `MODES` of `SPI::Mode`, "number of SPI modes". -/
def SPI.MODES : Nat := SPI.MODE_3 + 1

/-- Enumerator `LSB_FIRST = SPI::MODES` of `SPI::BitMode`. -/
def SPI.LSB_FIRST : Nat := SPI.MODES

/-- Enumerator `MSB_FIRST` of `SPI::BitMode`. -/
def SPI.MSB_FIRST : Nat := SPI.LSB_FIRST + 1

/-- Enumerator `BIT_MODES` of `SPI::BitMode`. -/
def SPI.BIT_MODES : Nat := SPI.MSB_FIRST + 1

/-- Enumerator `NO_ERROR = 0` of `SPI::ErrorCode`. -/
def SPI.NO_ERROR : Nat := 0

/-- Enumerator `BEG_ERROR` of `SPI::ErrorCode`, "first SPI error". -/
def SPI.BEG_ERROR : Nat := SPI.NO_ERROR + 1

/-- Enumerator `INVALID_PIN = BEG_ERROR` of `SPI::ErrorCode`. -/
def SPI.INVALID_PIN : Nat := SPI.BEG_ERROR

/-- Enumerator `INVALID_CLOCK_INIT` of `SPI::ErrorCode`. -/
def SPI.INVALID_CLOCK_INIT : Nat := SPI.INVALID_PIN + 1

/-- Enumerator `INVALID_MODE` of `SPI::ErrorCode`. -/
def SPI.INVALID_MODE : Nat := SPI.INVALID_CLOCK_INIT + 1

/-- Enumerator `INVALID_PIN_MASK` of `SPI::ErrorCode`. -/
def SPI.INVALID_PIN_MASK : Nat := SPI.INVALID_MODE + 1

/-- Enumerator `TOO_MANY_BITS` of `SPI::ErrorCode`. -/
def SPI.TOO_MANY_BITS : Nat := SPI.INVALID_PIN_MASK + 1

/-- Enumerator `TIMEOUT` of `SPI::ErrorCode`. -/
def SPI.TIMEOUT : Nat := SPI.TOO_MANY_BITS + 1

/-- Enumerator `TIMEOUT_RD` of `SPI::ErrorCode`. -/
def SPI.TIMEOUT_RD : Nat := SPI.TIMEOUT + 1

/-- Enumerator `EXCESSIVE_PAR_SZ` of `SPI::ErrorCode`. -/
def SPI.EXCESSIVE_PAR_SZ : Nat := SPI.TIMEOUT_RD + 1

/-- Enumerator `COG_NOT_STARTED` of `SPI::ErrorCode`. -/
def SPI.COG_NOT_STARTED : Nat := SPI.EXCESSIVE_PAR_SZ + 1

/-- Enumerator `MODULE_NOT_RUNNING` of `SPI::ErrorCode`. -/
def SPI.MODULE_NOT_RUNNING : Nat := SPI.COG_NOT_STARTED + 1

/-- Enumerator `INVALID_FREQ` of `SPI::ErrorCode`. -/
def SPI.INVALID_FREQ : Nat := SPI.MODULE_NOT_RUNNING + 1

/-- Enumerator `INVALID_BYTE_SIZE` of `SPI::ErrorCode`. -/
def SPI.INVALID_BYTE_SIZE : Nat := SPI.INVALID_FREQ + 1

/-- Enumerator `ADDR_MISALIGN` of `SPI::ErrorCode`. -/
def SPI.ADDR_MISALIGN : Nat := SPI.INVALID_BYTE_SIZE + 1

/-- Enumerator `INVALID_BITMODE` of `SPI::ErrorCode`. -/
def SPI.INVALID_BITMODE : Nat := SPI.ADDR_MISALIGN + 1

/-- Enumerator `END_ERROR = SPI::INVALID_BITMODE` of `SPI::ErrorCode`, "last SPI error
code". -/
def SPI.END_ERROR : Nat := SPI.INVALID_BITMODE

/-- Constant `static const uint8_t MAX_PAR_BITS = 31`. -/
def SPI.MAX_PAR_BITS : Nat := 31

/-- Constant `static const uint8_t FUNC_SEND = 0`. -/
def SPI.FUNC_SEND : Nat := 0

/-- Constant `static const uint8_t FUNC_READ = 1`. -/
def SPI.FUNC_READ : Nat := 1

/-- Constant `static const uint8_t FUNC_SEND_FAST = 2`. -/
def SPI.FUNC_SEND_FAST : Nat := 2

/-- Constant `static const uint8_t FUNC_READ_FAST = 3`. -/
def SPI.FUNC_READ_FAST : Nat := 3

/-- Constant `static const uint8_t FUNC_READ_SECTOR = 4`. -/
def SPI.FUNC_READ_SECTOR : Nat := 4

/-- Constant `static const uint8_t FUNC_SET_MODE = 5`. -/
def SPI.FUNC_SET_MODE : Nat := 5

/-- Constant `static const uint8_t FUNC_SET_BITMODE = 6`. -/
def SPI.FUNC_SET_BITMODE : Nat := 6

/-- Constant `static const uint8_t FUNC_SET_FREQ = 7`. -/
def SPI.FUNC_SET_FREQ : Nat := 7

/-- Constant `static const uint8_t FUNC_GET_FREQ = 8`. -/
def SPI.FUNC_GET_FREQ : Nat := 8

/-- Constant `static const uint8_t BITS_OFFSET = 8`. -/
def SPI.BITS_OFFSET : Nat := 8

/-- The nine function codes of `SPI`, in the order of their declaration. -/
def SPI.functionCodes : List Nat :=
  [SPI.FUNC_SEND, SPI.FUNC_READ, SPI.FUNC_SEND_FAST, SPI.FUNC_READ_FAST,
    SPI.FUNC_READ_SECTOR, SPI.FUNC_SET_MODE, SPI.FUNC_SET_BITMODE, SPI.FUNC_SET_FREQ,
    SPI.FUNC_GET_FREQ]

/-- The fourteen error codes of `SPI::ErrorCode`, in the order of their declaration. -/
def SPI.errorCodes : List Nat :=
  [SPI.INVALID_PIN, SPI.INVALID_CLOCK_INIT, SPI.INVALID_MODE, SPI.INVALID_PIN_MASK,
    SPI.TOO_MANY_BITS, SPI.TIMEOUT, SPI.TIMEOUT_RD, SPI.EXCESSIVE_PAR_SZ,
    SPI.COG_NOT_STARTED, SPI.MODULE_NOT_RUNNING, SPI.INVALID_FREQ, SPI.INVALID_BYTE_SIZE,
    SPI.ADDR_MISALIGN, SPI.INVALID_BITMODE]

/-- Enumerator `SPI_MODE_0` of `spimode_t`. -/
def SPI_MODE_0 : Nat := 0

/-- Enumerator `SPI_MODE_1` of `spimode_t`. -/
def SPI_MODE_1 : Nat := SPI_MODE_0 + 1

/-- Enumerator `SPI_MODE_2` of `spimode_t`. -/
def SPI_MODE_2 : Nat := SPI_MODE_1 + 1

/-- Enumerator `SPI_MODE_3` of `spimode_t`. -/
def SPI_MODE_3 : Nat := SPI_MODE_2 + 1

/-- Enumerator `SPI_MODES` of `spimode_t`. -/
def SPI_MODES : Nat := SPI_MODE_3 + 1

/-- Enumerator `SPI_LSB_FIRST = SPI_MODES` of `spibitmode_t`. -/
def SPI_LSB_FIRST : Nat := SPI_MODES

/-- Enumerator `SPI_MSB_FIRST` of `spibitmode_t`. -/
def SPI_MSB_FIRST : Nat := SPI_LSB_FIRST + 1

/-- Enumerator `SPI_BIT_MODES` of `spibitmode_t`. -/
def SPI_BIT_MODES : Nat := SPI_MSB_FIRST + 1

/-- Macro `SPI_MAX_PAR_BITS`. -/
def SPI_MAX_PAR_BITS : Nat := 31

/-- Macro `SPI_ERRORS_BASE`. -/
def SPI_ERRORS_BASE : Nat := 1

/-- Macro `SPI_ERRORS_LIMIT`. -/
def SPI_ERRORS_LIMIT : Nat := 16

/-- Macro `SPI_INVALID_PIN`. -/
def SPI_INVALID_PIN : Nat := SPI_ERRORS_BASE + 0

/-- Macro `SPI_INVALID_CLOCK_INIT`. -/
def SPI_INVALID_CLOCK_INIT : Nat := SPI_ERRORS_BASE + 1

/-- Macro `SPI_INVALID_MODE`. -/
def SPI_INVALID_MODE : Nat := SPI_ERRORS_BASE + 2

/-- Macro `SPI_INVALID_PIN_MASK`. -/
def SPI_INVALID_PIN_MASK : Nat := SPI_ERRORS_BASE + 3

/-- Macro `SPI_TOO_MANY_BITS`. -/
def SPI_TOO_MANY_BITS : Nat := SPI_ERRORS_BASE + 4

/-- Macro `SPI_TIMEOUT`. -/
def SPI_TIMEOUT : Nat := SPI_ERRORS_BASE + 5

/-- Macro `SPI_TIMEOUT_RD`. -/
def SPI_TIMEOUT_RD : Nat := SPI_ERRORS_BASE + 6

/-- Macro `SPI_EXCESSIVE_PAR_SZ`. -/
def SPI_EXCESSIVE_PAR_SZ : Nat := SPI_ERRORS_BASE + 7

/-- Macro `SPI_COG_NOT_STARTED`. -/
def SPI_COG_NOT_STARTED : Nat := SPI_ERRORS_BASE + 8

/-- Macro `SPI_MODULE_NOT_RUNNING`. -/
def SPI_MODULE_NOT_RUNNING : Nat := SPI_ERRORS_BASE + 9

/-- Macro `SPI_INVALID_FREQ`. -/
def SPI_INVALID_FREQ : Nat := SPI_ERRORS_BASE + 10

/-- Macro `SPI_INVALID_BYTE_SIZE`. -/
def SPI_INVALID_BYTE_SIZE : Nat := SPI_ERRORS_BASE + 11

/-- Macro `SPI_ADDR_MISALIGN`. -/
def SPI_ADDR_MISALIGN : Nat := SPI_ERRORS_BASE + 12

/-- Macro `SPI_INVALID_BITMODE`. -/
def SPI_INVALID_BITMODE : Nat := SPI_ERRORS_BASE + 13

/-- Macro `SPI_FUNC_SEND`. -/
def SPI_FUNC_SEND : Nat := 0

/-- Macro `SPI_FUNC_READ`. -/
def SPI_FUNC_READ : Nat := 1

/-- Macro `SPI_FUNC_SEND_FAST`. -/
def SPI_FUNC_SEND_FAST : Nat := 2

/-- Macro `SPI_FUNC_READ_FAST`. -/
def SPI_FUNC_READ_FAST : Nat := 3

/-- Macro `SPI_FUNC_READ_SECTOR`. -/
def SPI_FUNC_READ_SECTOR : Nat := 4

/-- Macro `SPI_FUNC_SET_MODE`. -/
def SPI_FUNC_SET_MODE : Nat := 5

/-- Macro `SPI_FUNC_SET_BITMODE`. -/
def SPI_FUNC_SET_BITMODE : Nat := 6

/-- Macro `SPI_FUNC_SET_FREQ`. -/
def SPI_FUNC_SET_FREQ : Nat := 7

/-- Macro `SPI_FUNC_GET_FREQ`. -/
def SPI_FUNC_GET_FREQ : Nat := 8

/-- Macro `SPI_BITS_OFFSET`. -/
def SPI_BITS_OFFSET : Nat := 8

/-- The function codes of the legacy header, in the order of their definition. -/
def SPI_functionCodes : List Nat :=
  [SPI_FUNC_SEND, SPI_FUNC_READ, SPI_FUNC_SEND_FAST, SPI_FUNC_READ_FAST,
    SPI_FUNC_READ_SECTOR, SPI_FUNC_SET_MODE, SPI_FUNC_SET_BITMODE, SPI_FUNC_SET_FREQ,
    SPI_FUNC_GET_FREQ]

/-- The error codes of the legacy header, in the order of their definition. -/
def SPI_errorCodes : List Nat :=
  [SPI_INVALID_PIN, SPI_INVALID_CLOCK_INIT, SPI_INVALID_MODE, SPI_INVALID_PIN_MASK,
    SPI_TOO_MANY_BITS, SPI_TIMEOUT, SPI_TIMEOUT_RD, SPI_EXCESSIVE_PAR_SZ,
    SPI_COG_NOT_STARTED, SPI_MODULE_NOT_RUNNING, SPI_INVALID_FREQ, SPI_INVALID_BYTE_SIZE,
    SPI_ADDR_MISALIGN, SPI_INVALID_BITMODE]

/-- The mailbox word of a command: the function code in the low byte, the bit count from
bit `BITS_OFFSET` on (`f | (n << BITS_OFFSET)`). -/
def SPI.commandWord (f n : Nat) : Nat := f ||| (n <<< SPI.BITS_OFFSET)

/-! ## The SPI driver: the methods, modelled from the spec

`PropWare/spi.h` declares the methods of `class SPI` and the members `m_mailbox` and
`m_cog`; the bodies of the methods are not among the sources. The definitions of this
section follow the design document (sections 3, 4.1 and 7). The parallel unit is the
environment of the driver: every method that talks to it takes `answers`, which tells
whether the unit reacts within the timeout window of that call.
-/

/-- Macro `SPI_MAX_CLOCK`, `(CLKFREQ >> 2)`, of the legacy header. -/
def SPI_MAX_CLOCK (CLKFREQ : Nat) : Nat := CLKFREQ >>> 2

/-- Modelled from the spec: the value of `SPI::MAX_CLOCK`, which `PropWare/spi.h` declares
without a value; the clock frequency "must be strictly less than one quarter of the core
clock", the quarter being `CLKFREQ >> 2` as in the legacy header. -/
def SPI.MAX_CLOCK (CLKFREQ : Nat) : Int := (SPI_MAX_CLOCK CLKFREQ : Nat)

/-- Modelled from the spec: the state of the SPI master driver, missing with the
constructor of `class SPI`. `m_mailbox` is the mailbox word, `none` being the sentinel
"idle/ready" and `some w` a command in flight; `m_cog` is the driver run state, the unit
that `start` launched if one is active; `mode`, `bitmode` and `frequency` are the bus
configuration, "read back exactly as set"; `launches` counts how often the unit was
launched and `sent` lists the `(bits, value)` pairs accepted for shifting out. -/
structure SPI where
  m_mailbox : Option Nat
  m_cog : Option Nat
  mode : Nat
  bitmode : Nat
  frequency : Int
  launches : Nat
  sent : List (Nat × Nat)
  deriving DecidableEq

/-- Modelled from the spec: `is_running()`, "pure query, no side effects", missing with
`spi.cpp`: whether the parallel unit is active. -/
def SPI.is_running (s : SPI) : Bool := s.m_cog.isSome

/-- Modelled from the spec: `wait()`, missing with `spi.cpp`: "poll the mailbox until it
equals the idle sentinel", `TIMEOUT` on expiry. An idle mailbox needs no reaction; a
command in flight is cleared by a running unit that reacts. -/
def SPI.wait (s : SPI) (answers : Bool) : Nat × SPI :=
  if s.m_mailbox = none then (SPI.NO_ERROR, s)
  else if s.is_running ∧ answers = true then (SPI.NO_ERROR, { s with m_mailbox := none })
  else (SPI.TIMEOUT, s)

/-- Modelled from the spec: the rendezvous of section 4.1, "the host writes a command word
only when the mailbox reads as idle, and the unit clears it back to idle only after
completing the command": the driver waits for the idle mailbox, writes `word`, and the
unit completes the command with `effect`; `TIMEOUT` when the unit does not acknowledge. -/
def SPI.command (s : SPI) (word : Nat) (answers : Bool) (effect : SPI → SPI) : Nat × SPI :=
  if (s.wait answers).1 ≠ SPI.NO_ERROR then (SPI.TIMEOUT, s)
  else if s.is_running ∧ answers = true then
    (SPI.NO_ERROR, effect { s with m_mailbox := none })
  else (SPI.TIMEOUT, { s with m_mailbox := some word })

/-- Modelled from the spec: `set_mode(mode)`, missing with `spi.cpp`: `INVALID_MODE` for an
input that is none of the four modes, with no side effect; otherwise the configuration
command goes through the mailbox. -/
def SPI.set_mode (s : SPI) (mode : Nat) (answers : Bool) : Nat × SPI :=
  if mode ∉ [SPI.MODE_0, SPI.MODE_1, SPI.MODE_2, SPI.MODE_3] then (SPI.INVALID_MODE, s)
  else s.command SPI.FUNC_SET_MODE answers (fun u => { u with mode := mode })

/-- Modelled from the spec: `set_bit_mode(bitmode)`, missing with `spi.cpp`:
`INVALID_BITMODE` for an input that is neither bit order, with no side effect; otherwise
the configuration command goes through the mailbox. -/
def SPI.set_bit_mode (s : SPI) (bitmode : Nat) (answers : Bool) : Nat × SPI :=
  if bitmode ∉ [SPI.LSB_FIRST, SPI.MSB_FIRST] then (SPI.INVALID_BITMODE, s)
  else s.command SPI.FUNC_SET_BITMODE answers (fun u => { u with bitmode := bitmode })

/-- Modelled from the spec: `set_clock(frequency)`, missing with `spi.cpp`: `INVALID_FREQ`
for an out-of-range input, with no side effect on bus or mailbox; otherwise the
configuration command goes through the mailbox. The spec gives the upper limit of the
range, "strictly less than one quarter of the core clock"; a frequency that is not
positive is out of range as well. -/
def SPI.set_clock (CLKFREQ : Nat) (s : SPI) (frequency : Int) (answers : Bool) : Nat × SPI :=
  if SPI.MAX_CLOCK CLKFREQ ≤ frequency ∨ frequency ≤ 0 then (SPI.INVALID_FREQ, s)
  else s.command SPI.FUNC_SET_FREQ answers (fun u => { u with frequency := frequency })

/-- Modelled from the spec: `get_clock(&frequency)`, missing with `spi.cpp`: "issues
GET_FREQ and blocks for the response; never silently returns stale data": the frequency
is stored only when the unit has answered. -/
def SPI.get_clock (s : SPI) (answers : Bool) : Nat × Option Int × SPI :=
  ((s.command SPI.FUNC_GET_FREQ answers id).1,
    if (s.command SPI.FUNC_GET_FREQ answers id).1 = SPI.NO_ERROR then some s.frequency
    else none,
    (s.command SPI.FUNC_GET_FREQ answers id).2)

/-- Modelled from the spec: `shift_out(bits, value)`, missing with `spi.cpp`: "`bits` must
be ≤ 31", `TOO_MANY_BITS` otherwise; it "writes a SEND command with the value and bit
count into the mailbox and returns once the unit has accepted the command", which is then
in flight; `TIMEOUT` if the unit does not acknowledge. -/
def SPI.shift_out (s : SPI) (bits value : Nat) (answers : Bool) : Nat × SPI :=
  if SPI.MAX_PAR_BITS < bits then (SPI.TOO_MANY_BITS, s)
  else s.command (SPI.commandWord SPI.FUNC_SEND bits) answers
    (fun u => { u with
      m_mailbox := some (SPI.commandWord SPI.FUNC_SEND bits)
      sent := u.sent ++ [(bits, value)] })

/-- A pin mask is valid when exactly one of its 32 bits is set. -/
def SPI.validPin (mask : Nat) : Bool := (List.range 32).any (fun k => mask == 2 ^ k)

/-- What the parallel unit does during one call of `start`: `cog` is the unit that a
launch would start, `ready` tells whether the launched unit signals ready before the
startup timeout, `mode_ack` and `bitmode_ack` whether the unit acknowledges the two
configuration commands. -/
structure SPI.Reaction where
  cog : Nat
  ready : Bool
  mode_ack : Bool
  bitmode_ack : Bool
  deriving DecidableEq

/-- Modelled from the spec: the launch of the parallel unit inside `start`, missing with
`spi.cpp`: the driver "launches it and blocks until it signals ready or a startup timeout
elapses (`COG_NOT_STARTED`)"; the launched unit runs at the given clock frequency. -/
def SPI.launch (s : SPI) (frequency : Int) (r : SPI.Reaction) : Nat × SPI :=
  if r.ready = false then (SPI.COG_NOT_STARTED, s)
  else
    (SPI.NO_ERROR,
      { s with
        m_mailbox := none
        m_cog := some r.cog
        frequency := frequency
        launches := s.launches + 1 })

/-- Modelled from the spec: the application of mode and bit order inside `start`, missing
with `spi.cpp`: `set_mode` followed by `set_bit_mode`, the first error being returned. -/
def SPI.configure (s : SPI) (mode bitmode : Nat) (r : SPI.Reaction) : Nat × SPI :=
  if (s.set_mode mode r.mode_ack).1 ≠ SPI.NO_ERROR then s.set_mode mode r.mode_ack
  else (s.set_mode mode r.mode_ack).2.set_bit_mode bitmode r.bitmode_ack

/-- Modelled from the spec: `start(mosi, miso, sclk, frequency, mode, bitmode)`, missing
with `spi.cpp`: it "validates that `frequency` is within range and pins are distinct and
valid; if the unit is not running, launches it and blocks until it signals ready or a
startup timeout elapses (`COG_NOT_STARTED`); if already running, only re-applies
mode/bit-order"; it "returns success or first validation/timeout error encountered". The
spec names the error codes but not the check that returns each of the validation codes;
the assignment below follows the names. -/
def SPI.start (CLKFREQ : Nat) (s : SPI) (mosi miso sclk : Nat) (frequency : Int)
    (mode bitmode : Nat) (r : SPI.Reaction) : Nat × SPI :=
  if ¬ (SPI.validPin mosi ∧ SPI.validPin miso ∧ SPI.validPin sclk) then
    (SPI.INVALID_PIN_MASK, s)
  else if mosi = miso ∨ mosi = sclk ∨ miso = sclk then (SPI.INVALID_PIN, s)
  else if SPI.MAX_CLOCK CLKFREQ ≤ frequency ∨ frequency ≤ 0 then (SPI.INVALID_CLOCK_INIT, s)
  else if s.is_running then s.configure mode bitmode r
  else if (s.launch frequency r).1 ≠ SPI.NO_ERROR then s.launch frequency r
  else (s.launch frequency r).2.configure mode bitmode r

/-- Modelled from the spec: `stop()`, missing with `spi.cpp`: it "halts the unit; fails
with `COG_NOT_STARTED` if none is running". -/
def SPI.stop (s : SPI) : Nat × SPI :=
  if s.is_running then (SPI.NO_ERROR, { s with m_cog := none, m_mailbox := none })
  else (SPI.COG_NOT_STARTED, s)

/-! ## The two wires, seen from the inline assembly

The assembly of `write`, `send_ack` and `read_to_end` reads the input register `ina` with
`waitpeq`, `waitpne` and `test`, and drives SDA through the bits of `dira` and `outa`.
Time is not modelled: the bus is the sequence of the looks that the cog takes at `ina`,
each look giving the level of both wires. `waitpeq`/`waitpne` take looks until SCL is at
the awaited level, `test` takes one look. A block yields `none` when the looks run out
before it has finished.
-/

/-- One look at the input register `ina`: the levels of SCL and SDA. -/
structure Pins where
  scl : Bool
  sda : Bool
  deriving DecidableEq

/-- What the assembly does to the wires and what it sees on them, in program order. -/
inductive Wire where
  /-- A `waitpne SCLMask, SCLMask` has returned: SCL was seen low. -/
  | scl_low
  /-- A `waitpeq SCLMask, SCLMask` has returned: SCL was seen high. -/
  | scl_high
  /-- A `test SCLMask, ina` has seen SCL at `level`. -/
  | test_scl (level : Bool)
  /-- A `test SDAMask, ina` has seen SDA at `level`. -/
  | test_sda (level : Bool)
  /-- The bit of SDA in `dira` was written: `true` by `or dira, SDAMask` (the cog drives
  the line), `false` by `andn dira, SDAMask` (the line is released). -/
  | dira_sda (drive : Bool)
  /-- The bit of SDA in `outa` was written (`muxnz outa, SDAMask`, `andn outa, SDAMask`). -/
  | outa_sda (level : Bool)
  deriving DecidableEq

/-- The port of the cog: the bits of SDA in `dira` and `outa`, the looks at `ina` that are
still to come, and what has happened on the wires so far, oldest first. -/
structure Port where
  dira_sda : Bool
  outa_sda : Bool
  ina : List Pins
  wire : List Wire
  deriving DecidableEq

/-- The looks that remain after SCL has been seen at `level`: the look that shows the
level is used up. -/
def Pins.await (level : Bool) : List Pins → Option (List Pins)
  | [] => none
  | p :: ps => if p.scl = level then some ps else Pins.await level ps

/-- Instruction `waitpne SCLMask, SCLMask`: wait until SCL is low. -/
def Port.waitpne_scl (p : Port) : Option Port :=
  (Pins.await false p.ina).map fun rest => { p with ina := rest, wire := p.wire ++ [.scl_low] }

/-- Instruction `waitpeq SCLMask, SCLMask`: wait until SCL is high. -/
def Port.waitpeq_scl (p : Port) : Option Port :=
  (Pins.await true p.ina).map fun rest => { p with ina := rest, wire := p.wire ++ [.scl_high] }

/-- Instruction `test SDAMask, ina`: the level of SDA (the flag is `C` with `wc`, and `Z`
is its negation with `wz`). -/
def Port.test_sda (p : Port) : Option (Bool × Port) :=
  match p.ina with
  | [] => none
  | q :: rest => some (q.sda, { p with ina := rest, wire := p.wire ++ [.test_sda q.sda] })

/-- Instruction `or dira, SDAMask`. -/
def Port.or_dira_sda (p : Port) : Port :=
  { p with dira_sda := true, wire := p.wire ++ [.dira_sda true] }

/-- Instruction `andn dira, SDAMask`. -/
def Port.andn_dira_sda (p : Port) : Port :=
  { p with dira_sda := false, wire := p.wire ++ [.dira_sda false] }

/-- Instruction `andn outa, SDAMask`. -/
def Port.andn_outa_sda (p : Port) : Port :=
  { p with outa_sda := false, wire := p.wire ++ [.outa_sda false] }

/-- Instruction `muxnz outa, SDAMask`: the bit of SDA in `outa` becomes the flag `NZ`. -/
def Port.muxnz_outa_sda (p : Port) (nz : Bool) : Port :=
  { p with outa_sda := nz, wire := p.wire ++ [.outa_sda nz] }

/-- Instruction `rcl result, #1`: shift left by one, the flag `C` coming in as bit 0. -/
def rcl (result : Nat) (c : Bool) : Nat := (2 * result + c.toNat) % 2 ^ 32

/-- The loop `loop%=` of `write`: `test byte, datamask wz`, `muxnz outa, SDAMask`,
`waitpeq`, `shr datamask, #1 wz`, `waitpne`, `if_nz brs #loop`. `rounds` bounds the number
of passes: a 32-bit register that is shifted right is zero after 32 passes at most. -/
def Port.write_loop (byte : Nat) : (rounds : Nat) → (datamask : Nat) → Port → Option Port
  | 0, _, _ => none
  | rounds + 1, datamask, p =>
    (p.muxnz_outa_sda (decide (byte &&& datamask ≠ 0))).waitpeq_scl.bind fun p1 =>
    p1.waitpne_scl.bind fun p2 =>
    if datamask >>> 1 ≠ 0 then Port.write_loop byte rounds (datamask >>> 1) p2 else some p2

/-- The assembly of `write`, with `requestEnded` as its result: `mov datamask, #128`,
`waitpne`, `or dira, SDAMask`, the loop, `andn dira, SDAMask`, `waitpeq`,
`test SDAMask, ina wz`, `if_z mov requestEnded, #0`, `if_nz mov requestEnded, #1`. -/
def Port.write_asm (p : Port) (byte : Nat) : Option (Bool × Port) :=
  p.waitpne_scl.bind fun p1 =>
  (Port.write_loop byte 32 128 p1.or_dira_sda).bind fun p2 =>
  p2.andn_dira_sda.waitpeq_scl.bind fun p3 =>
  p3.test_sda

/-- The assembly of `send_ack`: `waitpne`, `or dira, SDAMask`, `andn outa, SDAMask`,
`waitpeq`, `waitpne`, `andn dira, SDAMask`. -/
def Port.send_ack_asm (p : Port) : Option Port :=
  p.waitpne_scl.bind fun p1 =>
  p1.or_dira_sda.andn_outa_sda.waitpeq_scl.bind fun p2 =>
  p2.waitpne_scl.bind fun p3 =>
  some p3.andn_dira_sda

/-- The label `DetectStop%=` of `read_to_end`, on the looks to come and the wire events so
far: `test SCLMask, ina wz`, `if_z brs #loop` (the value `none`), `test SDAMask, ina wz`,
`if_nz mov is_restart, #0`, `if_nz brs #ReceiveEnd` (the value `some 0`),
`brs #DetectStop`. -/
def Pins.DetectStop : List Pins → List Wire → Option (Option Nat × List Pins × List Wire)
  | [], _ => none
  | [a], w => if a.scl = false then some (none, [], w ++ [.test_scl false]) else none
  | a :: b :: rest, w =>
    if a.scl = false then some (none, b :: rest, w ++ [.test_scl false])
    else if b.sda = true then some (some 0, rest, w ++ [.test_scl true, .test_sda true])
    else Pins.DetectStop rest (w ++ [.test_scl true, .test_sda false])

/-- The label `DetectRestart%=` of `read_to_end`: `test SCLMask, ina wz`,
`if_z brs #loop` (the value `none`), `test SDAMask, ina wz`, `if_z mov is_restart, #1`,
`if_z brs #ReceiveEnd` (the value `some 1`), `brs #DetectRestart`. -/
def Pins.DetectRestart : List Pins → List Wire → Option (Option Nat × List Pins × List Wire)
  | [], _ => none
  | [a], w => if a.scl = false then some (none, [], w ++ [.test_scl false]) else none
  | a :: b :: rest, w =>
    if a.scl = false then some (none, b :: rest, w ++ [.test_scl false])
    else if b.sda = false then some (some 1, rest, w ++ [.test_scl true, .test_sda false])
    else Pins.DetectRestart rest (w ++ [.test_scl true, .test_sda true])

/-- The loop `loop%=` of `read_to_end`, entered with `bitcounter` bits still to read:
`waitpne`, `waitpeq`, `test SDAMask, ina wc`, `rcl result, #1`, `sub bitcounter, #1 wz`,
`if_nz brs #loop`. The assembly enters it with `bitcounter = 7` only. -/
def Port.read_loop : (bitcounter : Nat) → (result : Nat) → Port → Option (Nat × Port)
  | 0, _, _ => none
  | bitcounter + 1, result, p =>
    p.waitpne_scl.bind fun p1 =>
    p1.waitpeq_scl.bind fun p2 =>
    p2.test_sda.bind fun cp =>
    if bitcounter ≠ 0 then Port.read_loop bitcounter (rcl result cp.1) cp.2
    else some (rcl result cp.1, cp.2)

/-- The assembly block of `read_to_end`, with the registers `result` and `is_restart` as
its result: `mov is_restart, #2`, `mov bitcounter, #7`, `mov result, #0`, `waitpne`,
`waitpeq`, `test SDAMask, ina wc`, `rcl result, #1`, `if_c brs #DetectRestart`, then
`DetectStop` or `DetectRestart`, and the loop when one of them branches to it. -/
def Port.read_to_end_asm (p : Port) : Option (Frame × Port) :=
  p.waitpne_scl.bind fun p1 =>
  p1.waitpeq_scl.bind fun p2 =>
  p2.test_sda.bind fun cp =>
  (if cp.1 = true then Pins.DetectRestart cp.2.ina cp.2.wire
    else Pins.DetectStop cp.2.ina cp.2.wire).bind fun v =>
  match v.1 with
  | some is_restart =>
    some (⟨rcl 0 cp.1, is_restart⟩, { cp.2 with ina := v.2.1, wire := v.2.2 })
  | none =>
    (Port.read_loop 7 (rcl 0 cp.1) { cp.2 with ina := v.2.1, wire := v.2.2 }).bind fun rp =>
    some (⟨rp.1, 2⟩, rp.2)

/-- The engine on the wires: the `I2CSlave` object and the port of its cog. -/
structure Bus where
  dev : I2CSlave
  port : Port
  deriving DecidableEq

/-- Method `void write(const uint8_t byte)` on the wires: nothing when the request has
ended, otherwise the assembly, whose output `requestEnded` is `m_request_ended`. -/
def Bus.write (b : Bus) (byte : Nat) : Option Bus :=
  if b.dev.m_request_ended then some b
  else (b.port.write_asm (u8 byte)).bind fun r =>
    some { dev := { b.dev with m_request_ended := r.1 }, port := r.2 }

/-- One pass of the `while(true)` loop of `read_to_end` on the wires: the assembly block,
then `return (bool) is_restart` (the value `some _`) when `is_restart != 2`, else
`send_ack()` and `append_receive_buffer((uint8_t) result)` (the value `none`: the loop
goes round). -/
def Bus.read_to_end_pass (b : Bus) : Option (Option Bool × Bus) :=
  b.port.read_to_end_asm.bind fun fp =>
  if fp.1.is_restart ≠ 2 then some (some (decide (fp.1.is_restart ≠ 0)), { b with port := fp.2 })
  else fp.2.send_ack_asm.bind fun p =>
    some (none, { dev := b.dev.append_receive_buffer (u8 fp.1.result), port := p })

/-- Method `bool read_to_end()` on the wires. `passes` bounds the number of passes of the
loop; every pass uses up at least one look, so more passes than there are looks change
nothing. -/
def Bus.read_to_end : (passes : Nat) → Bus → Option (Bool × Bus)
  | 0, _ => none
  | passes + 1, b =>
    b.read_to_end_pass.bind fun r =>
    match r.1 with
    | some restart => some (restart, r.2)
    | none => Bus.read_to_end passes r.2

/-- A stretch of looks during which the assembly waits for SCL: the looks `stall`, in
which SCL is not yet at the awaited level, and the look `hit`, in which it is. -/
structure Edge where
  stall : List Pins
  hit : Pins
  deriving DecidableEq

/-- The looks of an edge, in order. -/
def Edge.looks (e : Edge) : List Pins := e.stall ++ [e.hit]

/-- The edge brings SCL to `level`. -/
def Edge.reaches (level : Bool) (e : Edge) : Prop :=
  (∀ p ∈ e.stall, p.scl = !level) ∧ e.hit.scl = level

instance (level : Bool) (e : Edge) : Decidable (e.reaches level) := by
  unfold Edge.reaches; infer_instance

/-- A clock pulse of the master: SCL rises, then falls. -/
structure Pulse where
  rise : Edge
  fall : Edge
  deriving DecidableEq

/-- The looks of a clock pulse, in order. -/
def Pulse.looks (x : Pulse) : List Pins := x.rise.looks ++ x.fall.looks

/-- The pulse is a rise of SCL followed by a fall. -/
def Pulse.valid (x : Pulse) : Prop := x.rise.reaches true ∧ x.fall.reaches false

instance (x : Pulse) : Decidable x.valid := by
  unfold Pulse.valid; infer_instance

/-- The calls on the wires by which `write` sends the bits `n - 1, .., 0` of `byte`: the
bit is put on SDA, then SCL rises and falls. -/
def Wire.sends (byte : Nat) : Nat → List Wire
  | 0 => []
  | n + 1 => [Wire.outa_sda (byte.testBit n), Wire.scl_high, Wire.scl_low]
      ++ Wire.sends byte n

/-- The polls of `DetectStop`/`DetectRestart` that find nothing new: a look in which SCL
is still high, then a look in which SDA still has the level `first` of the first bit. -/
def Pins.idlePolls (first : Bool) (rounds : List (Pins × Pins)) : Prop :=
  ∀ r ∈ rounds, r.1.scl = true ∧ r.2.sda = first

/-- The looks of a list of polls, in order. -/
def Pins.pollLooks (rounds : List (Pins × Pins)) : List Pins :=
  rounds.flatMap fun r => [r.1, r.2]

/-- The looks `looks` begin with the end of a receive phase and go on with `rest`: SCL
falls and rises, the first bit of a would-be byte is sampled at `restart`, the polls find
SCL high and SDA unchanged, until a look finds SCL still high and the next one finds SDA
at the other level. With `restart = true` SDA has fallen (a restart condition), with
`restart = false` it has risen (a stop condition). -/
def Pins.EndsPhase (restart : Bool) (looks rest : List Pins) : Prop :=
  ∃ (low high : Edge) (s : Pins) (rounds : List (Pins × Pins)) (a b : Pins),
    low.reaches false ∧ high.reaches true ∧ s.sda = restart ∧
    Pins.idlePolls restart rounds ∧ a.scl = true ∧ b.sda = !restart ∧
    looks = low.looks ++ high.looks ++ [s] ++ Pins.pollLooks rounds ++ [a, b] ++ rest

/-- The looks `looks` begin with the first bit of a data byte and go on with `rest`: SCL
falls and rises, the bit is sampled at `first`, the polls find SCL high and SDA unchanged,
until a look finds that SCL has fallen. -/
def Pins.StartsByte (first : Bool) (looks rest : List Pins) : Prop :=
  ∃ (low high : Edge) (s : Pins) (rounds : List (Pins × Pins)) (a : Pins),
    low.reaches false ∧ high.reaches true ∧ s.sda = first ∧
    Pins.idlePolls first rounds ∧ a.scl = false ∧
    looks = low.looks ++ high.looks ++ [s] ++ Pins.pollLooks rounds ++ [a] ++ rest

/-- The looks of the worked example of `write`: SCL is seen high, then low; eight pulses
follow, each seen high twice and low once; then SCL is seen low and high (the ninth rise),
and SDA is sampled high; one more look remains. -/
def Pins.demo : List Pins :=
  [⟨true, true⟩, ⟨false, true⟩] ++
    (List.replicate 8 [⟨true, true⟩, ⟨true, true⟩, ⟨false, true⟩]).flatten ++
    [⟨false, true⟩, ⟨true, true⟩, ⟨true, true⟩, ⟨false, true⟩]

/-- The bus of the worked example of `write`: a 4-byte engine at address `0x42` in a
request phase, SDA released, before the looks `Pins.demo`. -/
def Bus.demo : Bus :=
  { dev := I2CSlave.ctor 0x42 4 (fun _ => 0) false
    port := { dira_sda := false, outa_sda := false, ina := Pins.demo, wire := [] } }

/-- The looks in which the loop of `read_to_end` reads one bit: SCL falls, SCL rises, and
SDA is sampled. -/
structure BitSlot where
  fall : Edge
  rise : Edge
  sample : Pins
  deriving DecidableEq

/-- The looks of a bit slot, in order. -/
def BitSlot.looks (x : BitSlot) : List Pins := x.fall.looks ++ x.rise.looks ++ [x.sample]

/-- The bit slot is a fall of SCL followed by a rise. -/
def BitSlot.valid (x : BitSlot) : Prop := x.fall.reaches false ∧ x.rise.reaches true

instance (x : BitSlot) : Decidable x.valid := by
  unfold BitSlot.valid; infer_instance

/-- The looks during which `send_ack` holds SDA low: SCL falls, rises and falls again. -/
structure AckSlot where
  low : Edge
  rise : Edge
  fall : Edge
  deriving DecidableEq

/-- The looks of an acknowledge slot, in order. -/
def AckSlot.looks (x : AckSlot) : List Pins := x.low.looks ++ x.rise.looks ++ x.fall.looks

/-- The acknowledge slot is a fall of SCL, a rise and a fall. -/
def AckSlot.valid (x : AckSlot) : Prop :=
  x.low.reaches false ∧ x.rise.reaches true ∧ x.fall.reaches false

instance (x : AckSlot) : Decidable x.valid := by
  unfold AckSlot.valid; infer_instance

/-- What a poll loop that was entered after a first bit `first` has seen when it leaves
the looks `rest`, with the value `v` it leaves in `is_restart` (`none` when it branches to
the bit loop): either SCL high and then SDA at the other level, or SCL low. -/
def Pins.Polled (first : Bool) (v : Option Nat) (l rest : List Pins) : Prop :=
  (v = some first.toNat ∧ ∃ (rounds : List (Pins × Pins)) (a b : Pins),
      Pins.idlePolls first rounds ∧ a.scl = true ∧ b.sda = !first ∧
      l = Pins.pollLooks rounds ++ [a, b] ++ rest) ∨
  (v = none ∧ ∃ (rounds : List (Pins × Pins)) (a : Pins),
      Pins.idlePolls first rounds ∧ a.scl = false ∧
      l = Pins.pollLooks rounds ++ [a] ++ rest)

/-! ## The SPI driver: the flag bits and the table of the modes

The macros `BIT_0`, `BIT_1` and `BIT_2` come from `PropWare/PropWare.h`, which is not among
the sources: they are parameters of the constants that are defined by them.
-/

/-- Constant `static const uint8_t PHASE_BIT = BIT_0` of `PropWare/spi.h`. -/
def SPI.PHASE_BIT (BIT_0 : Nat) : Nat := u8 BIT_0

/-- Constant `static const uint8_t POLARITY_BIT = BIT_1` of `PropWare/spi.h`, commented
"Idle high == HIGH; Idle low == LOW". -/
def SPI.POLARITY_BIT (BIT_1 : Nat) : Nat := u8 BIT_1

/-- Constant `static const uint8_t BITMODE_BIT = BIT_2` of `PropWare/spi.h`. -/
def SPI.BITMODE_BIT (BIT_2 : Nat) : Nat := u8 BIT_2

/-- Legacy macro `SPI_PHASE_BIT`, defined as `BIT_0`. -/
def SPI_PHASE_BIT (BIT_0 : Nat) : Nat := BIT_0

/-- Legacy macro `SPI_POLARITY_BIT`, defined as `BIT_1`. -/
def SPI_POLARITY_BIT (BIT_1 : Nat) : Nat := BIT_1

/-- Legacy macro `SPI_BITMODE_BIT`, defined as `BIT_2`. -/
def SPI_BITMODE_BIT (BIT_2 : Nat) : Nat := BIT_2

/-- A row of the table in the comment of `SPI::Mode` (and of `spimode_t`): the columns
"SPI Mode", "CPOL" and "CPHA". -/
structure SPI.ModeRow where
  mode : Nat
  CPOL : Nat
  CPHA : Nat
  deriving DecidableEq

/-- The four rows of the table in the comment of `SPI::Mode` (and of `spimode_t`). -/
def SPI.modeTable : List SPI.ModeRow := [⟨0, 0, 0⟩, ⟨1, 0, 1⟩, ⟨2, 1, 0⟩, ⟨3, 1, 1⟩]

/-- The enumerator of `SPI::Mode` that stands for the mode of number `n` of the table:
`MODE_0` is commented "Mode 0", and so on. -/
def SPI.modeOfNumber : Nat → Option Nat
  | 0 => some SPI.MODE_0
  | 1 => some SPI.MODE_1
  | 2 => some SPI.MODE_2
  | 3 => some SPI.MODE_3
  | _ => none

/-- The enumerator of `spimode_t` that stands for the mode of number `n` of the table. -/
def SPI_modeOfNumber : Nat → Option Nat
  | 0 => some SPI_MODE_0
  | 1 => some SPI_MODE_1
  | 2 => some SPI_MODE_2
  | 3 => some SPI_MODE_3
  | _ => none

/-! ## The colour wheel of the WS2812 driver (`PropWare/ws2812.h`) -/

/-- Enumerator `WS2812::RED`. -/
def WS2812.RED : Nat := 0xFF0000

/-- Enumerator `WS2812::GREEN`. -/
def WS2812.GREEN : Nat := 0x00FF00

/-- Enumerator `WS2812::BLUE`. -/
def WS2812.BLUE : Nat := 0x0000FF

/-- Function `WS2812::color(red, green, blue)`: `(red << 16) | (green << 8) | blue` on
`unsigned int`. -/
def WS2812.color (red green blue : Nat) : Nat :=
  ((red <<< 16) % 2 ^ 32) ||| ((green <<< 8) % 2 ^ 32) ||| (blue % 2 ^ 32)

/-- Method `uint32_t WS2812::wheel(unsigned int position)`. -/
def WS2812.wheel (position : Nat) : Nat :=
  if position < 85 then
    WS2812.color (u32 (255 - (position : Int) * 3)) (u32 ((position : Int) * 3)) 0
  else if position < 170 then
    let position := u32 ((position : Int) - 85)
    WS2812.color 0 (u32 (255 - (position : Int) * 3)) (u32 ((position : Int) * 3))
  else
    let position := u32 ((position : Int) - 170)
    WS2812.color (u32 ((position : Int) * 3)) 0 (u32 (255 - (position : Int) * 3))

/-- The red component of a colour word `0x00RRGGBB`. -/
def WS2812.red (c : Nat) : Nat := (c >>> 16) &&& 0xFF

/-- The green component of a colour word `0x00RRGGBB`. -/
def WS2812.green (c : Nat) : Nat := (c >>> 8) &&& 0xFF

/-- The blue component of a colour word `0x00RRGGBB`. -/
def WS2812.blue (c : Nat) : Nat := c &&& 0xFF

/-! ## Reachable states of the receive buffer -/

/-- Every cell of the receive buffer holds a `uint8_t` value. -/
def I2CSlave.Bytes (s : I2CSlave) : Prop := ∀ c ∈ s.m_receive_buffer, c < 256

instance (s : I2CSlave) : Decidable s.Bytes := by
  unfold I2CSlave.Bytes; infer_instance

/-! ## The MCP300x driver (`PropWare/mcp300x.cpp`)

The driver talks to two collaborators, the SPI object behind `m_spi` and the functions of
`GPIO`. Neither is part of the model: a call is recorded, and what an SPI method returns
is given from outside. The class header `PropWare/mcp300x.h` and `PropWare/PropWare.h`
are not among the sources: the constants and the macro that `mcp300x.cpp` takes from them
are parameters.
-/

/-- Reduction of an integer to `int8_t`. -/
def int8 (n : Int) : Int := (n + 128) % 256 - 128

/-- Legacy macro `MCP300X_SPI_DEFAULT_FREQ`. -/
def MCP300X_SPI_DEFAULT_FREQ : Nat := 100000

/-- Legacy macro `MCP300X_SPI_MODE`. -/
def MCP300X_SPI_MODE : Nat := SPI_MODE_2

/-- Legacy macro `MCP300X_SPI_BITMODE`. -/
def MCP300X_SPI_BITMODE : Nat := SPI_MSB_FIRST

/-- What `mcp300x.cpp` takes from the headers that are not among the sources: the
constants `MCP300x::START`, `SINGLE_ENDED`, `DIFFERENTIAL`, `OPTN_WIDTH`, `DATA_WIDTH`,
`SPI_DEFAULT_FREQ`, `SPI_MODE`, `SPI_BITMODE`, and the macro `check_errors`. The macro is
given the conversion to the type of the local variable `err` of the function in which it
stands and the value of its argument; it yields `some e` when it makes the function return
`e`, and `none` when the function goes on. -/
structure MCP300x.Header where
  START : Nat
  SINGLE_ENDED : Nat
  DIFFERENTIAL : Nat
  OPTN_WIDTH : Nat
  DATA_WIDTH : Nat
  SPI_DEFAULT_FREQ : Int
  SPI_MODE : Nat
  SPI_BITMODE : Nat
  check_errors : (Int → Int) → Int → Option Int

/-- A call that the driver makes on a collaborator. -/
inductive MCP300x.Call where
  /-- The call `GPIO::set_dir(pin, GPIO::OUT)`. -/
  | set_dir_out (pin : Nat)
  /-- The call `GPIO::pin_set(pin)`. -/
  | pin_set (pin : Nat)
  /-- The call `GPIO::pin_clear(pin)`. -/
  | pin_clear (pin : Nat)
  /-- The call `m_spi->is_running()`. -/
  | is_running
  /-- The call `m_spi->start(mosi, miso, sclk, frequency, mode, bitmode)`. -/
  | start (mosi miso sclk : Nat) (frequency : Int) (mode bitmode : Nat)
  /-- The call `m_spi->set_mode(mode)`. -/
  | set_mode (mode : Nat)
  /-- The call `m_spi->set_bit_mode(bitmode)`. -/
  | set_bit_mode (bitmode : Nat)
  /-- The call `m_spi->shift_out(bits, value)`. -/
  | shift_out (bits value : Nat)
  /-- The call `m_spi->shift_in(bits, dat, bytes)`. -/
  | shift_in (bits bytes : Nat)
  deriving DecidableEq

/-- What the SPI object answers to the calls of one method of the driver (a method calls
each method of the SPI object once at most): the value of `is_running()` and the
`PropWare::ErrorCode` returned by each of the other methods. -/
structure MCP300x.Replies where
  is_running : Bool
  start : Int
  set_mode : Int
  set_bit_mode : Int
  shift_out : Int
  shift_in : Int
  deriving DecidableEq

/-- The data members of `class MCP300x` that the methods use (`m_spi` points to the SPI
object, which is outside of the model). -/
structure MCP300x where
  /-- Field `m_alwaysSetMode`. -/
  m_alwaysSetMode : Nat
  /-- Field `m_cs`, the pin mask of chip-select. -/
  m_cs : Nat
  deriving DecidableEq

/-- How far a method of the driver has got: the calls made so far, oldest first, and the
value with which it has returned, if it has. -/
structure MCP300x.Run where
  calls : List MCP300x.Call
  returned : Option Int
  deriving DecidableEq

/-- The entry of a method: no call made yet. -/
def MCP300x.Run.enter : MCP300x.Run := { calls := [], returned := none }

/-- A statement that is a call on a collaborator, without a value that is looked at; it is
not reached when the method has returned. -/
def MCP300x.Run.call (p : MCP300x.Run) (c : MCP300x.Call) : MCP300x.Run :=
  if p.returned.isSome then p else { p with calls := p.calls ++ [c] }

/-- A statement `check_errors(c)`, where the call `c` returns `reply` and `store` converts
to the type of the local variable `err`; it is not reached when the method has returned. -/
def MCP300x.Run.check_errors (p : MCP300x.Run) (k : MCP300x.Header) (store : Int → Int)
    (c : MCP300x.Call) (reply : Int) : MCP300x.Run :=
  if p.returned.isSome then p
  else { calls := p.calls ++ [c], returned := k.check_errors store reply }

/-- A statement `return v`; it is not reached when the method has returned. -/
def MCP300x.Run.leave (p : MCP300x.Run) (v : Int) : MCP300x.Run :=
  if p.returned.isSome then p else { p with returned := some v }

/-- The constructor `MCP300x::MCP300x(SPI *spi)`: `m_alwaysSetMode = 0`. The member `m_cs`
is not initialised, `cs` is the value that it happens to have. -/
def MCP300x.ctor (cs : Nat) : MCP300x := { m_alwaysSetMode := 0, m_cs := cs }

/-- Method `MCP300x::start(mosi, miso, sclk, cs)`: the driver afterwards and the run of the
method. The local variable `err` is a `PropWare::ErrorCode`. -/
def MCP300x.start (d : MCP300x) (k : MCP300x.Header) (r : MCP300x.Replies)
    (mosi miso sclk cs : Nat) : MCP300x × MCP300x.Run :=
  let d := { d with m_cs := cs }
  let p := MCP300x.Run.enter
  let p := p.call (.set_dir_out cs)
  let p := p.call (.pin_set cs)
  let p := p.call .is_running
  let p :=
    if !r.is_running then
      p.check_errors k id (.start mosi miso sclk k.SPI_DEFAULT_FREQ k.SPI_MODE k.SPI_BITMODE)
        r.start
    else
      (p.check_errors k id (.set_mode k.SPI_MODE) r.set_mode).check_errors k id
        (.set_bit_mode k.SPI_BITMODE) r.set_bit_mode
  (d, p.leave 0)

/-- Method `void MCP300x::always_set_spi_mode(const bool alwaysSetMode)`. -/
def MCP300x.always_set_spi_mode (d : MCP300x) (alwaysSetMode : Bool) : MCP300x :=
  { d with m_alwaysSetMode := alwaysSetMode.toNat }

/-- Method `MCP300x::read(channel, dat)`: the run of the method (what `shift_in` stores
through `dat` is the business of the SPI object). The local variable `err` is a
`PropWare::ErrorCode`, `options` is an `int8_t`, and `sizeof(*dat)` is `2`. -/
def MCP300x.read (d : MCP300x) (k : MCP300x.Header) (r : MCP300x.Replies) (channel : Nat) :
    MCP300x.Run :=
  let options := int8 ((k.START ||| k.SINGLE_ENDED ||| channel : Nat) : Int)
  let options := int8 (options * 4)
  let p := MCP300x.Run.enter
  let p :=
    if d.m_alwaysSetMode ≠ 0 then
      (p.check_errors k id (.set_mode k.SPI_MODE) r.set_mode).check_errors k id
        (.set_bit_mode k.SPI_BITMODE) r.set_bit_mode
    else p
  let p := p.call (.pin_clear d.m_cs)
  let p := p.check_errors k id (.shift_out (u8 k.OPTN_WIDTH) (u32 options)) r.shift_out
  let p := p.check_errors k id (.shift_in (u8 k.DATA_WIDTH) 2) r.shift_in
  let p := p.call (.pin_set d.m_cs)
  p.leave 0

/-- Method `MCP300x::read_diff(channels, dat)`: the run of the method. The local variables
`err` and `options` are `int8_t`. -/
def MCP300x.read_diff (d : MCP300x) (k : MCP300x.Header) (r : MCP300x.Replies)
    (channels : Nat) : MCP300x.Run :=
  let options := int8 ((k.START ||| k.DIFFERENTIAL ||| channels : Nat) : Int)
  let options := int8 (options * 4)
  let p := MCP300x.Run.enter
  let p :=
    if d.m_alwaysSetMode ≠ 0 then
      (p.check_errors k int8 (.set_mode k.SPI_MODE) r.set_mode).check_errors k int8
        (.set_bit_mode k.SPI_BITMODE) r.set_bit_mode
    else p
  let p := p.call (.pin_clear d.m_cs)
  let p := p.check_errors k int8 (.shift_out (u8 k.OPTN_WIDTH) (u32 options)) r.shift_out
  let p := p.check_errors k int8 (.shift_in (u8 k.DATA_WIDTH) 2) r.shift_in
  let p := p.call (.pin_set d.m_cs)
  p.leave 0

/-- A call of a method of the driver, with what the SPI object answers during it. -/
inductive MCP300x.Op where
  | start (mosi miso sclk cs : Nat) (r : MCP300x.Replies)
  | always_set_spi_mode (alwaysSetMode : Bool)
  | read (channel : Nat) (r : MCP300x.Replies)
  | read_diff (channels : Nat) (r : MCP300x.Replies)
  deriving DecidableEq

/-- The driver after a call of one of its methods. -/
def MCP300x.apply (k : MCP300x.Header) (d : MCP300x) : MCP300x.Op → MCP300x
  | .start mosi miso sclk cs r => (d.start k r mosi miso sclk cs).1
  | .always_set_spi_mode alwaysSetMode => d.always_set_spi_mode alwaysSetMode
  | .read _ _ => d
  | .read_diff _ _ => d

/-- The driver after a sequence of calls of its methods, first call first. -/
def MCP300x.applyAll (k : MCP300x.Header) (d : MCP300x) (ops : List MCP300x.Op) : MCP300x :=
  ops.foldl (MCP300x.apply k) d

/-- The argument of the last call of `always_set_spi_mode` among `ops`, and `false` when
there is none. -/
def MCP300x.lastSwitch (ops : List MCP300x.Op) : Bool :=
  ops.foldl (fun b op => match op with
    | .always_set_spi_mode alwaysSetMode => alwaysSetMode
    | _ => b) false

/-- The macro `check_errors(x)` stores the value of `x` in the local variable `err` and
returns `err` from the function when it is not zero. -/
def MCP300x.Header.ReturnsOnError (k : MCP300x.Header) : Prop :=
  ∀ (store : Int → Int) (x : Int),
    k.check_errors store x = if store x = 0 then none else some (store x)

/-- The first code of a list that is not zero, and `0` when there is none. -/
def MCP300x.firstError : List Int → Int
  | [] => 0
  | x :: xs => if x ≠ 0 then x else MCP300x.firstError xs

/-- The answers of the SPI object are values of an `int8_t`. -/
def MCP300x.Replies.FitInt8 (r : MCP300x.Replies) : Prop :=
  ∀ x ∈ [r.start, r.set_mode, r.set_bit_mode, r.shift_out, r.shift_in], -128 ≤ x ∧ x ≤ 127

instance (r : MCP300x.Replies) : Decidable r.FitInt8 := by
  unfold MCP300x.Replies.FitInt8; infer_instance

/-- The level at which the calls `calls` leave the pin `cs`: `some true` when the last
one that touches it is `pin_set`, `some false` when it is `pin_clear`, and `none` when no
call sets or clears it. -/
def MCP300x.chipSelect (cs : Nat) : List MCP300x.Call → Option Bool
  | [] => none
  | c :: calls =>
    match MCP300x.chipSelect cs calls with
    | some level => some level
    | none =>
      if c = .pin_set cs then some true
      else if c = .pin_clear cs then some false
      else none

/-- The call is one of `set_mode` and `set_bit_mode`. -/
def MCP300x.Call.isConfig : MCP300x.Call → Bool
  | .set_mode _ => true
  | .set_bit_mode _ => true
  | _ => false

/-- The call is a call of `m_spi->start`. -/
def MCP300x.Call.isStart : MCP300x.Call → Bool
  | .start _ _ _ _ _ _ => true
  | _ => false

/-- The call is a call of `m_spi->shift_in`. -/
def MCP300x.Call.isShiftIn : MCP300x.Call → Bool
  | .shift_in _ _ => true
  | _ => false

/-- The call is a call of `m_spi->shift_out`. -/
def MCP300x.Call.isShiftOut : MCP300x.Call → Bool
  | .shift_out _ _ => true
  | _ => false

/-- The header of the worked examples: the SPI constants have the values of the legacy
macros, and `check_errors` returns on a code that is not zero. -/
def MCP300x.Header.demo : MCP300x.Header where
  START := 0x10
  SINGLE_ENDED := 0x08
  DIFFERENTIAL := 0x00
  OPTN_WIDTH := 7
  DATA_WIDTH := 11
  SPI_DEFAULT_FREQ := MCP300X_SPI_DEFAULT_FREQ
  SPI_MODE := MCP300X_SPI_MODE
  SPI_BITMODE := MCP300X_SPI_BITMODE
  check_errors := fun store x => if store x = 0 then none else some (store x)

/-- The codes that the calls of `read` and of `read_diff` return when they are all made,
in program order: those of `set_mode` and `set_bit_mode` when the switch is on, then those
of `shift_out` and `shift_in`. -/
def MCP300x.codes (d : MCP300x) (r : MCP300x.Replies) : List Int :=
  (if d.m_alwaysSetMode ≠ 0 then [r.set_mode, r.set_bit_mode] else [])
    ++ [r.shift_out, r.shift_in]

/-- The word that `read` and `read_diff` hand to `shift_out` for the option bits `x`: the
`int8_t options`, shifted left by two, as a `uint32_t`. -/
def MCP300x.optionsWord (x : Nat) : Nat := u32 (int8 (int8 (x : Int) * 4))

/-! ## The WS2812 driver: `send_array`

The assembly of `send_array` drives one pin; what it does to the pin is the sequence of
the bit slots that it sends, each with the number of clock ticks for which the pin is held
high and then low. The constants `MICROSECOND`, `BYTE_1` and `BYTE_2` come from
`PropWare/PropWare.h`, which is not among the sources, and are parameters. The flag `C` is
not set before the first `rcl`: its value at the entry of the assembly is a parameter too.
-/

/-- Enumerator `WS2812::RGB`. -/
def WS2812.RGB : Nat := 0

/-- Enumerator `WS2812::GRB`, "for WS2812 and WS2812B". -/
def WS2812.GRB : Nat := WS2812.RGB + 1

/-- One bit on the pin: high for `high` ticks, then low for `low` ticks. -/
structure WS2812.Slot where
  high : Nat
  low : Nat
  deriving DecidableEq

/-- Local constant `LONG_PULSE_WIDTH = (900 * MICROSECOND / 1000)` of `send_array`. -/
def WS2812.LONG_PULSE_WIDTH (MICROSECOND : Nat) : Nat := (900 * MICROSECOND) % 2 ^ 32 / 1000

/-- Local constant `SHORT_PULSE_WIDTH = (350 * MICROSECOND / 1000)` of `send_array`. -/
def WS2812.SHORT_PULSE_WIDTH (MICROSECOND : Nat) : Nat := (350 * MICROSECOND) % 2 ^ 32 / 1000

/-- The instructions between the labels `fix_colors` and `shift_out` that are skipped by
`tjz swaprg`: `mov t1, colorbits`, `mov t2, colorbits`, `and colorbits, #0xff`,
`shr t1, #8`, `and t1, byte1`, `or colorbits, t1`, `shl t2, #8`, `and t2, byte2`,
`or colorbits, t2`. -/
def WS2812.fix_colors (BYTE_1 BYTE_2 : Nat) (colorbits : Nat) : Nat :=
  let t1 := colorbits
  let t2 := colorbits
  let colorbits := colorbits &&& 0xff
  let t1 := t1 >>> 8
  let t1 := t1 &&& BYTE_1
  let colorbits := colorbits ||| t1
  let t2 := (t2 <<< 8) % 2 ^ 32
  let t2 := t2 &&& BYTE_2
  colorbits ||| t2

/-- The loop `shift_out.loop`: `rcl colorbits, #1 wc` (the flag `C` becomes bit 31 of
`colorbits`, the old flag comes in as bit 0), then the pin is high for the long pulse and
low for the short one when `C` is set, and the other way round when it is not, and
`djnz bitCounter`. The result is `colorbits`, the flag `C` and the slots sent so far.
`rounds` bounds the number of passes; the assembly enters the loop with `bitCounter = 24`. -/
def WS2812.shift_out_loop (longPulse shortPulse : Nat) :
    (rounds : Nat) → (bitCounter : Nat) → (colorbits : Nat) → (c : Bool) →
    List WS2812.Slot → Option (Nat × Bool × List WS2812.Slot)
  | 0, _, _, _, _ => none
  | rounds + 1, bitCounter, colorbits, c, out =>
    let carry := colorbits.testBit 31
    let colorbits := rcl colorbits c
    let out := out ++ [if carry then ⟨longPulse, shortPulse⟩ else ⟨shortPulse, longPulse⟩]
    let bitCounter := u32 ((bitCounter : Int) - 1)
    if bitCounter ≠ 0 then
      WS2812.shift_out_loop longPulse shortPulse rounds bitCounter colorbits carry out
    else some (colorbits, carry, out)

/-- The loop `frame_loop` on the words that `nextLed` points to: `rdlong colorbits,
nextLed`, `add nextLed, #4`, the swap of red and green unless `swaprg` is zero,
`shl colorbits, #8`, `mov bitCounter, #24`, the loop `shift_out.loop`, and `djnz nleds`.
A read beyond the last word of the buffer is not part of the model (the value `none`). -/
def WS2812.frame_loop (BYTE_1 BYTE_2 longPulse shortPulse swaprg : Nat) :
    (nextLed : List Nat) → (nleds : Nat) → (c : Bool) → List WS2812.Slot →
    Option (List WS2812.Slot)
  | [], _, _, _ => none
  | word :: nextLed, nleds, c, out =>
    let colorbits := word % 2 ^ 32
    let colorbits := if swaprg = 0 then colorbits else WS2812.fix_colors BYTE_1 BYTE_2 colorbits
    let colorbits := (colorbits <<< 8) % 2 ^ 32
    (WS2812.shift_out_loop longPulse shortPulse 24 24 colorbits c out).bind fun r =>
      let nleds := u32 ((nleds : Int) - 1)
      if nleds ≠ 0 then
        WS2812.frame_loop BYTE_1 BYTE_2 longPulse shortPulse swaprg nextLed nleds r.2.1 r.2.2
      else some r.2.2

/-- Method `void WS2812::send_array(const unsigned int *buffer, const size_t length)` of a
driver of type `m_type`: the slots that it sends. `c` is the flag `C` at the entry of the
assembly. -/
def WS2812.send_array (MICROSECOND BYTE_1 BYTE_2 m_type : Nat) (buffer : List Nat)
    (length : Nat) (c : Bool) : Option (List WS2812.Slot) :=
  WS2812.frame_loop BYTE_1 BYTE_2 (WS2812.LONG_PULSE_WIDTH MICROSECOND)
    (WS2812.SHORT_PULSE_WIDTH MICROSECOND) m_type buffer (length % 2 ^ 32) c []

/-- The slot of a bit: a one is the long pulse followed by the short pause, a zero the
short pulse followed by the long pause. -/
def WS2812.slot (MICROSECOND : Nat) (bit : Bool) : WS2812.Slot :=
  if bit then ⟨WS2812.LONG_PULSE_WIDTH MICROSECOND, WS2812.SHORT_PULSE_WIDTH MICROSECOND⟩
  else ⟨WS2812.SHORT_PULSE_WIDTH MICROSECOND, WS2812.LONG_PULSE_WIDTH MICROSECOND⟩

/-- The eight bits of a byte, most significant first. -/
def WS2812.bits8 (x : Nat) : List Bool :=
  [x.testBit 7, x.testBit 6, x.testBit 5, x.testBit 4, x.testBit 3, x.testBit 2,
    x.testBit 1, x.testBit 0]

/-- The bytes of the word `0x00RRGGBB` in the order of a driver of type `m_type`: red,
green, blue for `RGB`, and green, red, blue otherwise. -/
def WS2812.wireBytes (m_type : Nat) (word : Nat) : List Nat :=
  if m_type = WS2812.RGB then [WS2812.red word, WS2812.green word, WS2812.blue word]
  else [WS2812.green word, WS2812.red word, WS2812.blue word]

/-! ## The looks of a receive phase -/

/-- What `n` polls of `DetectStop`/`DetectRestart` that find nothing new leave on the
wire record: SCL is seen high and SDA at the level `first` of the first bit. -/
def Wire.polls (first : Bool) : Nat → List Wire
  | 0 => []
  | n + 1 => [Wire.test_scl true, Wire.test_sda first] ++ Wire.polls first n

/-- What `send_ack` leaves on the wire record: SCL is seen low, SDA is driven low, SCL is
seen high and low again, SDA is released. -/
def Wire.send_ack : List Wire :=
  [.scl_low, .dira_sda true, .outa_sda false, .scl_high, .scl_low, .dira_sda false]

/-- The number of times that the cog has started to drive SDA. -/
def Wire.acks (w : List Wire) : Nat := w.count (Wire.dira_sda true)

/-- The looks of one complete data byte and of its acknowledge: SCL falls and rises, the
first bit is sampled (`first`), the polls find SCL high and SDA unchanged (`rounds`), a
look finds that SCL has fallen (`fallen`), the seven remaining bits are read (`slots`),
and the byte is acknowledged (`ack`). -/
structure ByteSlot where
  low : Edge
  high : Edge
  first : Pins
  rounds : List (Pins × Pins)
  fallen : Pins
  slots : List BitSlot
  ack : AckSlot
  deriving DecidableEq

/-- The looks of a byte slot, in order. -/
def ByteSlot.looks (x : ByteSlot) : List Pins :=
  x.low.looks ++ x.high.looks ++ [x.first] ++ Pins.pollLooks x.rounds ++ [x.fallen]
    ++ (x.slots.flatMap BitSlot.looks ++ x.ack.looks)

/-- The byte slot is the waveform of a complete data byte: no stop and no restart
condition is found after the first bit, and eight bits are clocked in all. -/
def ByteSlot.valid (x : ByteSlot) : Prop :=
  x.low.reaches false ∧ x.high.reaches true ∧ Pins.idlePolls x.first.sda x.rounds ∧
  x.fallen.scl = false ∧ x.slots.length = 7 ∧ (∀ s ∈ x.slots, s.valid) ∧ x.ack.valid

instance (x : ByteSlot) : Decidable x.valid := by
  unfold ByteSlot.valid Pins.idlePolls; infer_instance

/-- The eight samples of SDA of a byte slot, in the order in which they are taken. -/
def ByteSlot.samples (x : ByteSlot) : List Bool :=
  x.first.sda :: x.slots.map fun s => s.sample.sda

/-- The value of the samples `s7, .., s0` of a byte slot (`s7` is taken first): the sum
of the `s_i * 2 ^ i`. -/
def ByteSlot.value (x : ByteSlot) : Nat :=
  ((List.range 8).map fun i => (x.samples.getD (7 - i) false).toNat * 2 ^ i).sum

/-- What the pass of `read_to_end` on a byte slot leaves on the wire record: the assembly
block only looks at the wires, then `send_ack` drives SDA once. -/
def ByteSlot.wire (x : ByteSlot) : List Wire :=
  [.scl_low, .scl_high, .test_sda x.first.sda] ++ Wire.polls x.first.sda x.rounds.length
    ++ [.test_scl false]
    ++ x.slots.flatMap (fun s => [Wire.scl_low, Wire.scl_high, Wire.test_sda s.sample.sda])
    ++ Wire.send_ack

/-- The looks of the end of a receive phase: SCL falls and rises, the first bit of a
would-be byte is sampled (`first`), the polls find SCL high and SDA unchanged (`rounds`),
a look finds SCL still high (`still`) and the next one finds SDA at the other level
(`changed`). -/
structure EndSlot where
  low : Edge
  high : Edge
  first : Pins
  rounds : List (Pins × Pins)
  still : Pins
  changed : Pins
  deriving DecidableEq

/-- The looks of an end slot, in order. -/
def EndSlot.looks (x : EndSlot) : List Pins :=
  x.low.looks ++ x.high.looks ++ [x.first] ++ Pins.pollLooks x.rounds ++ [x.still, x.changed]

/-- The end slot is a restart condition (`restart = true`: SDA falls while SCL is high) or
a stop condition (`restart = false`: SDA rises while SCL is high). -/
def EndSlot.valid (restart : Bool) (x : EndSlot) : Prop :=
  x.low.reaches false ∧ x.high.reaches true ∧ x.first.sda = restart ∧
  Pins.idlePolls restart x.rounds ∧ x.still.scl = true ∧ x.changed.sda = !restart

instance (restart : Bool) (x : EndSlot) : Decidable (x.valid restart) := by
  unfold EndSlot.valid Pins.idlePolls; infer_instance

/-- What the pass of `read_to_end` on an end slot leaves on the wire record. -/
def EndSlot.wire (x : EndSlot) : List Wire :=
  [.scl_low, .scl_high, .test_sda x.first.sda] ++ Wire.polls x.first.sda x.rounds.length
    ++ [.test_scl true, .test_sda x.changed.sda]

/-- An edge of the worked examples: SCL is seen at `level` at the second look. -/
def Edge.demo (level : Bool) : Edge := { stall := [⟨!level, true⟩], hit := ⟨level, true⟩ }

/-- The bit slot of the worked examples in which SDA is sampled at `bit`. -/
def BitSlot.demo (bit : Bool) : BitSlot :=
  { fall := Edge.demo false, rise := Edge.demo true, sample := ⟨true, bit⟩ }

/-- The byte slot of the worked examples: the samples are `1, 0, 1, 0, 0, 1, 0, 1` (the
byte `0xA5`), and one poll finds nothing new before SCL falls. -/
def ByteSlot.demo : ByteSlot :=
  { low := Edge.demo false
    high := Edge.demo true
    first := ⟨true, true⟩
    rounds := [(⟨true, true⟩, ⟨true, true⟩)]
    fallen := ⟨false, true⟩
    slots := [false, true, false, false, true, false, true].map BitSlot.demo
    ack := { low := Edge.demo false, rise := Edge.demo true, fall := Edge.demo false } }

/-- The end slot of the worked examples: a stop condition. -/
def EndSlot.demo : EndSlot :=
  { low := Edge.demo false
    high := Edge.demo true
    first := ⟨true, false⟩
    rounds := []
    still := ⟨true, false⟩
    changed := ⟨true, true⟩ }

/-! ## Conditions on the bus -/

/-- A restart (or start) condition in the successive states `bus` of the two wires: from
one state to the next SDA falls while SCL is high. -/
def Pins.restartCondition (bus : List Pins) : Bool :=
  (bus.zip bus.tail).any fun pq => pq.1.scl && pq.2.scl && pq.1.sda && !pq.2.sda

/-- A stop condition in the successive states `bus` of the two wires: from one state to
the next SDA rises while SCL is high. -/
def Pins.stopCondition (bus : List Pins) : Bool :=
  (bus.zip bus.tail).any fun pq => pq.1.scl && pq.2.scl && !pq.1.sda && pq.2.sda

/-- The successive states of the two wires when SDA changes late: SCL is low, rises and
stays high while the first bit `first` is on SDA, then SCL falls, and only then SDA
changes. -/
def Pins.lateChangeBus (first : Bool) : List Pins :=
  [⟨false, first⟩, ⟨true, first⟩, ⟨true, first⟩, ⟨true, first⟩, ⟨false, first⟩,
    ⟨false, !first⟩]

/-- The looks that the assembly of `read_to_end` takes at the states of
`Pins.lateChangeBus` when the fall of SCL and the change of SDA come between the two tests
of a poll: `waitpne` sees the first state, `waitpeq` the second, the first bit is sampled
in the third, `test SCLMask, ina` sees SCL high in the fourth, and `test SDAMask, ina`
sees the sixth. -/
def Pins.lateChangeLooks (first : Bool) : List Pins :=
  [⟨false, first⟩, ⟨true, first⟩, ⟨true, first⟩, ⟨true, first⟩, ⟨false, !first⟩]

/-! ## Basic facts about the buffer -/

theorem u32_of_lt (n : Nat) (h : n < 2 ^ 32) : u32 (n : Int) = n := by
  unfold u32; omega

theorem ctor_hasCapacity (a C : Nat) (heap : Nat → Nat) (re : Bool)
    (h1 : 1 ≤ C) (h2 : C < 2 ^ 32) : (I2CSlave.ctor a C heap re).HasCapacity C := by
  constructor
  · simp [I2CSlave.ctor]
  · simp only [I2CSlave.ctor, u32]; omega

theorem ctor_fresh (a C : Nat) (heap : Nat → Nat) (re : Bool)
    (h1 : 1 ≤ C) (h2 : C < 2 ^ 32) : (I2CSlave.ctor a C heap re).Fresh C := by
  refine ⟨ctor_hasCapacity a C heap re h1 h2, ?_⟩
  simp only [I2CSlave.ctor, u32]; omega

theorem reset_fresh (C : Nat) (s : I2CSlave) (h1 : 1 ≤ C) (h2 : C < 2 ^ 32)
    (h : s.HasCapacity C) : s.reset_receive_buffer.Fresh C := by
  obtain ⟨hl, hu⟩ := h
  refine ⟨⟨hl, hu⟩, ?_⟩
  simp only [I2CSlave.reset_receive_buffer, u32, hu]; omega

theorem fresh_inv {C : Nat} {s : I2CSlave} (h : s.Fresh C) : s.Inv C :=
  ⟨h.1, le_of_eq h.2⟩

theorem append_full (s : I2CSlave) (c : Nat) (h : s.m_buffer_ptr = 0) :
    s.append_receive_buffer c = s := by
  simp [I2CSlave.append_receive_buffer, h]

theorem append_spec (C : Nat) (s : I2CSlave) (c : Nat) (hC : C < 2 ^ 32) (h : s.Inv C)
    (hp : 0 < s.m_buffer_ptr) :
    (s.append_receive_buffer c).Inv C ∧
    (s.append_receive_buffer c).m_buffer_ptr = s.m_buffer_ptr - 1 ∧
    (s.append_receive_buffer c).content = u8 c :: s.content := by
  obtain ⟨⟨hl, hu⟩, hle⟩ := h
  have e : u32 ((s.m_buffer_ptr : Int) - 1) = s.m_buffer_ptr - 1 := by unfold u32; omega
  have hlt : s.m_buffer_ptr - 1 < s.m_receive_buffer.length := by omega
  simp only [I2CSlave.append_receive_buffer, hp, gt_iff_lt, if_true, e, I2CSlave.Inv,
    I2CSlave.HasCapacity, I2CSlave.content, List.length_set]
  refine ⟨⟨⟨hl, hu⟩, by omega⟩, trivial, ?_⟩
  rw [List.drop_eq_getElem_cons (by simpa using hlt)]
  have e2 : s.m_buffer_ptr - 1 + 1 = s.m_buffer_ptr := by omega
  rw [e2, List.drop_set_of_lt _ _ (by omega)]
  simp

theorem appends_spec (C : Nat) (hC : C < 2 ^ 32) (bs : List Nat) :
    ∀ s : I2CSlave, s.Inv C →
      (s.appends bs).Inv C ∧
      (s.appends bs).m_buffer_ptr = s.m_buffer_ptr - bs.length ∧
      (s.appends bs).content = ((bs.take s.m_buffer_ptr).map u8).reverse ++ s.content := by
  induction bs with
  | nil => intro s h; simp [I2CSlave.appends, h]
  | cons b bs ih =>
    intro s h
    have hstep : s.appends (b :: bs) = (s.append_receive_buffer b).appends bs := rfl
    rw [hstep]
    by_cases hp : 0 < s.m_buffer_ptr
    · obtain ⟨h1, h2, h3⟩ := append_spec C s b hC h hp
      obtain ⟨i1, i2, i3⟩ := ih _ h1
      refine ⟨i1, ?_, ?_⟩
      · rw [i2, h2]; simp; omega
      · rw [i3, h2, h3]
        obtain ⟨p, hp'⟩ : ∃ p, s.m_buffer_ptr = p + 1 := ⟨s.m_buffer_ptr - 1, by omega⟩
        simp [hp']
    · have hz : s.m_buffer_ptr = 0 := by omega
      rw [append_full s b hz]
      obtain ⟨i1, i2, i3⟩ := ih _ h
      refine ⟨i1, ?_, ?_⟩
      · rw [i2, hz]; simp
      · rw [i3, hz]; simp

theorem read_empty (C : Nat) (s : I2CSlave) (h1 : 1 ≤ C) (h : s.HasCapacity C)
    (hp : C ≤ s.m_buffer_ptr) : s.read = (-1, s) := by
  obtain ⟨hl, hu⟩ := h
  have : ¬ s.m_buffer_ptr ≤ s.m_buffer_upper_bound := by omega
  simp [I2CSlave.read, this]

theorem read_spec (C : Nat) (s : I2CSlave) (hC : C < 2 ^ 32) (h : s.HasCapacity C)
    (hp : s.m_buffer_ptr < C) :
    ∃ b, s.content = b :: (s.read).2.content ∧ (s.read).1 = (b : Int) ∧
      (s.read).2 = { s with m_buffer_ptr := s.m_buffer_ptr + 1 } := by
  obtain ⟨hl, hu⟩ := h
  have hle : s.m_buffer_ptr ≤ s.m_buffer_upper_bound := by omega
  have e : u32 ((s.m_buffer_ptr : Int) + 1) = s.m_buffer_ptr + 1 := by unfold u32; omega
  have hlt : s.m_buffer_ptr < s.m_receive_buffer.length := by omega
  refine ⟨s.cell s.m_buffer_ptr, ?_, ?_, ?_⟩
  · simp only [I2CSlave.read, hle, if_true, e, I2CSlave.content, I2CSlave.cell]
    rw [List.drop_eq_getElem_cons hlt, List.getD_eq_getElem _ _ hlt]
  · simp [I2CSlave.read, hle]
  · simp [I2CSlave.read, hle, e]

theorem reads_spec (C : Nat) (h1 : 1 ≤ C) (hC : C < 2 ^ 32) (n : Nat) :
    ∀ s : I2CSlave, s.Inv C →
      (s.reads n).1 = (s.content.take n).map Int.ofNat
          ++ List.replicate (n - (C - s.m_buffer_ptr)) (-1) ∧
      (s.reads n).2 = { s with m_buffer_ptr := min (s.m_buffer_ptr + n) C } := by
  induction n with
  | zero => intro s h; obtain ⟨_, hle⟩ := h; simp [I2CSlave.reads, Nat.min_eq_left hle]
  | succ n ih =>
    intro s h
    obtain ⟨hc, hle⟩ := h
    by_cases hp : s.m_buffer_ptr < C
    · obtain ⟨b, e1, e2, e3⟩ := read_spec C s hC hc hp
      have hinv : (s.read).2.Inv C := by
        rw [e3]; exact ⟨hc, by simpa using hp⟩
      obtain ⟨i1, i2⟩ := ih _ hinv
      constructor
      · simp only [I2CSlave.reads, i1, e1, e2]
        rw [e3]
        simp
        omega
      · simp only [I2CSlave.reads, i2]
        rw [e3]
        simp
        omega
    · have e := read_empty C s h1 hc (by omega)
      have hpe : s.m_buffer_ptr = C := by omega
      obtain ⟨i1, i2⟩ := ih s ⟨hc, hle⟩
      have hcont : s.content = [] := by
        simp [I2CSlave.content, hpe, hc.1]
      constructor
      · simp only [I2CSlave.reads, e, i1, hcont, hpe]
        simp [List.replicate_succ]
      · simp only [I2CSlave.reads, e, i2]
        simp [hpe]


theorem map_u8_of_bytes (bs : List Nat) (hb : ∀ b ∈ bs, b < 256) : bs.map u8 = bs := by
  induction bs with
  | nil => rfl
  | cons b bs ih =>
    have h1 : b < 256 := hb b (by simp)
    have h2 : ∀ x ∈ bs, x < 256 := fun x hx => hb x (by simp [hx])
    simp [ih h2, u8, Nat.mod_eq_of_lt h1]

theorem fresh_content {C : Nat} {s : I2CSlave} (h : s.Fresh C) : s.content = [] := by
  simp [I2CSlave.content, h.2, h.1.1]

theorem available_of_inv (C : Nat) (s : I2CSlave) (h1 : 1 ≤ C) (hC : C < 2 ^ 32)
    (h : s.Inv C) : s.available = C - s.m_buffer_ptr := by
  obtain ⟨⟨_, hu⟩, hle⟩ := h
  simp only [I2CSlave.available, u32, hu]; omega

/-- What `read()` hands out after the bytes `bs` were appended to an empty buffer of `C`
bytes: the first `C` of them, last one first, then `-1` for ever. -/
theorem reads_after_appends (C : Nat) (bs : List Nat) (n : Nat) (s : I2CSlave)
    (h1 : 1 ≤ C) (hC : C < 2 ^ 32) (hs : s.Fresh C) :
    ((s.appends bs).reads n).1 =
      ((((bs.take C).map u8).reverse.take n).map Int.ofNat)
        ++ List.replicate (n - min bs.length C) (-1) ∧
    (s.appends bs).m_buffer_ptr = C - bs.length ∧ (s.appends bs).Inv C := by
  obtain ⟨a1, a2, a3⟩ := appends_spec C hC bs s (fresh_inv hs)
  obtain ⟨r1, _⟩ := reads_spec C h1 hC n _ a1
  refine ⟨?_, by rw [a2, hs.2], a1⟩
  rw [r1, a3, a2, fresh_content hs, hs.2]
  simp only [List.append_nil]
  congr 2
  omega

/-- C1. Reverse-order round trip of the receive buffer: on a buffer of capacity `C ≥ 1`
that was just constructed or just reset, after the bytes `b1 .. bN` (`N ≤ C`) were
appended in that order, the next `N` calls of `read()` return `bN, .., b1` and the call
after them returns `-1`. -/
theorem receive_buffer_round_trip_reversed (C : Nat) (bs : List Nat) (s : I2CSlave)
    (hC1 : 1 ≤ C) (hC2 : C < 2 ^ 32) (hN : bs.length ≤ C) (hb : ∀ b ∈ bs, b < 256)
    (hs : (∃ address heap request_ended, s = I2CSlave.ctor address C heap request_ended) ∨
      (∃ s0 : I2CSlave, s0.HasCapacity C ∧ s = s0.reset_receive_buffer)) :
    ((s.appends bs).reads (bs.length + 1)).1 = bs.reverse.map Int.ofNat ++ [-1] := by
  have hf : s.Fresh C := by
    rcases hs with ⟨a, heap, re, rfl⟩ | ⟨s0, h0, rfl⟩
    · exact ctor_fresh a C heap re hC1 hC2
    · exact reset_fresh C s0 hC1 hC2 h0
  obtain ⟨r, _, _⟩ := reads_after_appends C bs (bs.length + 1) s hC1 hC2 hf
  rw [r, List.take_of_length_le hN, map_u8_of_bytes bs hb, Nat.min_eq_left hN]
  rw [List.take_of_length_le (by simp)]
  simp

theorem receive_buffer_round_trip_reversed_witness :
    (1 ≤ 4 ∧ 4 < 2 ^ 32 ∧ [0x11, 0x22, 0x33].length ≤ 4 ∧
      (∀ b ∈ [0x11, 0x22, 0x33], b < 256)) ∧
    (((I2CSlave.ctor 0x42 4 (fun _ => 0) false).appends [0x11, 0x22, 0x33]).reads 4).1
      = [0x33, 0x22, 0x11, -1] :=
  ⟨by decide,
    receive_buffer_round_trip_reversed 4 [0x11, 0x22, 0x33] _ (by decide) (by decide)
      (by decide) (by decide) (Or.inl ⟨0x42, fun _ => 0, false, rfl⟩)⟩



/-- C2. Overflow of the receive buffer: when more than `C` bytes are appended to an empty
buffer of capacity `C ≥ 1`, every append after the `C`-th leaves the engine (buffer
contents and fill pointer) as it was, and the reads that follow return the first `C`
appended bytes, last one first, then `-1`. -/
theorem receive_buffer_overflow_dropped (C : Nat) (bs : List Nat) (s : I2CSlave)
    (hC1 : 1 ≤ C) (hC2 : C < 2 ^ 32) (hM : C < bs.length) (hb : ∀ b ∈ bs, b < 256)
    (hs : s.Fresh C) :
    (∀ k, C ≤ k → k < bs.length →
      (s.appends (bs.take k)).append_receive_buffer (bs.getD k 0) = s.appends (bs.take k) ∧
      s.appends (bs.take (k + 1)) = s.appends (bs.take k)) ∧
    ((s.appends bs).reads (C + 1)).1 = (bs.take C).reverse.map Int.ofNat ++ [-1] := by
  constructor
  · intro k hk hlt
    obtain ⟨_, p, _⟩ := reads_after_appends C (bs.take k) 0 s hC1 hC2 hs
    have hz : (s.appends (bs.take k)).m_buffer_ptr = 0 := by
      rw [p, List.length_take]; omega
    have e := append_full (s.appends (bs.take k)) (bs.getD k 0) hz
    refine ⟨e, ?_⟩
    have hsplit : bs.take (k + 1) = bs.take k ++ [bs.getD k 0] := by
      rw [List.take_succ, List.getD_eq_getElem?_getD, List.getElem?_eq_getElem hlt]
      simp
    rw [hsplit]
    unfold I2CSlave.appends at e ⊢
    rw [List.foldl_append]
    simpa using e
  · obtain ⟨r, _, _⟩ := reads_after_appends C bs (C + 1) s hC1 hC2 hs
    have hb' : ∀ b ∈ bs.take C, b < 256 := fun b h => hb b (List.mem_of_mem_take h)
    rw [r, map_u8_of_bytes _ hb', Nat.min_eq_right (le_of_lt hM)]
    rw [List.take_of_length_le (by simp)]
    simp

theorem receive_buffer_overflow_dropped_witness :
    (1 ≤ 4 ∧ 4 < 2 ^ 32 ∧ 4 < [0x11, 0x22, 0x33, 0x44, 0x55].length ∧
      (∀ b ∈ [0x11, 0x22, 0x33, 0x44, 0x55], b < 256) ∧
      (I2CSlave.ctor 0x42 4 (fun _ => 0) false).Fresh 4) ∧
    ((∀ k, 4 ≤ k → k < 5 →
      ((I2CSlave.ctor 0x42 4 (fun _ => 0) false).appends
          ([0x11, 0x22, 0x33, 0x44, 0x55].take k)).append_receive_buffer
          ([0x11, 0x22, 0x33, 0x44, 0x55].getD k 0)
        = (I2CSlave.ctor 0x42 4 (fun _ => 0) false).appends
            ([0x11, 0x22, 0x33, 0x44, 0x55].take k) ∧
      (I2CSlave.ctor 0x42 4 (fun _ => 0) false).appends
          ([0x11, 0x22, 0x33, 0x44, 0x55].take (k + 1))
        = (I2CSlave.ctor 0x42 4 (fun _ => 0) false).appends
            ([0x11, 0x22, 0x33, 0x44, 0x55].take k)) ∧
    (((I2CSlave.ctor 0x42 4 (fun _ => 0) false).appends
        [0x11, 0x22, 0x33, 0x44, 0x55]).reads 5).1 = [0x44, 0x33, 0x22, 0x11, -1]) :=
  ⟨by decide,
    receive_buffer_overflow_dropped 4 [0x11, 0x22, 0x33, 0x44, 0x55] _ (by decide)
      (by decide) (by decide) (by decide) (by decide)⟩

/-- C3. `available()` is the number of bytes in the receive buffer: on an engine of
capacity `C ≥ 1`, after `N` appends to an empty buffer and then `k ≤ min N C` reads it
returns `min N C - k`; it returns `0` right after construction and `N` before any read
when `N ≤ C`. -/
theorem available_counts_stored_bytes (C : Nat) (bs : List Nat) (k : Nat) (s : I2CSlave)
    (hC1 : 1 ≤ C) (hC2 : C < 2 ^ 32) (hs : s.Fresh C) (hk : k ≤ min bs.length C) :
    (((s.appends bs).reads k).2).available = min bs.length C - k ∧
    (∀ address heap request_ended,
      (I2CSlave.ctor address C heap request_ended).available = 0) ∧
    (bs.length ≤ C → (s.appends bs).available = bs.length) := by
  obtain ⟨_, p, i⟩ := reads_after_appends C bs k s hC1 hC2 hs
  obtain ⟨_, r2⟩ := reads_spec C hC1 hC2 k _ i
  refine ⟨?_, ?_, ?_⟩
  · have hinv : ((s.appends bs).reads k).2.Inv C := by
      rw [r2]; exact ⟨i.1, Nat.min_le_right _ _⟩
    rw [available_of_inv C _ hC1 hC2 hinv, r2]
    simp only [p]
    omega
  · intro a heap re
    have hf := ctor_fresh a C heap re hC1 hC2
    rw [available_of_inv C _ hC1 hC2 (fresh_inv hf), hf.2]
    simp
  · intro hN
    rw [available_of_inv C _ hC1 hC2 i, p]
    omega

theorem available_counts_stored_bytes_witness :
    (1 ≤ 4 ∧ 4 < 2 ^ 32 ∧ (I2CSlave.ctor 0x42 4 (fun _ => 0) false).Fresh 4 ∧
      1 ≤ min [0x11, 0x22, 0x33].length 4) ∧
    ((((I2CSlave.ctor 0x42 4 (fun _ => 0) false).appends [0x11, 0x22, 0x33]).reads 1).2).available
        = min [0x11, 0x22, 0x33].length 4 - 1 ∧
    (∀ address heap request_ended,
      (I2CSlave.ctor address 4 heap request_ended).available = 0) ∧
    ([0x11, 0x22, 0x33].length ≤ 4 →
      ((I2CSlave.ctor 0x42 4 (fun _ => 0) false).appends [0x11, 0x22, 0x33]).available
        = [0x11, 0x22, 0x33].length) :=
  ⟨by decide,
    available_counts_stored_bytes 4 [0x11, 0x22, 0x33] 1 _ (by decide) (by decide)
      (by decide) (by decide)⟩



theorem apply_inv (C : Nat) (hC1 : 1 ≤ C) (hC2 : C < 2 ^ 32) (s : I2CSlave) (op : BufferOp)
    (h : s.Inv C) : (s.apply op).Inv C := by
  cases op with
  | append_receive_buffer c =>
    by_cases hp : 0 < s.m_buffer_ptr
    · exact (append_spec C s c hC2 h hp).1
    · have hz : s.m_buffer_ptr = 0 := by omega
      simpa [I2CSlave.apply, append_full s c hz] using h
  | read =>
    by_cases hp : s.m_buffer_ptr < C
    · obtain ⟨_, _, _, e⟩ := read_spec C s hC2 h.1 hp
      simp only [I2CSlave.apply, e]
      exact ⟨h.1, hp⟩
    · simpa [I2CSlave.apply, read_empty C s hC1 h.1 (by omega)] using h
  | reset_receive_buffer => exact fresh_inv (reset_fresh C s hC1 hC2 h.1)

/-- The pointer invariant on every engine whose capacity is at least one byte: after any
sequence of buffer operations the fill pointer is at most `C`, and it is `C` exactly when
`available()` is `0`. -/
theorem pointer_invariant_of_pos_capacity (C : Nat) (hC1 : 1 ≤ C) (hC2 : C < 2 ^ 32)
    (address : Nat) (heap : Nat → Nat) (request_ended : Bool) (ops : List BufferOp) :
    ((I2CSlave.ctor address C heap request_ended).applyAll ops).m_buffer_ptr ≤ C ∧
    (((I2CSlave.ctor address C heap request_ended).applyAll ops).m_buffer_ptr = C ↔
      ((I2CSlave.ctor address C heap request_ended).applyAll ops).available = 0) := by
  have key : ∀ (ops : List BufferOp) (s : I2CSlave), s.Inv C → (s.applyAll ops).Inv C := by
    intro ops
    induction ops with
    | nil => intro s h; exact h
    | cons op ops ih => intro s h; exact ih _ (apply_inv C hC1 hC2 s op h)
  have hinv := key ops _ (fresh_inv (ctor_fresh address C heap request_ended hC1 hC2))
  refine ⟨hinv.2, ?_⟩
  rw [available_of_inv C _ hC1 hC2 hinv]
  have := hinv.2
  omega

/-- C4. The pointer invariant fails for a declared capacity of `0`: the constructor
leaves the fill pointer at `0` and the upper bound, `receive_buffer_size - 1` in unsigned
arithmetic, at `2 ^ 32 - 1`; `available()` is `0`, yet one `read()` passes its guard,
returns a cell instead of `-1` and moves the fill pointer to `1`, outside `[0, 0]`. -/
theorem pointer_leaves_range_at_capacity_zero :
    (I2CSlave.ctor 0x42 0 (fun _ => 0) false).m_buffer_ptr = 0 ∧
    (I2CSlave.ctor 0x42 0 (fun _ => 0) false).m_buffer_upper_bound = 2 ^ 32 - 1 ∧
    (I2CSlave.ctor 0x42 0 (fun _ => 0) false).available = 0 ∧
    ((I2CSlave.ctor 0x42 0 (fun _ => 0) false).read).1 ≠ -1 ∧
    ((I2CSlave.ctor 0x42 0 (fun _ => 0) false).applyAll [.read]).m_buffer_ptr = 1 ∧
    ¬ ((I2CSlave.ctor 0x42 0 (fun _ => 0) false).applyAll [.read]).m_buffer_ptr ≤ 0 ∧
    ((I2CSlave.ctor 0x42 0 (fun _ => 0) false).applyAll [.read]).available ≠ 0 := by
  decide

/-- C5, as stated, fails: on a 4-byte engine holding one byte the fill pointer is `3`;
appending `0x22` leaves cell `3` as it was (`0x11`) and changes cell `2`. -/
theorem append_does_not_store_at_pointer :
    ((I2CSlave.ctor 0x42 4 (fun _ => 0) false).append_receive_buffer 0x11).m_buffer_ptr = 3 ∧
    (((I2CSlave.ctor 0x42 4 (fun _ => 0) false).append_receive_buffer
        0x11).append_receive_buffer 0x22).cell 3 ≠ 0x22 ∧
    (((I2CSlave.ctor 0x42 4 (fun _ => 0) false).append_receive_buffer
        0x11).append_receive_buffer 0x22).cell 2 ≠
      ((I2CSlave.ctor 0x42 4 (fun _ => 0) false).append_receive_buffer 0x11).cell 2 := by
  decide

/-- C5, amended. On an engine of capacity `C` with fill pointer `p > 0`,
`append_receive_buffer(c)` first decrements the pointer to `p - 1` and then stores `c`
at the new pointer position, cell `p - 1`; every other cell and every other member is
unchanged. -/
theorem append_stores_below_pointer (C : Nat) (s : I2CSlave) (c : Nat) (hC : C < 2 ^ 32)
    (hc : c < 256) (h : s.Inv C) (hp : 0 < s.m_buffer_ptr) :
    (s.append_receive_buffer c).m_buffer_ptr = s.m_buffer_ptr - 1 ∧
    (s.append_receive_buffer c).cell (s.m_buffer_ptr - 1) = c ∧
    (∀ i, i ≠ s.m_buffer_ptr - 1 → (s.append_receive_buffer c).cell i = s.cell i) ∧
    (s.append_receive_buffer c).m_receive_buffer.length = s.m_receive_buffer.length ∧
    (s.append_receive_buffer c).m_buffer_upper_bound = s.m_buffer_upper_bound ∧
    (s.append_receive_buffer c).m_slave_address = s.m_slave_address ∧
    (s.append_receive_buffer c).m_request_ended = s.m_request_ended := by
  obtain ⟨⟨hl, hu⟩, hle⟩ := h
  have e : u32 ((s.m_buffer_ptr : Int) - 1) = s.m_buffer_ptr - 1 := by unfold u32; omega
  have hlt : s.m_buffer_ptr - 1 < s.m_receive_buffer.length := by omega
  simp only [I2CSlave.append_receive_buffer, hp, gt_iff_lt, if_true, e, I2CSlave.cell,
    List.length_set, List.getD_eq_getElem?_getD, and_true, true_and]
  refine ⟨?_, ?_⟩
  · simp [List.getElem?_set, hlt, u8, Nat.mod_eq_of_lt hc]
  · intro i hi
    rw [List.getElem?_set_ne (Ne.symm hi)]

theorem append_stores_below_pointer_witness :
    (4 < 2 ^ 32 ∧ 0x22 < 256 ∧
      ((I2CSlave.ctor 0x42 4 (fun _ => 0) false).append_receive_buffer 0x11).Inv 4 ∧
      0 < ((I2CSlave.ctor 0x42 4 (fun _ => 0) false).append_receive_buffer 0x11).m_buffer_ptr) ∧
    (((I2CSlave.ctor 0x42 4 (fun _ => 0) false).append_receive_buffer
        0x11).append_receive_buffer 0x22).cell 2 = 0x22 :=
  ⟨by decide,
    (append_stores_below_pointer 4
      ((I2CSlave.ctor 0x42 4 (fun _ => 0) false).append_receive_buffer 0x11) 0x22
      (by decide) (by decide) (by decide) (by decide)).2.1⟩

/-! ## Facts about callbacks and the receive loop -/

theorem handled_refl (s : I2CSlave) : s.Handled s := ⟨rfl, rfl, rfl, fun _ => rfl⟩

theorem handled_trans {s1 s2 s3 : I2CSlave} (h12 : s1.Handled s2) (h23 : s2.Handled s3) :
    s1.Handled s3 := by
  obtain ⟨a1, b1, c1, d1⟩ := h12
  obtain ⟨a2, b2, c2, d2⟩ := h23
  refine ⟨a2.trans a1, b2.trans b1, c2.trans c1, fun h => ?_⟩
  have := d1 h
  rw [d2 (by omega), this]

theorem handled_read (s : I2CSlave) : s.Handled (s.read).2 := by
  unfold I2CSlave.read
  split
  · exact ⟨rfl, rfl, rfl, fun h => by omega⟩
  · exact handled_refl s

theorem handled_hasCapacity {C : Nat} {s s' : I2CSlave} (h : s.Handled s')
    (hc : s.HasCapacity C) : s'.HasCapacity C :=
  ⟨h.2.1 ▸ hc.1, h.2.2.1 ▸ hc.2⟩

theorem handled_fresh {C : Nat} {s s' : I2CSlave} (hC1 : 1 ≤ C) (h : s.Handled s')
    (hf : s.Fresh C) : s'.Fresh C := by
  refine ⟨handled_hasCapacity h hf.1, ?_⟩
  have := h.2.2.2 (by rw [hf.1.2, hf.2]; omega)
  rw [this, hf.2]

/-- A callback adds only `write` calls to the trace, leaves the frames on the bus alone
and treats the engine as `Handled` says. -/
theorem handler_call_spec (h : Handler) :
    ∀ c : Cog, ∃ ws : List Event, (∀ e ∈ ws, ∃ b, e = .write b) ∧
      (h.call c).cog.trace = c.trace ++ ws ∧
      (h.call c).cog.frames = c.frames ∧
      c.dev.Handled (h.call c).cog.dev := by
  induction h with
  | done => intro c; exact ⟨[], by simp, by simp [Handler.call, Outcome.cog], rfl, handled_refl _⟩
  | available next ih => intro c; simpa [Handler.call] using ih _ c
  | read next ih =>
    intro c
    obtain ⟨ws, h1, h2, h3, h4⟩ := ih (c.dev.read).1 { c with dev := (c.dev.read).2 }
    exact ⟨ws, h1, by simpa [Handler.call] using h2, by simpa [Handler.call] using h3,
      handled_trans (handled_read c.dev) (by simpa [Handler.call] using h4)⟩
  | write byte next ih =>
    intro c
    by_cases hre : c.dev.m_request_ended = true
    · have e : c.write byte = .returned () c := by simp [Cog.write, hre]
      simpa [Handler.call, e] using ih c
    · cases hn : c.naks with
      | nil =>
        have e : c.write byte = .waiting (c.log (.write (u8 byte))) := by
          simp [Cog.write, hre, hn]
        refine ⟨[.write (u8 byte)], by simp, ?_, ?_, ?_⟩
        · simp [Handler.call, e, Outcome.cog, Cog.log]
        · simp [Handler.call, e, Outcome.cog, Cog.log]
        · simp only [Handler.call, e, Outcome.cog, Cog.log]; exact handled_refl _
      | cons nak naks =>
        have e : c.write byte = .returned ()
            { ((c.log (.write (u8 byte))).set_request_ended nak) with naks := naks } := by
          simp [Cog.write, hre, hn]
        obtain ⟨ws, h1, h2, h3, h4⟩ :=
          ih { ((c.log (.write (u8 byte))).set_request_ended nak) with naks := naks }
        refine ⟨.write (u8 byte) :: ws, ?_, ?_, ?_, ?_⟩
        · intro x hx
          rcases List.mem_cons.1 hx with rfl | hx
          · exact ⟨_, rfl⟩
          · exact h1 x hx
        · simpa [Handler.call, e, Cog.log, Cog.set_request_ended] using h2
        · simpa [Handler.call, e, Cog.log, Cog.set_request_ended] using h3
        · refine handled_trans ⟨rfl, rfl, rfl, fun _ => rfl⟩
            (by simpa [Handler.call, e, Cog.log, Cog.set_request_ended] using h4)

/-- A callback that only reads always returns. -/
theorem handler_reads_returns (k : Nat) :
    ∀ c : Cog, ((Handler.reads k).call c).isReturned = true := by
  induction k with
  | zero => intro c; rfl
  | succ k ih => intro c; simpa [Handler.reads, Handler.call] using ih _

theorem appends_u8 (ds : List Nat) : ∀ s : I2CSlave, s.appends (ds.map u8) = s.appends ds := by
  induction ds with
  | nil => intro s; rfl
  | cons d ds ih =>
    intro s
    have e : s.append_receive_buffer (u8 d) = s.append_receive_buffer d := by
      simp [I2CSlave.append_receive_buffer, u8]
    simp only [List.map_cons, I2CSlave.appends, List.foldl_cons, e]
    exact ih _

/-- The receive loop on `n` data bytes followed by a stop or restart frame `t`. -/
theorem read_to_end_loop_spec (ds : List Nat) (t : Frame) (fs : List Frame)
    (ht : t.is_restart ≠ 2) :
    ∀ c : Cog, Cog.read_to_end_loop (Frame.data ds ++ t :: fs) c =
      .returned (decide (t.is_restart ≠ 0))
        { dev := c.dev.appends ds, frames := fs, naks := c.naks,
          trace := c.trace ++ Event.received ds } := by
  induction ds with
  | nil =>
    intro c
    simp [Frame.data, Cog.read_to_end_loop, ht, Event.received, I2CSlave.appends]
  | cons d ds ih =>
    intro c
    have e : c.dev.append_receive_buffer (u8 d) = c.dev.append_receive_buffer d := by
      simp [I2CSlave.append_receive_buffer, u8]
    have hstep : Cog.read_to_end_loop (Frame.data (d :: ds) ++ t :: fs) c =
        Cog.read_to_end_loop (Frame.data ds ++ t :: fs)
          ({ c with frames := Frame.data ds ++ t :: fs }.send_ack.append_receive_buffer
            (u8 d)) := by
      simp [Frame.data, Cog.read_to_end_loop]
    rw [hstep, ih]
    simp [Cog.send_ack, Cog.append_receive_buffer, Cog.log, Event.received, I2CSlave.appends, e]

theorem append_hasCapacity {C : Nat} (s : I2CSlave) (c : Nat) (h : s.HasCapacity C) :
    (s.append_receive_buffer c).HasCapacity C := by
  unfold I2CSlave.append_receive_buffer
  split
  · exact ⟨by simpa using h.1, h.2⟩
  · exact h

theorem appends_hasCapacity {C : Nat} (ds : List Nat) :
    ∀ s : I2CSlave, s.HasCapacity C → (s.appends ds).HasCapacity C := by
  induction ds with
  | nil => intro s h; exact h
  | cons d ds ih => intro s h; exact ih _ (append_hasCapacity s d h)

theorem received_entersFresh (C : Nat) (ds : List Nat) :
    ∀ e ∈ Event.received ds, e.entersFresh C := by
  intro e he
  simp only [Event.received, List.mem_flatMap, List.mem_cons, List.mem_singleton,
    List.not_mem_nil, or_false] at he
  obtain ⟨d, _, rfl | rfl⟩ := he <;> trivial

theorem writes_entersFresh (C : Nat) (ws : List Event) (h : ∀ e ∈ ws, ∃ b, e = .write b) :
    ∀ e ∈ ws, e.entersFresh C := by
  intro e he
  obtain ⟨b, rfl⟩ := h e he
  trivial

/-- The receive loop on any frames: it appends the data bytes `ds` it is given before the
first other frame, or before the bus goes silent. -/
theorem read_to_end_loop_general (fs : List Frame) :
    ∀ c : Cog, ∃ ds : List Nat,
      (Cog.read_to_end_loop fs c).cog.trace = c.trace ++ Event.received ds ∧
      (Cog.read_to_end_loop fs c).cog.dev = c.dev.appends ds := by
  induction fs with
  | nil => intro c; exact ⟨[], by simp [Cog.read_to_end_loop, Outcome.cog, Event.received], rfl⟩
  | cons f fs ih =>
    intro c
    by_cases hf : f.is_restart = 2
    · obtain ⟨ds, h1, h2⟩ := ih ({ c with frames := fs }.send_ack.append_receive_buffer
        (u8 f.result))
      refine ⟨f.result :: ds, ?_, ?_⟩
      · simp only [Cog.read_to_end_loop, hf, ne_eq, not_true_eq_false, if_false, h1]
        simp [Cog.send_ack, Cog.append_receive_buffer, Cog.log, Event.received]
      · have e : c.dev.append_receive_buffer (u8 f.result)
            = c.dev.append_receive_buffer f.result := by
          simp [I2CSlave.append_receive_buffer, u8]
        simp only [Cog.read_to_end_loop, hf, ne_eq, not_true_eq_false, if_false, h2]
        simp [Cog.send_ack, Cog.append_receive_buffer, Cog.log, I2CSlave.appends, e]
    · exact ⟨[], by simp [Cog.read_to_end_loop, hf, Outcome.cog, Event.received],
        by simp [Cog.read_to_end_loop, hf, Outcome.cog, I2CSlave.appends]⟩

theorem restart_body_mismatch (on_receive on_request : Handler) (result : Nat) (c : Cog)
    (hm : u8 result >>> 1 ≠ c.dev.m_slave_address) :
    Cog.restart_body on_receive on_request result c = .returned false c := by
  simp [Cog.restart_body, hm]

theorem restart_body_request_returned (on_receive on_request : Handler) (result : Nat)
    (c c1 : Cog) (u : Unit) (hm : u8 result >>> 1 = c.dev.m_slave_address)
    (hb : u8 result &&& 1 ≠ 0)
    (hx : (c.send_ack.set_request_ended false).on_request on_request = .returned u c1) :
    Cog.restart_body on_receive on_request result c = .returned false c1 := by
  rw [Cog.restart_body, if_pos hm, if_pos hb, hx]

theorem restart_body_request_waiting (on_receive on_request : Handler) (result : Nat)
    (c c1 : Cog) (hm : u8 result >>> 1 = c.dev.m_slave_address) (hb : u8 result &&& 1 ≠ 0)
    (hx : (c.send_ack.set_request_ended false).on_request on_request = .waiting c1) :
    Cog.restart_body on_receive on_request result c = .waiting c1 := by
  rw [Cog.restart_body, if_pos hm, if_pos hb, hx]

theorem restart_body_receive_silent (on_receive on_request : Handler) (result : Nat)
    (c c1 : Cog) (hm : u8 result >>> 1 = c.dev.m_slave_address) (hb : ¬ u8 result &&& 1 ≠ 0)
    (hx : c.send_ack.read_to_end = .waiting c1) :
    Cog.restart_body on_receive on_request result c = .waiting c1 := by
  rw [Cog.restart_body, if_pos hm, if_neg hb, hx]

theorem restart_body_receive_waiting (on_receive on_request : Handler) (result : Nat)
    (c c1 c2 : Cog) (restart : Bool) (hm : u8 result >>> 1 = c.dev.m_slave_address)
    (hb : ¬ u8 result &&& 1 ≠ 0) (hx : c.send_ack.read_to_end = .returned restart c1)
    (hy : c1.on_receive on_receive = .waiting c2) :
    Cog.restart_body on_receive on_request result c = .waiting c2 := by
  rw [Cog.restart_body, if_pos hm, if_neg hb, hx]
  simp only [hy]

theorem restart_body_receive_returned (on_receive on_request : Handler) (result : Nat)
    (c c1 c2 : Cog) (restart : Bool) (u : Unit)
    (hm : u8 result >>> 1 = c.dev.m_slave_address)
    (hb : ¬ u8 result &&& 1 ≠ 0) (hx : c.send_ack.read_to_end = .returned restart c1)
    (hy : c1.on_receive on_receive = .returned u c2) :
    Cog.restart_body on_receive on_request result c =
      .returned restart c2.reset_receive_buffer := by
  rw [Cog.restart_body, if_pos hm, if_neg hb, hx]
  simp only [hy]

theorem on_request_spec (h : Handler) (c : Cog) :
    ∃ ws : List Event, (∀ e ∈ ws, ∃ b, e = .write b) ∧
      (c.on_request h).cog.trace = c.trace ++ [.on_request c.dev] ++ ws ∧
      (c.on_request h).cog.frames = c.frames ∧
      c.dev.Handled (c.on_request h).cog.dev := by
  obtain ⟨ws, w1, w2, w3, w4⟩ := handler_call_spec h (c.log (.on_request c.dev))
  exact ⟨ws, w1, w2, w3, w4⟩

theorem on_receive_spec (h : Handler) (c : Cog) :
    ∃ ws : List Event, (∀ e ∈ ws, ∃ b, e = .write b) ∧
      (c.on_receive h).cog.trace = c.trace ++ [.on_receive c.dev] ++ ws ∧
      (c.on_receive h).cog.frames = c.frames ∧
      c.dev.Handled (c.on_receive h).cog.dev := by
  obtain ⟨ws, w1, w2, w3, w4⟩ := handler_call_spec h (c.log (.on_receive c.dev))
  exact ⟨ws, w1, w2, w3, w4⟩

theorem read_to_end_general (c : Cog) :
    ∃ ds : List Nat,
      c.read_to_end.cog.trace = c.trace ++ [.read_to_end c.dev] ++ Event.received ds ∧
      c.read_to_end.cog.dev = c.dev.appends ds := by
  obtain ⟨ds, h1, h2⟩ := read_to_end_loop_general c.frames (c.log (.read_to_end c.dev))
  exact ⟨ds, h1, h2⟩

/-- One pass of the restart loop only adds calls to the trace; started on an empty
buffer, every receive phase in it starts on an empty buffer, and so does the next pass. -/
theorem restart_body_general (C : Nat) (on_receive on_request : Handler) (result : Nat)
    (c : Cog) :
    ∃ evs : List Event,
      (Cog.restart_body on_receive on_request result c).cog.trace = c.trace ++ evs ∧
      (1 ≤ C → C < 2 ^ 32 → c.dev.Fresh C →
        (∀ e ∈ evs, e.entersFresh C) ∧
        ((Cog.restart_body on_receive on_request result c).isReturned = true →
          (Cog.restart_body on_receive on_request result c).cog.dev.Fresh C)) := by
  by_cases hm : u8 result >>> 1 = c.dev.m_slave_address
  · by_cases hb : u8 result &&& 1 ≠ 0
    · obtain ⟨ws, w1, w2, _, w4⟩ := on_request_spec on_request
        (c.send_ack.set_request_ended false)
      have hgood : ∀ C, ∀ e ∈ [Event.send_ack,
          Event.on_request (c.send_ack.set_request_ended false).dev] ++ ws,
          e.entersFresh C := fun C =>
        List.forall_mem_append.2 ⟨by intro e he; simp at he; rcases he with rfl | rfl <;> trivial,
          writes_entersFresh C ws w1⟩
      refine ⟨[.send_ack, .on_request (c.send_ack.set_request_ended false).dev] ++ ws, ?_, ?_⟩
      · cases hx : (c.send_ack.set_request_ended false).on_request on_request with
        | returned u c1 =>
          rw [restart_body_request_returned _ _ _ _ _ u hm hb hx]
          rw [hx] at w2
          simpa [Outcome.cog, Cog.log, Cog.send_ack, Cog.set_request_ended] using w2
        | waiting c1 =>
          rw [restart_body_request_waiting _ _ _ _ _ hm hb hx]
          rw [hx] at w2
          simpa [Outcome.cog, Cog.log, Cog.send_ack, Cog.set_request_ended] using w2
      · intro hC1 hC2 hf
        refine ⟨hgood C, ?_⟩
        have hf' : (c.send_ack.set_request_ended false).dev.Fresh C := hf
        have hfin := handled_fresh hC1 w4 hf'
        cases hx : (c.send_ack.set_request_ended false).on_request on_request with
        | returned u c1 =>
          rw [restart_body_request_returned _ _ _ _ _ u hm hb hx]
          rw [hx] at hfin
          exact fun _ => hfin
        | waiting c1 =>
          rw [restart_body_request_waiting _ _ _ _ _ hm hb hx]
          intro h; simp [Outcome.isReturned] at h
    · obtain ⟨ds, r1, r2⟩ := read_to_end_general c.send_ack
      have hgood1 : ∀ C, c.dev.Fresh C → ∀ e ∈ [Event.send_ack, Event.read_to_end c.dev]
          ++ Event.received ds, e.entersFresh C := fun C hf =>
        List.forall_mem_append.2 ⟨by
          intro e he; simp at he; rcases he with rfl | rfl
          · trivial
          · exact hf, received_entersFresh C ds⟩
      cases hx : c.send_ack.read_to_end with
      | waiting c1 =>
        rw [restart_body_receive_silent _ _ _ _ _ hm hb hx]
        rw [hx] at r1
        refine ⟨[.send_ack, .read_to_end c.dev] ++ Event.received ds, ?_, ?_⟩
        · simpa [Outcome.cog, Cog.log, Cog.send_ack] using r1
        · intro _ _ hf
          exact ⟨hgood1 C hf, by intro h; simp [Outcome.isReturned] at h⟩
      | returned restart c1 =>
        rw [hx] at r1 r2
        simp only [Outcome.cog] at r1 r2
        obtain ⟨ws, w1, w2, _, w4⟩ := on_receive_spec on_receive c1
        have hgood2 : ∀ C, c.dev.Fresh C → ∀ e ∈ [Event.send_ack, Event.read_to_end c.dev]
            ++ Event.received ds ++ [.on_receive c1.dev] ++ ws, e.entersFresh C :=
          fun C hf => List.forall_mem_append.2 ⟨List.forall_mem_append.2 ⟨hgood1 C hf, by
            intro e he; simp at he; subst he; trivial⟩, writes_entersFresh C ws w1⟩
        have hcap : c.dev.HasCapacity C → c1.dev.HasCapacity C := by
          intro h; rw [r2]; exact appends_hasCapacity ds _ h
        cases hy : c1.on_receive on_receive with
        | waiting c2 =>
          rw [restart_body_receive_waiting _ _ _ _ _ _ _ hm hb hx hy]
          rw [hy] at w2
          refine ⟨[.send_ack, .read_to_end c.dev] ++ Event.received ds
            ++ [.on_receive c1.dev] ++ ws, ?_, ?_⟩
          · simp only [Outcome.cog] at w2 ⊢
            rw [w2, r1]
            simp [Cog.send_ack, Cog.log]
          · intro _ _ hf
            exact ⟨hgood2 C hf, by intro h; simp [Outcome.isReturned] at h⟩
        | returned u c2 =>
          rw [restart_body_receive_returned _ _ _ _ _ _ _ u hm hb hx hy]
          rw [hy] at w2 w4
          simp only [Outcome.cog] at w2 w4
          refine ⟨[.send_ack, .read_to_end c.dev] ++ Event.received ds
            ++ [.on_receive c1.dev] ++ ws ++ [.reset_receive_buffer], ?_, ?_⟩
          · simp only [Outcome.cog, Cog.reset_receive_buffer, Cog.log]
            rw [w2, r1]
            simp [Cog.send_ack, Cog.log]
          · intro hC1 hC2 hf
            have hfr := reset_fresh C c2.dev hC1 hC2 (handled_hasCapacity w4 (hcap hf.1))
            exact ⟨List.forall_mem_append.2 ⟨hgood2 C hf, by
              intro e he; simp at he; subst he; trivial⟩, fun _ => hfr⟩
  · rw [restart_body_mismatch _ _ _ _ hm]
    exact ⟨[], by simp [Outcome.cog], fun _ _ hf => ⟨by simp, fun _ => hf⟩⟩

theorem restart_loop_waiting (on_receive on_request : Handler) (result : Nat)
    (addresses : List Nat) (c c1 : Cog)
    (hx : Cog.restart_body on_receive on_request result (c.log .read_address) = .waiting c1) :
    Cog.restart_loop on_receive on_request (result :: addresses) c = c1 := by
  simp only [Cog.restart_loop, hx]

theorem restart_loop_continue (on_receive on_request : Handler) (result : Nat)
    (addresses : List Nat) (c c1 : Cog)
    (hx : Cog.restart_body on_receive on_request result (c.log .read_address)
      = .returned true c1) :
    Cog.restart_loop on_receive on_request (result :: addresses) c
      = Cog.restart_loop on_receive on_request addresses c1 := by
  simp only [Cog.restart_loop, hx]

theorem restart_loop_break (on_receive on_request : Handler) (result : Nat)
    (addresses : List Nat) (c c1 : Cog)
    (hx : Cog.restart_body on_receive on_request result (c.log .read_address)
      = .returned false c1) :
    Cog.restart_loop on_receive on_request (result :: addresses) c
      = Cog.run on_receive on_request addresses c1 := by
  simp only [Cog.restart_loop, hx, Cog.run]

/-- The restart loop starts with a call of `read_address` and only adds calls to the
trace; started on an empty buffer, every receive phase starts on an empty buffer. -/
theorem restart_loop_general (C : Nat) (on_receive on_request : Handler)
    (addresses : List Nat) :
    ∀ c : Cog, ∃ evs : List Event,
      (Cog.restart_loop on_receive on_request addresses c).trace
        = c.trace ++ .read_address :: evs ∧
      (1 ≤ C → C < 2 ^ 32 → c.dev.Fresh C → ∀ e ∈ evs, e.entersFresh C) := by
  induction addresses with
  | nil => intro c; exact ⟨[], by simp [Cog.restart_loop, Cog.log], fun _ _ _ => by simp⟩
  | cons result addresses ih =>
    intro c
    obtain ⟨evs1, t1, g1⟩ := restart_body_general C on_receive on_request result
      (c.log .read_address)
    cases hx : Cog.restart_body on_receive on_request result (c.log .read_address) with
    | waiting c1 =>
      rw [restart_loop_waiting _ _ _ _ _ _ hx]
      rw [hx] at t1 g1
      refine ⟨evs1, by simpa [Outcome.cog, Cog.log] using t1, fun h1 h2 hf => (g1 h1 h2 hf).1⟩
    | returned b c1 =>
      rw [hx] at t1 g1
      simp only [Outcome.cog, Outcome.isReturned, forall_true_left] at t1 g1
      cases b with
      | true =>
        rw [restart_loop_continue _ _ _ _ _ _ hx]
        obtain ⟨evs2, t2, g2⟩ := ih c1
        refine ⟨evs1 ++ .read_address :: evs2, ?_, ?_⟩
        · rw [t2, t1]; simp [Cog.log]
        · intro h1 h2 hf
          obtain ⟨a1, a2⟩ := g1 h1 h2 hf
          exact List.forall_mem_append.2 ⟨a1, List.forall_mem_cons.2 ⟨trivial, g2 h1 h2 a2⟩⟩
      | false =>
        rw [restart_loop_break _ _ _ _ _ _ hx, Cog.run]
        obtain ⟨evs2, t2, g2⟩ := ih c1.await_start
        refine ⟨evs1 ++ .await_start :: .read_address :: evs2, ?_, ?_⟩
        · rw [t2]
          simp only [Cog.await_start, Cog.log, t1]
          simp
        · intro h1 h2 hf
          obtain ⟨a1, a2⟩ := g1 h1 h2 hf
          exact List.forall_mem_append.2 ⟨a1, List.forall_mem_cons.2 ⟨trivial,
            List.forall_mem_cons.2 ⟨trivial, g2 h1 h2 a2⟩⟩⟩

theorem restart_loop_prefix (on_receive on_request : Handler) (addresses : List Nat)
    (c : Cog) :
    (c.trace ++ [.read_address]) <+:
      (Cog.restart_loop on_receive on_request addresses c).trace := by
  obtain ⟨evs, h, _⟩ := restart_loop_general 1 on_receive on_request addresses c
  exact ⟨evs, by rw [h]; simp⟩

theorem run_prefix (on_receive on_request : Handler) (addresses : List Nat) (c : Cog) :
    (c.trace ++ [.await_start, .read_address]) <+:
      (Cog.run on_receive on_request addresses c).trace := by
  obtain ⟨evs, h⟩ := restart_loop_prefix on_receive on_request addresses c.await_start
  exact ⟨evs, by rw [Cog.run, ← h]; simp [Cog.await_start, Cog.log]⟩

/-- C6. Address mismatch in `run()`: when the address byte returned by `read_address` has
`(a >> 1) != m_slave_address`, the pass through the restart loop makes no call at all (no
`send_ack`, no callback), leaves the engine, its buffer, fill pointer and
`m_request_ended` and the bus as they were and leaves the loop, and the next call of the
engine is `await_start` (followed by the next `read_address`). -/
theorem address_mismatch_is_ignored (on_receive on_request : Handler) (result : Nat)
    (addresses : List Nat) (c : Cog) (hm : u8 result >>> 1 ≠ c.dev.m_slave_address) :
    Cog.restart_body on_receive on_request result (c.log .read_address)
      = .returned false (c.log .read_address) ∧
    (c.log .read_address).dev = c.dev ∧
    Cog.restart_loop on_receive on_request (result :: addresses) c
      = Cog.run on_receive on_request addresses (c.log .read_address) ∧
    (c.trace ++ [.read_address, .await_start, .read_address]) <+:
      (Cog.restart_loop on_receive on_request (result :: addresses) c).trace := by
  have hb := restart_body_mismatch on_receive on_request result (c.log .read_address) hm
  have hl := restart_loop_break _ _ _ addresses _ _ hb
  refine ⟨hb, rfl, hl, ?_⟩
  rw [hl]
  have := run_prefix on_receive on_request addresses (c.log .read_address)
  simpa [Cog.log] using this

theorem address_mismatch_is_ignored_witness :
    u8 0x10 >>> 1 ≠ (Cog.boot 0x42 4 (fun _ => 0) false [] []).await_start.dev.m_slave_address ∧
    (Cog.run .done .done [0x10] (Cog.boot 0x42 4 (fun _ => 0) false [] [])).trace
      = [.await_start, .read_address, .await_start, .read_address] ∧
    (Cog.run .done .done [0x10] (Cog.boot 0x42 4 (fun _ => 0) false [] [])).dev
      = I2CSlave.ctor 0x42 4 (fun _ => 0) false :=
  ⟨by decide,
    by
      have h := address_mismatch_is_ignored .done .done 0x10 []
        (Cog.boot 0x42 4 (fun _ => 0) false [] []).await_start (by decide)
      exact ⟨by rw [Cog.run, h.2.2.1]; rfl, by rw [Cog.run, h.2.2.1]; rfl⟩⟩

theorem since_of_trace {c0 c : Cog} {evs : List Event} (h : c.trace = c0.trace ++ evs) :
    Cog.since c0 c = evs := by
  simp [Cog.since, h]

theorem writes_count (ws : List Event) (h : ∀ e ∈ ws, ∃ b, e = .write b) :
    ws.count .send_ack = 0 ∧ ws.countP Event.isOnRequest = 0 ∧
      ws.countP Event.isOnReceive = 0 := by
  induction ws with
  | nil => simp
  | cons w ws ih =>
    obtain ⟨b, rfl⟩ := h _ (List.mem_cons_self _ _)
    obtain ⟨i1, i2, i3⟩ := ih (fun e he => h e (List.mem_cons_of_mem _ he))
    refine ⟨?_, ?_, ?_⟩
    · rw [List.count_cons, i1]; simp
    · rw [List.countP_cons, i2]; simp [Event.isOnRequest]
    · rw [List.countP_cons, i3]; simp [Event.isOnReceive]

theorem received_count (ds : List Nat) :
    (Event.received ds).count .send_ack = ds.length ∧
      (Event.received ds).countP Event.isOnRequest = 0 ∧
      (Event.received ds).countP Event.isOnReceive = 0 := by
  induction ds with
  | nil => simp [Event.received]
  | cons d ds ih =>
    obtain ⟨i1, i2, i3⟩ := ih
    have e : Event.received (d :: ds)
        = .send_ack :: .append_receive_buffer (u8 d) :: Event.received ds := by
      simp [Event.received]
    rw [e]
    refine ⟨?_, ?_, ?_⟩
    · rw [List.count_cons, List.count_cons, i1]; simp
    · rw [List.countP_cons, List.countP_cons, i2]; simp [Event.isOnRequest]
    · rw [List.countP_cons, List.countP_cons, i3]; simp [Event.isOnReceive]

theorem read_to_end_spec (c : Cog) (ds : List Nat) (t : Frame) (fs : List Frame)
    (hfr : c.frames = Frame.data ds ++ t :: fs) (ht : t.is_restart ≠ 2) :
    c.read_to_end = .returned (decide (t.is_restart ≠ 0))
      { dev := c.dev.appends ds, frames := fs, naks := c.naks,
        trace := c.trace ++ [.read_to_end c.dev] ++ Event.received ds } := by
  rw [Cog.read_to_end, hfr, read_to_end_loop_spec ds t fs ht]
  rfl

/-- The calls of a pass through the restart loop that is a receive phase of the bytes
`ds`, ended by the frame `t`. -/
theorem receive_pass_trace (on_receive on_request : Handler) (result : Nat) (c : Cog)
    (hm : u8 result >>> 1 = c.dev.m_slave_address) (hbit : u8 result &&& 1 = 0)
    (ds : List Nat) (t : Frame) (fs : List Frame)
    (hfr : c.frames = Frame.data ds ++ t :: fs) (ht : t.is_restart ≠ 2) :
    ∃ ws tail : List Event, (∀ e ∈ ws, ∃ b, e = .write b) ∧
      (tail = [] ∨ tail = [.reset_receive_buffer]) ∧
      (Cog.restart_body on_receive on_request result (c.log .read_address)).cog.trace
        = (c.log .read_address).trace ++ ([.send_ack, .read_to_end c.dev]
          ++ Event.received ds ++ [.on_receive (c.dev.appends ds)] ++ ws ++ tail) := by
  have hm' : u8 result >>> 1 = (c.log .read_address).dev.m_slave_address := hm
  have hb : ¬ u8 result &&& 1 ≠ 0 := by rw [hbit]; decide
  have hx := read_to_end_spec (c.log .read_address).send_ack ds t fs hfr ht
  obtain ⟨ws, w1, w2, _, _⟩ := on_receive_spec on_receive
    { dev := (c.log .read_address).send_ack.dev.appends ds, frames := fs,
      naks := (c.log .read_address).send_ack.naks,
      trace := (c.log .read_address).send_ack.trace
        ++ [.read_to_end (c.log .read_address).send_ack.dev] ++ Event.received ds }
  cases hy : Cog.on_receive
      { dev := (c.log .read_address).send_ack.dev.appends ds, frames := fs,
        naks := (c.log .read_address).send_ack.naks,
        trace := (c.log .read_address).send_ack.trace
          ++ [.read_to_end (c.log .read_address).send_ack.dev] ++ Event.received ds }
      on_receive with
  | waiting c2 =>
    rw [hy] at w2
    simp only [Outcome.cog] at w2
    refine ⟨ws, [], w1, Or.inl rfl, ?_⟩
    rw [restart_body_receive_waiting _ _ _ _ _ _ _ hm' hb hx hy]
    simp only [Outcome.cog]
    rw [w2]
    simp [Cog.log, Cog.send_ack]
  | returned u c2 =>
    rw [hy] at w2
    simp only [Outcome.cog] at w2
    refine ⟨ws, [.reset_receive_buffer], w1, Or.inr rfl, ?_⟩
    rw [restart_body_receive_returned _ _ _ _ _ _ _ u hm' hb hx hy]
    simp only [Outcome.cog, Cog.reset_receive_buffer, Cog.log]
    rw [w2]
    simp [Cog.log, Cog.send_ack]

/-- C7. Address match in `run()`: when `(a >> 1) == m_slave_address`, the first call after
`read_address` is one `send_ack`. If the low bit of `a` is `1`, it is followed by exactly
one invocation of `on_request` (with `m_request_ended` cleared), `on_receive` is not
invoked, the only further calls are the `write`s of the callback, and when the callback
returns the loop is left and `run` goes on with `await_start`. If the low bit is `0`, the
ACK is followed by `read_to_end`; once the bus delivers the stop or restart that ends it,
`on_receive` is invoked exactly once and `on_request` not at all (the other
acknowledgments of the pass are those of the data bytes, sent inside `read_to_end`). -/
theorem address_match_dispatch (on_receive on_request : Handler) (result : Nat) (c : Cog)
    (hm : u8 result >>> 1 = c.dev.m_slave_address) :
    (u8 result &&& 1 = 1 →
      ∃ ws : List Event, (∀ e ∈ ws, ∃ b, e = .write b) ∧
        (Cog.restart_body on_receive on_request result (c.log .read_address)).cog.trace =
          c.trace ++ [.read_address, .send_ack,
            .on_request { c.dev with m_request_ended := false }] ++ ws ∧
        (Cog.since (c.log .read_address)
          (Cog.restart_body on_receive on_request result
            (c.log .read_address)).cog).count .send_ack = 1 ∧
        (Cog.since (c.log .read_address)
          (Cog.restart_body on_receive on_request result
            (c.log .read_address)).cog).countP Event.isOnRequest = 1 ∧
        (Cog.since (c.log .read_address)
          (Cog.restart_body on_receive on_request result
            (c.log .read_address)).cog).countP Event.isOnReceive = 0 ∧
        (∀ b c1, Cog.restart_body on_receive on_request result (c.log .read_address)
            = .returned b c1 →
          b = false ∧ ∀ addresses,
            Cog.restart_loop on_receive on_request (result :: addresses) c
              = Cog.run on_receive on_request addresses c1)) ∧
    (u8 result &&& 1 = 0 →
      (c.trace ++ [.read_address, .send_ack, .read_to_end c.dev]) <+:
        (Cog.restart_body on_receive on_request result (c.log .read_address)).cog.trace ∧
      ∀ ds t fs, c.frames = Frame.data ds ++ t :: fs → t.is_restart ≠ 2 →
        ∃ ws tail : List Event, (∀ e ∈ ws, ∃ b, e = .write b) ∧
          (tail = [] ∨ tail = [.reset_receive_buffer]) ∧
          (Cog.restart_body on_receive on_request result (c.log .read_address)).cog.trace =
            c.trace ++ [.read_address, .send_ack, .read_to_end c.dev] ++ Event.received ds
              ++ [.on_receive (c.dev.appends ds)] ++ ws ++ tail ∧
          (Cog.since (c.log .read_address)
            (Cog.restart_body on_receive on_request result
              (c.log .read_address)).cog).countP Event.isOnReceive = 1 ∧
          (Cog.since (c.log .read_address)
            (Cog.restart_body on_receive on_request result
              (c.log .read_address)).cog).countP Event.isOnRequest = 0 ∧
          (Cog.since (c.log .read_address)
            (Cog.restart_body on_receive on_request result
              (c.log .read_address)).cog).count .send_ack = 1 + ds.length) := by
  have hm' : u8 result >>> 1 = (c.log .read_address).dev.m_slave_address := hm
  constructor
  · intro hbit
    have hb : u8 result &&& 1 ≠ 0 := by rw [hbit]; decide
    obtain ⟨ws, w1, w2, _, _⟩ := on_request_spec on_request
      ((c.log .read_address).send_ack.set_request_ended false)
    obtain ⟨k1, k2, k3⟩ := writes_count ws w1
    have key : (Cog.restart_body on_receive on_request result (c.log .read_address)).cog
        = (((c.log .read_address).send_ack.set_request_ended false).on_request
            on_request).cog := by
      cases hx : ((c.log .read_address).send_ack.set_request_ended false).on_request
          on_request with
      | returned u c1 => rw [restart_body_request_returned _ _ _ _ _ u hm' hb hx]; rfl
      | waiting c1 => rw [restart_body_request_waiting _ _ _ _ _ hm' hb hx]; rfl
    have htr : (Cog.restart_body on_receive on_request result (c.log .read_address)).cog.trace
        = (c.log .read_address).trace ++ ([.send_ack,
            .on_request { c.dev with m_request_ended := false }] ++ ws) := by
      rw [key, w2]
      simp [Cog.log, Cog.send_ack, Cog.set_request_ended]
    refine ⟨ws, w1, ?_, ?_, ?_, ?_, ?_⟩
    · rw [htr]; simp [Cog.log]
    · rw [since_of_trace htr, List.count_append, k1]; simp [List.count_cons]
    · rw [since_of_trace htr, List.countP_append, k2]; simp [List.countP_cons, Event.isOnRequest]
    · rw [since_of_trace htr, List.countP_append, k3]; simp [List.countP_cons, Event.isOnReceive]
    · intro b c1 hret
      cases hx : ((c.log .read_address).send_ack.set_request_ended false).on_request
          on_request with
      | returned u c2 =>
        have e := restart_body_request_returned on_receive on_request _ _ _ u hm' hb hx
        rw [e] at hret
        injection hret with hb1 hc1
        subst hb1; subst hc1
        exact ⟨rfl, fun addresses => restart_loop_break _ _ _ addresses _ _ e⟩
      | waiting c2 =>
        rw [restart_body_request_waiting _ _ _ _ _ hm' hb hx] at hret
        cases hret
  · intro hbit
    have hb : ¬ u8 result &&& 1 ≠ 0 := by rw [hbit]; decide
    constructor
    · obtain ⟨evs, t1, _⟩ := restart_body_general 1 on_receive on_request result
        (c.log .read_address)
      obtain ⟨ds, r1, _⟩ := read_to_end_general (c.log .read_address).send_ack
      cases hx : (c.log .read_address).send_ack.read_to_end with
      | waiting c1 =>
        rw [restart_body_receive_silent _ _ _ _ _ hm' hb hx]
        rw [hx] at r1
        exact ⟨Event.received ds, by simp only [Outcome.cog] at r1 ⊢; rw [r1]; simp [Cog.log, Cog.send_ack]⟩
      | returned restart c1 =>
        rw [hx] at r1
        simp only [Outcome.cog] at r1
        obtain ⟨ws, _, w2, _, _⟩ := on_receive_spec on_receive c1
        cases hy : c1.on_receive on_receive with
        | waiting c2 =>
          rw [restart_body_receive_waiting _ _ _ _ _ _ _ hm' hb hx hy]
          rw [hy] at w2
          simp only [Outcome.cog] at w2 ⊢
          exact ⟨Event.received ds ++ [.on_receive c1.dev] ++ ws, by
            rw [w2, r1]; simp [Cog.log, Cog.send_ack]⟩
        | returned u c2 =>
          rw [restart_body_receive_returned _ _ _ _ _ _ _ u hm' hb hx hy]
          rw [hy] at w2
          simp only [Outcome.cog] at w2 ⊢
          exact ⟨Event.received ds ++ [.on_receive c1.dev] ++ ws ++ [.reset_receive_buffer],
            by simp only [Cog.reset_receive_buffer, Cog.log]; rw [w2, r1]; simp [Cog.log, Cog.send_ack]⟩
    · intro ds t fs hfr ht
      obtain ⟨ws, tail, w1, htail, htr⟩ :=
        receive_pass_trace on_receive on_request result c hm hbit ds t fs hfr ht
      obtain ⟨k1, k2, k3⟩ := writes_count ws w1
      obtain ⟨q1, q2, q3⟩ := received_count ds
      refine ⟨ws, tail, w1, htail, ?_, ?_, ?_, ?_⟩
      · rw [htr]; simp [Cog.log]
      · rw [since_of_trace htr]
        simp only [List.countP_append, k3, q3]
        rcases htail with rfl | rfl <;> simp [List.countP_cons, Event.isOnReceive]
      · rw [since_of_trace htr]
        simp only [List.countP_append, k2, q2]
        rcases htail with rfl | rfl <;> simp [List.countP_cons, Event.isOnRequest]
      · rw [since_of_trace htr]
        simp only [List.count_append, k1, q1]
        rcases htail with rfl | rfl <;> simp [List.count_cons]

theorem address_match_dispatch_witness :
    (u8 0x85 >>> 1
        = (Cog.boot 0x42 4 (fun _ => 0) true [] [true]).await_start.dev.m_slave_address ∧
      u8 0x84 >>> 1
        = (Cog.boot 0x42 4 (fun _ => 0) true [⟨0x11, 2⟩, ⟨0x22, 2⟩, ⟨0, 0⟩]
            []).await_start.dev.m_slave_address) ∧
    (Cog.since ((Cog.boot 0x42 4 (fun _ => 0) true [] [true]).await_start.log .read_address)
      (Cog.restart_body (Handler.reads 2) (.write 0xAA .done) 0x85
        ((Cog.boot 0x42 4 (fun _ => 0) true [] [true]).await_start.log
          .read_address)).cog).countP Event.isOnRequest = 1 ∧
    (Cog.since ((Cog.boot 0x42 4 (fun _ => 0) true [⟨0x11, 2⟩, ⟨0x22, 2⟩, ⟨0, 0⟩]
        []).await_start.log .read_address)
      (Cog.restart_body (Handler.reads 2) (.write 0xAA .done) 0x84
        ((Cog.boot 0x42 4 (fun _ => 0) true [⟨0x11, 2⟩, ⟨0x22, 2⟩, ⟨0, 0⟩]
          []).await_start.log .read_address)).cog).countP Event.isOnReceive = 1 :=
  ⟨by decide,
    by
      obtain ⟨_, _, _, _, h, _⟩ :=
        (address_match_dispatch (Handler.reads 2) (.write 0xAA .done) 0x85
          (Cog.boot 0x42 4 (fun _ => 0) true [] [true]).await_start (by decide)).1
          (by decide)
      exact h,
    by
      obtain ⟨_, _, _, _, _, h, _⟩ :=
        ((address_match_dispatch (Handler.reads 2) (.write 0xAA .done) 0x84
          (Cog.boot 0x42 4 (fun _ => 0) true [⟨0x11, 2⟩, ⟨0x22, 2⟩, ⟨0, 0⟩]
            []).await_start (by decide)).2 (by decide)).2 [0x11, 0x22] ⟨0, 0⟩ [] rfl
          (by decide)
      exact h⟩

/-- C8. Restart and stop in `run()`: in a receive phase whose bytes `ds` are followed by
the frame `t` that ends `read_to_end`, the callback `on_receive` is invoked on the engine
that holds all the bytes appended in the phase, nothing being reset before; when the
callback returns, `reset_receive_buffer` is the next call. If `read_to_end` returned
`true` (restart) the call after the reset is `read_address`, with no `await_start` in
between; if it returned `false` (stop) the call after the reset is `await_start`. -/
theorem restart_goes_straight_to_read_address (on_receive on_request : Handler)
    (result : Nat) (addresses : List Nat) (c c2 : Cog) (ds : List Nat) (t : Frame)
    (fs : List Frame) (hm : u8 result >>> 1 = c.dev.m_slave_address)
    (hbit : u8 result &&& 1 = 0) (hfr : c.frames = Frame.data ds ++ t :: fs)
    (ht : t.is_restart ≠ 2)
    (hcb : Cog.on_receive
        { dev := c.dev.appends ds, frames := fs, naks := c.naks,
          trace := c.trace ++ [.read_address, .send_ack, .read_to_end c.dev]
            ++ Event.received ds } on_receive = .returned () c2) :
    (c.log .read_address).send_ack.read_to_end =
      .returned (decide (t.is_restart ≠ 0))
        { dev := c.dev.appends ds, frames := fs, naks := c.naks,
          trace := c.trace ++ [.read_address, .send_ack, .read_to_end c.dev]
            ++ Event.received ds } ∧
    (∃ ws : List Event, (∀ e ∈ ws, ∃ b, e = .write b) ∧
      c2.trace = c.trace ++ [.read_address, .send_ack, .read_to_end c.dev]
        ++ Event.received ds ++ [.on_receive (c.dev.appends ds)] ++ ws) ∧
    (t.is_restart ≠ 0 →
      Cog.restart_loop on_receive on_request (result :: addresses) c
        = Cog.restart_loop on_receive on_request addresses c2.reset_receive_buffer ∧
      (c2.trace ++ [.reset_receive_buffer, .read_address]) <+:
        (Cog.restart_loop on_receive on_request (result :: addresses) c).trace) ∧
    (t.is_restart = 0 →
      Cog.restart_loop on_receive on_request (result :: addresses) c
        = Cog.run on_receive on_request addresses c2.reset_receive_buffer ∧
      (c2.trace ++ [.reset_receive_buffer, .await_start, .read_address]) <+:
        (Cog.restart_loop on_receive on_request (result :: addresses) c).trace) := by
  have hm' : u8 result >>> 1 = (c.log .read_address).dev.m_slave_address := hm
  have hb : ¬ u8 result &&& 1 ≠ 0 := by rw [hbit]; decide
  have hx := read_to_end_spec (c.log .read_address).send_ack ds t fs hfr ht
  have hx' : (c.log .read_address).send_ack.read_to_end =
      .returned (decide (t.is_restart ≠ 0))
        { dev := c.dev.appends ds, frames := fs, naks := c.naks,
          trace := c.trace ++ [.read_address, .send_ack, .read_to_end c.dev]
            ++ Event.received ds } := by
    rw [hx]; simp [Cog.log, Cog.send_ack]
  have hbody := restart_body_receive_returned on_receive on_request result
    (c.log .read_address) _ c2 _ () hm' hb hx' hcb
  obtain ⟨ws, w1, w2, _, _⟩ := on_receive_spec on_receive
    { dev := c.dev.appends ds, frames := fs, naks := c.naks,
      trace := c.trace ++ [.read_address, .send_ack, .read_to_end c.dev]
        ++ Event.received ds }
  rw [hcb] at w2
  refine ⟨hx', ⟨ws, w1, w2⟩, ?_, ?_⟩
  · intro hr
    have hd : decide (t.is_restart ≠ 0) = true := by simpa using hr
    rw [hd] at hbody
    have hl := restart_loop_continue _ _ _ addresses _ _ hbody
    refine ⟨hl, ?_⟩
    rw [hl]
    have := restart_loop_prefix on_receive on_request addresses c2.reset_receive_buffer
    simpa [Cog.reset_receive_buffer, Cog.log] using this
  · intro hr
    have hd : decide (t.is_restart ≠ 0) = false := by simpa using hr
    rw [hd] at hbody
    have hl := restart_loop_break _ _ _ addresses _ _ hbody
    refine ⟨hl, ?_⟩
    rw [hl]
    have := run_prefix on_receive on_request addresses c2.reset_receive_buffer
    simpa [Cog.reset_receive_buffer, Cog.log] using this

theorem restart_goes_straight_to_read_address_witness :
    (u8 0x84 >>> 1 = Cog.demo.dev.m_slave_address ∧ u8 0x84 &&& 1 = 0 ∧
      Cog.demo.frames = Frame.data [0x11, 0x22] ++ ⟨1, 1⟩ :: [⟨0x33, 2⟩, ⟨0, 0⟩] ∧
      (⟨1, 1⟩ : Frame).is_restart ≠ 2 ∧ (⟨1, 1⟩ : Frame).is_restart ≠ 0) ∧
    (Cog.restart_loop (Handler.reads 1) .done [0x84, 0x84] Cog.demo).trace.take 13 =
      [.await_start, .read_address, .send_ack, .read_to_end Cog.demo.dev,
        .send_ack, .append_receive_buffer 0x11, .send_ack, .append_receive_buffer 0x22,
        .on_receive (Cog.demo.dev.appends [0x11, 0x22]), .reset_receive_buffer,
        .read_address, .send_ack,
        .read_to_end (Cog.demo.dev.appends [0x11, 0x22]).reset_receive_buffer] :=
  ⟨by decide,
    by
      have h := (restart_goes_straight_to_read_address (Handler.reads 1) .done 0x84 [0x84]
        Cog.demo
        (Cog.on_receive
          { dev := Cog.demo.dev.appends [0x11, 0x22], frames := [⟨0x33, 2⟩, ⟨0, 0⟩],
            naks := Cog.demo.naks,
            trace := Cog.demo.trace ++ [.read_address, .send_ack, .read_to_end Cog.demo.dev]
              ++ Event.received [0x11, 0x22] } (Handler.reads 1)).cog
        [0x11, 0x22] ⟨1, 1⟩ [⟨0x33, 2⟩, ⟨0, 0⟩] (by decide) (by decide) (by decide)
        (by decide) (by decide)).2.2.1 (by decide)
      rw [h.1]
      decide⟩

/-- C9. Delivery of a receive phase, capacity `C ≥ 1`. In a run that starts on the
constructed engine, every receive phase (`read_to_end`) starts on an empty buffer. And a
receive phase that starts on an empty buffer and in which the master sends the complete
bytes `d1 .. dn` before the stop or restart invokes `on_receive` on an engine for which
`available()` is `min n C` and whose reads yield `d_min(n,C), .., d1` and then `-1`. -/
theorem receive_phase_delivers_its_bytes (C : Nat) (hC1 : 1 ≤ C) (hC2 : C < 2 ^ 32) :
    (∀ (address : Nat) (heap : Nat → Nat) (request_ended : Bool) (frames : List Frame)
        (naks : List Bool) (on_receive on_request : Handler) (addresses : List Nat)
        (dev : I2CSlave),
      Event.read_to_end dev ∈ (Cog.run on_receive on_request addresses
        (Cog.boot address C heap request_ended frames naks)).trace → dev.Fresh C) ∧
    (∀ (on_receive on_request : Handler) (result : Nat) (c : Cog) (ds : List Nat)
        (t : Frame) (fs : List Frame),
      c.dev.Fresh C → u8 result >>> 1 = c.dev.m_slave_address → u8 result &&& 1 = 0 →
      c.frames = Frame.data ds ++ t :: fs → t.is_restart ≠ 2 → (∀ d ∈ ds, d < 256) →
      (c.trace ++ [.read_address, .send_ack, .read_to_end c.dev] ++ Event.received ds
          ++ [.on_receive (c.dev.appends ds)]) <+:
        (Cog.restart_body on_receive on_request result (c.log .read_address)).cog.trace ∧
      (c.dev.appends ds).available = min ds.length C ∧
      ((c.dev.appends ds).reads (min ds.length C + 1)).1
        = (ds.take C).reverse.map Int.ofNat ++ [-1]) := by
  constructor
  · intro address heap request_ended frames naks on_receive on_request addresses dev hmem
    obtain ⟨evs, t1, g1⟩ := restart_loop_general C on_receive on_request addresses
      (Cog.boot address C heap request_ended frames naks).await_start
    have hf : (Cog.boot address C heap request_ended frames naks).await_start.dev.Fresh C :=
      ctor_fresh address C heap request_ended hC1 hC2
    rw [Cog.run, t1] at hmem
    simp only [Cog.await_start, Cog.log, Cog.boot, List.nil_append, List.mem_append,
      List.mem_cons, List.mem_singleton, List.not_mem_nil, or_false, false_or] at hmem
    rcases hmem with h | h | h
    · cases h
    · cases h
    · exact g1 hC1 hC2 hf (.read_to_end dev) h
  · intro on_receive on_request result c ds t fs hf hm hbit hfr ht hbytes
    obtain ⟨ws, tail, _, _, htr⟩ :=
      receive_pass_trace on_receive on_request result c hm hbit ds t fs hfr ht
    obtain ⟨r, p, i⟩ := reads_after_appends C ds (min ds.length C + 1) c.dev hC1 hC2 hf
    refine ⟨⟨ws ++ tail, by rw [htr]; simp [Cog.log]⟩, ?_, ?_⟩
    · rw [available_of_inv C _ hC1 hC2 i, p]; omega
    · have hb' : ∀ b ∈ ds.take C, b < 256 := fun b h => hbytes b (List.mem_of_mem_take h)
      rw [r, map_u8_of_bytes _ hb']
      rw [List.take_of_length_le (by simp [List.length_take]; omega)]
      simp

theorem receive_phase_delivers_its_bytes_witness :
    (1 ≤ 4 ∧ 4 < 2 ^ 32) ∧
    (Cog.demo.dev.appends [0x11, 0x22]).available = 2 ∧
    ((Cog.demo.dev.appends [0x11, 0x22]).reads 3).1 = [0x22, 0x11, -1] :=
  ⟨by decide,
    ((receive_phase_delivers_its_bytes 4 (by decide) (by decide)).2 (Handler.reads 1) .done
      0x84 Cog.demo [0x11, 0x22] ⟨1, 1⟩ [⟨0x33, 2⟩, ⟨0, 0⟩] (by decide) (by decide)
      (by decide) (by decide) (by decide) (by decide)).2⟩

theorem reads_of_fresh (C : Nat) (hC1 : 1 ≤ C) (hC2 : C < 2 ^ 32) (s : I2CSlave)
    (hf : s.Fresh C) (n : Nat) : (s.reads n).1 = List.replicate n (-1) := by
  obtain ⟨r, _⟩ := reads_spec C hC1 hC2 n s (fresh_inv hf)
  rw [r, fresh_content hf, hf.2]
  simp

theorem on_receive_reads_returns (k : Nat) (c : Cog) :
    (c.on_receive (Handler.reads k)).isReturned = true :=
  handler_reads_returns k _

/-- C10. Reset after a receive phase, capacity `C ≥ 1`: whatever the number `k` of
`read()` calls that the `on_receive` callback makes, the pass through the restart loop
returns, its last call is `reset_receive_buffer`, and afterwards the fill pointer is `C`,
`available()` is `0` and `read()` returns `-1`, as does every later read: the bytes that
the callback did not fetch are gone, and the next receive phase starts on an empty
buffer. -/
theorem unread_bytes_are_discarded (C k : Nat) (on_request : Handler) (result : Nat)
    (c : Cog) (ds : List Nat) (t : Frame) (fs : List Frame) (hC1 : 1 ≤ C)
    (hC2 : C < 2 ^ 32) (hcap : c.dev.HasCapacity C)
    (hm : u8 result >>> 1 = c.dev.m_slave_address) (hbit : u8 result &&& 1 = 0)
    (hfr : c.frames = Frame.data ds ++ t :: fs) (ht : t.is_restart ≠ 2) :
    ∃ c2 : Cog,
      Cog.restart_body (Handler.reads k) on_request result (c.log .read_address)
        = .returned (decide (t.is_restart ≠ 0)) c2 ∧
      (∃ pre : List Event, c2.trace = pre ++ [.reset_receive_buffer]) ∧
      c2.dev.m_buffer_ptr = C ∧ c2.dev.available = 0 ∧ c2.dev.read = (-1, c2.dev) ∧
      (∀ n, (c2.dev.reads n).1 = List.replicate n (-1)) ∧ c2.dev.Fresh C := by
  have hm' : u8 result >>> 1 = (c.log .read_address).dev.m_slave_address := hm
  have hb : ¬ u8 result &&& 1 ≠ 0 := by rw [hbit]; decide
  have hx := read_to_end_spec (c.log .read_address).send_ack ds t fs hfr ht
  obtain ⟨ws, _, _, _, w4⟩ := on_receive_spec (Handler.reads k)
    { dev := (c.log .read_address).send_ack.dev.appends ds, frames := fs,
      naks := (c.log .read_address).send_ack.naks,
      trace := (c.log .read_address).send_ack.trace
        ++ [.read_to_end (c.log .read_address).send_ack.dev] ++ Event.received ds }
  cases hy : Cog.on_receive
      { dev := (c.log .read_address).send_ack.dev.appends ds, frames := fs,
        naks := (c.log .read_address).send_ack.naks,
        trace := (c.log .read_address).send_ack.trace
          ++ [.read_to_end (c.log .read_address).send_ack.dev] ++ Event.received ds }
      (Handler.reads k) with
  | waiting c2 =>
    have := on_receive_reads_returns k
      { dev := (c.log .read_address).send_ack.dev.appends ds, frames := fs,
        naks := (c.log .read_address).send_ack.naks,
        trace := (c.log .read_address).send_ack.trace
          ++ [.read_to_end (c.log .read_address).send_ack.dev] ++ Event.received ds }
    rw [hy] at this
    simp [Outcome.isReturned] at this
  | returned u c2 =>
    rw [hy] at w4
    simp only [Outcome.cog] at w4
    have hcap1 : ((c.log .read_address).send_ack.dev.appends ds).HasCapacity C :=
      appends_hasCapacity ds _ hcap
    have hfr2 := reset_fresh C c2.dev hC1 hC2 (handled_hasCapacity w4 hcap1)
    refine ⟨c2.reset_receive_buffer,
      restart_body_receive_returned _ _ _ _ _ _ _ u hm' hb hx hy,
      ⟨c2.trace, by simp [Cog.reset_receive_buffer, Cog.log]⟩, hfr2.2, ?_, ?_, ?_, hfr2⟩
    · have := available_of_inv C _ hC1 hC2 (fresh_inv hfr2)
      rw [hfr2.2] at this
      simpa [Cog.reset_receive_buffer] using this
    · exact read_empty C _ hC1 hfr2.1 (le_of_eq hfr2.2.symm)
    · exact reads_of_fresh C hC1 hC2 _ hfr2

theorem unread_bytes_are_discarded_witness :
    (1 ≤ 4 ∧ 4 < 2 ^ 32 ∧ Cog.demo.dev.HasCapacity 4 ∧
      u8 0x84 >>> 1 = Cog.demo.dev.m_slave_address ∧ u8 0x84 &&& 1 = 0 ∧
      Cog.demo.frames = Frame.data [0x11, 0x22] ++ ⟨1, 1⟩ :: [⟨0x33, 2⟩, ⟨0, 0⟩] ∧
      (⟨1, 1⟩ : Frame).is_restart ≠ 2) ∧
    ∃ c2 : Cog,
      Cog.restart_body (Handler.reads 1) .done 0x84 (Cog.demo.log .read_address)
        = .returned (decide ((⟨1, 1⟩ : Frame).is_restart ≠ 0)) c2 ∧
      (∃ pre : List Event, c2.trace = pre ++ [.reset_receive_buffer]) ∧
      c2.dev.m_buffer_ptr = 4 ∧ c2.dev.available = 0 ∧ c2.dev.read = (-1, c2.dev) ∧
      (∀ n, (c2.dev.reads n).1 = List.replicate n (-1)) ∧ c2.dev.Fresh 4 :=
  ⟨by decide,
    unread_bytes_are_discarded 4 1 .done 0x84 Cog.demo [0x11, 0x22] ⟨1, 1⟩
      [⟨0x33, 2⟩, ⟨0, 0⟩] (by decide) (by decide) (by decide) (by decide) (by decide)
      (by decide) (by decide)⟩

/-! ## The constants of the SPI driver -/

/-- C18. The SPI error codes: `NO_ERROR` is `0`; `INVALID_PIN`, `INVALID_CLOCK_INIT`,
`INVALID_MODE`, `INVALID_PIN_MASK`, `TOO_MANY_BITS`, `TIMEOUT`, `TIMEOUT_RD`,
`EXCESSIVE_PAR_SZ`, `COG_NOT_STARTED`, `MODULE_NOT_RUNNING`, `INVALID_FREQ`,
`INVALID_BYTE_SIZE`, `ADDR_MISALIGN`, `INVALID_BITMODE` are `1, 2, .., 14` in that order;
`BEG_ERROR` is `INVALID_PIN` and `END_ERROR` is `INVALID_BITMODE`; the codes are pairwise
distinct and differ from `NO_ERROR`; the `SPI_*` macros of the legacy header give every
name the same number. -/
theorem spi_error_codes_contiguous :
    SPI.NO_ERROR = 0 ∧
    SPI.errorCodes = [1, 2, 3, 4, 5, 6, 7, 8, 9, 10, 11, 12, 13, 14] ∧
    SPI.errorCodes = List.range' 1 14 ∧
    SPI.BEG_ERROR = SPI.INVALID_PIN ∧ SPI.END_ERROR = SPI.INVALID_BITMODE ∧
    SPI.errorCodes.Nodup ∧ SPI.NO_ERROR ∉ SPI.errorCodes ∧
    SPI_errorCodes = SPI.errorCodes := by
  decide

/-- C19. The mailbox command encoding: the nine function codes are `SEND = 0`,
`READ = 1`, `SEND_FAST = 2`, `READ_FAST = 3`, `READ_SECTOR = 4`, `SET_MODE = 5`,
`SET_BITMODE = 6`, `SET_FREQ = 7`, `GET_FREQ = 8` in both headers, pairwise distinct and
below `2 ^ BITS_OFFSET` with `BITS_OFFSET = 8`; for every function code `f` and every bit
count `n ≤ 31` the word `w = f | (n << 8)` gives back `f` as `w & 0xFF` and `n` as
`w >> 8`. -/
theorem spi_command_word_decodes (f n : Nat) (hf : f ∈ SPI.functionCodes)
    (hn : n ≤ SPI.MAX_PAR_BITS) :
    SPI.functionCodes = [0, 1, 2, 3, 4, 5, 6, 7, 8] ∧
    SPI_functionCodes = SPI.functionCodes ∧
    SPI.BITS_OFFSET = 8 ∧ SPI_BITS_OFFSET = 8 ∧
    SPI.functionCodes.Nodup ∧ (∀ g ∈ SPI.functionCodes, g < 2 ^ SPI.BITS_OFFSET) ∧
    SPI.commandWord f n &&& 0xFF = f ∧ SPI.commandWord f n >>> 8 = n := by
  refine ⟨by decide, by decide, rfl, rfl, by decide, by decide, ?_, ?_⟩
  · have hn' : n < 32 := Nat.lt_succ_of_le hn
    revert hf
    revert f
    revert hn'
    revert n
    decide
  · have hn' : n < 32 := Nat.lt_succ_of_le hn
    revert hf
    revert f
    revert hn'
    revert n
    decide

theorem spi_command_word_decodes_witness :
    (SPI.FUNC_SET_FREQ ∈ SPI.functionCodes ∧ 31 ≤ SPI.MAX_PAR_BITS) ∧
    SPI.commandWord SPI.FUNC_SET_FREQ 31 &&& 0xFF = SPI.FUNC_SET_FREQ ∧
    SPI.commandWord SPI.FUNC_SET_FREQ 31 >>> 8 = 31 :=
  ⟨by decide,
    (spi_command_word_decodes SPI.FUNC_SET_FREQ 31 (by decide) (by decide)).2.2.2.2.2.2⟩

/-- C20. `SPI::Mode` and `SPI::BitMode` do not overlap: each of `MODE_0 .. MODE_3` differs
from each of `LSB_FIRST`, `MSB_FIRST`; the same holds for `SPI_MODE_0 .. SPI_MODE_3` and
`SPI_LSB_FIRST`, `SPI_MSB_FIRST` of the legacy header. (The counting enumerator `MODES`,
which is none of the four modes, has the value of `LSB_FIRST`.) -/
theorem spi_modes_and_bit_modes_disjoint :
    List.Disjoint [SPI.MODE_0, SPI.MODE_1, SPI.MODE_2, SPI.MODE_3]
      [SPI.LSB_FIRST, SPI.MSB_FIRST] ∧
    List.Disjoint [SPI_MODE_0, SPI_MODE_1, SPI_MODE_2, SPI_MODE_3]
      [SPI_LSB_FIRST, SPI_MSB_FIRST] ∧
    [SPI.MODE_0, SPI.MODE_1, SPI.MODE_2, SPI.MODE_3] = [0, 1, 2, 3] ∧
    [SPI.LSB_FIRST, SPI.MSB_FIRST] = [4, 5] ∧
    [SPI_MODE_0, SPI_MODE_1, SPI_MODE_2, SPI_MODE_3] = [0, 1, 2, 3] ∧
    [SPI_LSB_FIRST, SPI_MSB_FIRST] = [4, 5] ∧
    SPI.MODES = SPI.LSB_FIRST ∧ SPI_MODES = SPI_LSB_FIRST := by
  refine ⟨?_, ?_, by decide, by decide, by decide, by decide, rfl, rfl⟩
  · intro a h1 h2
    revert h2
    revert h1
    revert a
    decide
  · intro a h1 h2
    revert h2
    revert h1
    revert a
    decide

/-! ## The SPI driver as the spec describes it -/

theorem spi_command_done (s : SPI) (word : Nat) (effect : SPI → SPI)
    (hrun : s.is_running = true) :
    s.command word true effect = (SPI.NO_ERROR, effect { s with m_mailbox := none }) := by
  have hw : (s.wait true).1 = SPI.NO_ERROR := by
    unfold SPI.wait
    by_cases h : s.m_mailbox = none <;> simp [h, hrun]
  simp [SPI.command, hw, hrun]

/-- C14. The bit limit of `SPI::shift_out`: for every `bits > 31` (`MAX_PAR_BITS`) and
every value, `shift_out(bits, value)` returns `TOO_MANY_BITS` and leaves the driver, and
with it the mailbox word, as it was: no command is written. -/
theorem shift_out_rejects_too_many_bits (s : SPI) (bits value : Nat) (answers : Bool)
    (hbits : 31 < bits) :
    SPI.MAX_PAR_BITS = 31 ∧ SPI_MAX_PAR_BITS = 31 ∧
    s.shift_out bits value answers = (SPI.TOO_MANY_BITS, s) ∧
    (s.shift_out bits value answers).2.m_mailbox = s.m_mailbox := by
  have h : s.shift_out bits value answers = (SPI.TOO_MANY_BITS, s) := by
    simp [SPI.shift_out, SPI.MAX_PAR_BITS, hbits]
  exact ⟨rfl, rfl, h, by rw [h]⟩

theorem shift_out_rejects_too_many_bits_witness :
    31 < 32 ∧
    (SPI.shift_out ⟨none, some 1, SPI.MODE_0, SPI.MSB_FIRST, 100000, 1, []⟩ 32 0xA5 true
      = (SPI.TOO_MANY_BITS, ⟨none, some 1, SPI.MODE_0, SPI.MSB_FIRST, 100000, 1, []⟩)) :=
  ⟨by decide,
    (shift_out_rejects_too_many_bits ⟨none, some 1, SPI.MODE_0, SPI.MSB_FIRST, 100000, 1, []⟩
      32 0xA5 true (by decide)).2.2.1⟩

/-- C15. The clock round trip: on a running driver whose unit answers, for every
frequency `f` with `0 < f < CLKFREQ / 4`, `set_clock(f)` succeeds and the `get_clock()`
that follows succeeds and stores exactly `f`. -/
theorem set_clock_get_clock_round_trip (CLKFREQ : Nat) (s : SPI) (f : Int)
    (hrun : s.is_running = true) (hpos : 0 < f) (hmax : f < ((CLKFREQ / 4 : Nat) : Int)) :
    (SPI.set_clock CLKFREQ s f true).1 = SPI.NO_ERROR ∧
    ((SPI.set_clock CLKFREQ s f true).2.get_clock true).1 = SPI.NO_ERROR ∧
    ((SPI.set_clock CLKFREQ s f true).2.get_clock true).2.1 = some f := by
  have hq : SPI.MAX_CLOCK CLKFREQ = ((CLKFREQ / 4 : Nat) : Int) := by
    simp [SPI.MAX_CLOCK, SPI_MAX_CLOCK, Nat.shiftRight_eq_div_pow]
  have hv : ¬ (SPI.MAX_CLOCK CLKFREQ ≤ f ∨ f ≤ 0) := by rw [hq]; omega
  have hset : SPI.set_clock CLKFREQ s f true
      = (SPI.NO_ERROR, { s with m_mailbox := none, frequency := f }) := by
    rw [SPI.set_clock, if_neg hv, spi_command_done s _ _ hrun]
  have hrun' : ({ s with m_mailbox := none, frequency := f } : SPI).is_running = true := hrun
  rw [hset]
  simp only [SPI.get_clock, spi_command_done _ _ _ hrun']
  simp

theorem set_clock_get_clock_round_trip_witness :
    ((⟨none, some 1, SPI.MODE_0, SPI.MSB_FIRST, 100000, 1, []⟩ : SPI).is_running = true ∧
      (0 : Int) < 900000 ∧ (900000 : Int) < ((80000000 / 4 : Nat) : Int)) ∧
    ((SPI.set_clock 80000000 ⟨none, some 1, SPI.MODE_0, SPI.MSB_FIRST, 100000, 1, []⟩
      900000 true).2.get_clock true).2.1 = some 900000 :=
  ⟨by decide,
    (set_clock_get_clock_round_trip 80000000
      ⟨none, some 1, SPI.MODE_0, SPI.MSB_FIRST, 100000, 1, []⟩ 900000 (by decide)
      (by decide) (by decide)).2.2⟩

/-- C16. The range check of `SPI::set_clock`: for every frequency `f` that is not less
than `MAX_CLOCK = CLKFREQ >> 2`, a quarter of the core clock, `set_clock(f)` returns
`INVALID_FREQ` and leaves the driver as it was, the configured clock and the mailbox
included. -/
theorem set_clock_rejects_high_frequency (CLKFREQ : Nat) (s : SPI) (f : Int) (answers : Bool)
    (hf : ((CLKFREQ >>> 2 : Nat) : Int) ≤ f) :
    SPI.MAX_CLOCK CLKFREQ = ((CLKFREQ >>> 2 : Nat) : Int) ∧
    SPI_MAX_CLOCK CLKFREQ = CLKFREQ / 4 ∧
    SPI.set_clock CLKFREQ s f answers = (SPI.INVALID_FREQ, s) ∧
    (SPI.set_clock CLKFREQ s f answers).2.frequency = s.frequency ∧
    (SPI.set_clock CLKFREQ s f answers).2.m_mailbox = s.m_mailbox := by
  have h : SPI.set_clock CLKFREQ s f answers = (SPI.INVALID_FREQ, s) := by
    have hv : SPI.MAX_CLOCK CLKFREQ ≤ f ∨ f ≤ 0 := Or.inl hf
    rw [SPI.set_clock, if_pos hv]
  refine ⟨rfl, by simp [SPI_MAX_CLOCK, Nat.shiftRight_eq_div_pow], h, by rw [h], by rw [h]⟩

theorem set_clock_rejects_high_frequency_witness :
    (((80000000 >>> 2 : Nat) : Int) ≤ 40000000) ∧
    SPI.set_clock 80000000 ⟨none, some 1, SPI.MODE_0, SPI.MSB_FIRST, 100000, 1, []⟩
        40000000 true
      = (SPI.INVALID_FREQ, ⟨none, some 1, SPI.MODE_0, SPI.MSB_FIRST, 100000, 1, []⟩) :=
  ⟨by decide,
    (set_clock_rejects_high_frequency 80000000
      ⟨none, some 1, SPI.MODE_0, SPI.MSB_FIRST, 100000, 1, []⟩ 40000000 true
      (by decide)).2.2.1⟩

/-- C17. `SPI::start` on a driver whose unit is already running: with valid parameters
and a unit that acknowledges, it returns success, does not launch the unit again (the
cog and the launch count are unchanged), leaves the clock frequency alone and only
applies mode and bit order; the same call made again returns success and changes
nothing. -/
theorem start_while_running_only_reconfigures (CLKFREQ : Nat) (s : SPI)
    (mosi miso sclk : Nat) (frequency : Int) (mode bitmode : Nat) (r : SPI.Reaction)
    (hrun : s.is_running = true)
    (hpins : SPI.validPin mosi = true ∧ SPI.validPin miso = true ∧ SPI.validPin sclk = true)
    (hdistinct : mosi ≠ miso ∧ mosi ≠ sclk ∧ miso ≠ sclk)
    (hfreq : 0 < frequency ∧ frequency < SPI.MAX_CLOCK CLKFREQ)
    (hmode : mode ∈ [SPI.MODE_0, SPI.MODE_1, SPI.MODE_2, SPI.MODE_3])
    (hbitmode : bitmode ∈ [SPI.LSB_FIRST, SPI.MSB_FIRST])
    (hack : r.mode_ack = true ∧ r.bitmode_ack = true) :
    SPI.start CLKFREQ s mosi miso sclk frequency mode bitmode r
      = (SPI.NO_ERROR, { s with m_mailbox := none, mode := mode, bitmode := bitmode }) ∧
    (SPI.start CLKFREQ s mosi miso sclk frequency mode bitmode r).2.m_cog = s.m_cog ∧
    (SPI.start CLKFREQ s mosi miso sclk frequency mode bitmode r).2.launches = s.launches ∧
    (SPI.start CLKFREQ s mosi miso sclk frequency mode bitmode r).2.frequency
      = s.frequency ∧
    (SPI.start CLKFREQ s mosi miso sclk frequency mode bitmode r).2.is_running = true ∧
    SPI.start CLKFREQ (SPI.start CLKFREQ s mosi miso sclk frequency mode bitmode r).2
        mosi miso sclk frequency mode bitmode r
      = SPI.start CLKFREQ s mosi miso sclk frequency mode bitmode r := by
  have key : ∀ u : SPI, u.is_running = true →
      SPI.start CLKFREQ u mosi miso sclk frequency mode bitmode r
        = (SPI.NO_ERROR, { u with m_mailbox := none, mode := mode, bitmode := bitmode }) := by
    intro u hu
    have h1 : ¬ ¬ (SPI.validPin mosi = true ∧ SPI.validPin miso = true
        ∧ SPI.validPin sclk = true) := not_not.2 hpins
    have h2 : ¬ (mosi = miso ∨ mosi = sclk ∨ miso = sclk) := by
      rintro (h | h | h)
      · exact hdistinct.1 h
      · exact hdistinct.2.1 h
      · exact hdistinct.2.2 h
    have h3 : ¬ (SPI.MAX_CLOCK CLKFREQ ≤ frequency ∨ frequency ≤ 0) := by omega
    have hu' : ({ u with m_mailbox := none, mode := mode } : SPI).is_running = true := hu
    have hsm : u.set_mode mode true
        = (SPI.NO_ERROR, { u with m_mailbox := none, mode := mode }) := by
      rw [SPI.set_mode, if_neg (not_not.2 hmode), spi_command_done u _ _ hu]
    have hsb : ({ u with m_mailbox := none, mode := mode } : SPI).set_bit_mode bitmode true
        = (SPI.NO_ERROR, { u with m_mailbox := none, mode := mode, bitmode := bitmode }) := by
      rw [SPI.set_bit_mode, if_neg (not_not.2 hbitmode), spi_command_done _ _ _ hu']
    rw [SPI.start, if_neg h1, if_neg h2, if_neg h3, if_pos hu, SPI.configure, hack.1,
      hack.2, hsm]
    simp only [ne_eq, not_true_eq_false, if_false]
    exact hsb
  have h := key s hrun
  have hrun2 : ({ s with m_mailbox := none, mode := mode, bitmode := bitmode } : SPI).is_running
      = true := hrun
  refine ⟨h, by rw [h], by rw [h], by rw [h], by rw [h]; exact hrun, ?_⟩
  rw [h]
  exact key _ hrun2

theorem start_while_running_only_reconfigures_witness :
    ((⟨some 7, some 1, SPI.MODE_3, SPI.LSB_FIRST, 100000, 1, []⟩ : SPI).is_running = true ∧
      (SPI.validPin 1 = true ∧ SPI.validPin 2 = true ∧ SPI.validPin 4 = true) ∧
      ((1 : Nat) ≠ 2 ∧ (1 : Nat) ≠ 4 ∧ (2 : Nat) ≠ 4) ∧
      ((0 : Int) < 100000 ∧ (100000 : Int) < SPI.MAX_CLOCK 80000000) ∧
      SPI.MODE_0 ∈ [SPI.MODE_0, SPI.MODE_1, SPI.MODE_2, SPI.MODE_3] ∧
      SPI.MSB_FIRST ∈ [SPI.LSB_FIRST, SPI.MSB_FIRST]) ∧
    SPI.start 80000000 ⟨some 7, some 1, SPI.MODE_3, SPI.LSB_FIRST, 100000, 1, []⟩ 1 2 4
        100000 SPI.MODE_0 SPI.MSB_FIRST ⟨2, true, true, true⟩
      = (SPI.NO_ERROR, ⟨none, some 1, SPI.MODE_0, SPI.MSB_FIRST, 100000, 1, []⟩) :=
  ⟨by decide,
    (start_while_running_only_reconfigures 80000000
      ⟨some 7, some 1, SPI.MODE_3, SPI.LSB_FIRST, 100000, 1, []⟩ 1 2 4 100000 SPI.MODE_0
      SPI.MSB_FIRST ⟨2, true, true, true⟩ (by decide) (by decide) (by decide) (by decide)
      (by decide) (by decide) (by decide)).1⟩

/-! ## Facts about the assembly on the wires -/

theorem await_edge (level : Bool) (e : Edge) (rest : List Pins) (h : e.reaches level) :
    Pins.await level (e.looks ++ rest) = some rest := by
  obtain ⟨stall, hit⟩ := e
  obtain ⟨hs, hh⟩ := h
  simp only [Edge.looks] at *
  induction stall with
  | nil => simp [Pins.await, hh]
  | cons q qs ih =>
    have hq : q.scl = !level := hs q (by simp)
    have hne : ¬ q.scl = level := by rw [hq]; cases level <;> simp
    simp only [List.cons_append, Pins.await, hne, if_false]
    exact ih (fun p hp => hs p (by simp [hp]))

theorem await_inv (level : Bool) (l rest : List Pins) (h : Pins.await level l = some rest) :
    ∃ e : Edge, e.reaches level ∧ l = e.looks ++ rest := by
  induction l with
  | nil => simp [Pins.await] at h
  | cons q qs ih =>
    by_cases hq : q.scl = level
    · simp only [Pins.await, hq, if_true, Option.some.injEq] at h
      exact ⟨⟨[], q⟩, ⟨by simp, hq⟩, by simp [Edge.looks, h]⟩
    · simp only [Pins.await, hq, if_false] at h
      obtain ⟨e, he, hl⟩ := ih h
      refine ⟨⟨q :: e.stall, e.hit⟩, ⟨?_, he.2⟩, by simp [Edge.looks, hl]⟩
      intro p hp
      rcases List.mem_cons.1 hp with rfl | hp
      · cases level <;> simpa using hq
      · exact he.1 p hp

theorem waitpne_scl_edge (p : Port) (e : Edge) (rest : List Pins) (h : e.reaches false)
    (hina : p.ina = e.looks ++ rest) :
    p.waitpne_scl = some { p with ina := rest, wire := p.wire ++ [.scl_low] } := by
  simp [Port.waitpne_scl, hina, await_edge false e rest h]

theorem waitpeq_scl_edge (p : Port) (e : Edge) (rest : List Pins) (h : e.reaches true)
    (hina : p.ina = e.looks ++ rest) :
    p.waitpeq_scl = some { p with ina := rest, wire := p.wire ++ [.scl_high] } := by
  simp [Port.waitpeq_scl, hina, await_edge true e rest h]

theorem and_two_pow_ne_zero (n i : Nat) : decide (n &&& 2 ^ i ≠ 0) = n.testBit i := by
  by_cases h : n.testBit i = true
  · have hne : n &&& 2 ^ i ≠ 0 := by
      intro h0
      have := Nat.testBit_and n (2 ^ i) i
      rw [h0, Nat.testBit_two_pow_self, h] at this
      simp at this
    simp [hne, h]
  · have hz : n &&& 2 ^ i = 0 := by
      apply Nat.eq_of_testBit_eq
      intro j
      rw [Nat.testBit_and, Nat.testBit_two_pow, Nat.zero_testBit]
      by_cases hij : i = j
      · subst hij; simp [h]
      · simp [hij]
    simp [hz, h]

theorem and_two_pow_eq_zero (n i : Nat) : decide (n &&& 2 ^ i = 0) = !n.testBit i := by
  rw [← and_two_pow_ne_zero]
  by_cases h : n &&& 2 ^ i = 0 <;> simp [h]

theorem write_loop_spec (byte : Nat) (n : Nat) : ∀ (xs : List Pulse) (rounds : Nat) (p : Port)
    (rest : List Pins), xs.length = n + 1 → (∀ x ∈ xs, x.valid) → n + 1 ≤ rounds →
    p.ina = xs.flatMap Pulse.looks ++ rest →
    Port.write_loop byte rounds (2 ^ n) p =
      some { p with outa_sda := byte.testBit 0, ina := rest,
                    wire := p.wire ++ Wire.sends byte (n + 1) } := by
  induction n with
  | zero =>
    intro xs rounds p rest hlen hval hr hina
    obtain ⟨x, rfl⟩ : ∃ x, xs = [x] := List.length_eq_one.1 hlen
    obtain ⟨r, rfl⟩ : ∃ r, rounds = r + 1 := ⟨rounds - 1, by omega⟩
    have hx := hval x (by simp)
    have h1 := waitpeq_scl_edge (p.muxnz_outa_sda (decide (byte &&& 2 ^ 0 ≠ 0))) x.rise
      (x.fall.looks ++ rest) hx.1 (by simp [Port.muxnz_outa_sda, hina, Pulse.looks])
    simp only [Port.write_loop, h1, Option.bind_eq_bind, Option.some_bind]
    rw [waitpne_scl_edge _ x.fall rest hx.2 rfl]
    simp [Port.muxnz_outa_sda, Wire.sends, and_two_pow_ne_zero, and_two_pow_eq_zero]
  | succ m ih =>
    intro xs rounds p rest hlen hval hr hina
    obtain ⟨x, xs', rfl⟩ : ∃ x xs', xs = x :: xs' := by
      cases xs with
      | nil => simp at hlen
      | cons x xs' => exact ⟨x, xs', rfl⟩
    obtain ⟨r, rfl⟩ : ∃ r, rounds = r + 1 := ⟨rounds - 1, by omega⟩
    have hx := hval x (by simp)
    have h1 := waitpeq_scl_edge (p.muxnz_outa_sda (decide (byte &&& 2 ^ (m + 1) ≠ 0))) x.rise
      (x.fall.looks ++ (xs'.flatMap Pulse.looks ++ rest)) hx.1
      (by simp [Port.muxnz_outa_sda, hina, Pulse.looks])
    have hshift : 2 ^ (m + 1) >>> 1 = 2 ^ m := by
      rw [Nat.shiftRight_eq_div_pow, Nat.pow_succ]; simp
    have hnz : (2 : Nat) ^ m ≠ 0 := by positivity
    simp only [Port.write_loop, h1, Option.bind_eq_bind, Option.some_bind]
    rw [waitpne_scl_edge _ x.fall (xs'.flatMap Pulse.looks ++ rest) hx.2 rfl]
    simp only [Option.some_bind, hshift, hnz, ne_eq, not_false_eq_true, if_true]
    rw [ih xs' r _ rest (by simpa using hlen) (fun y hy => hval y (by simp [hy])) (by omega) rfl]
    simp [Port.muxnz_outa_sda, Wire.sends, and_two_pow_ne_zero, and_two_pow_eq_zero]

/-- C11. `write` after the request has ended is a no-op: for every byte, when
`m_request_ended` is true, `write(byte)` returns with the engine and the port as they
were: no look at `ina` is taken (no wait on the clock), the bits of SDA in `dira` and
`outa` are not written, and `m_request_ended` and all other members keep their value. At
the level of `run`, the call leaves the cog untouched and adds nothing to the trace. -/
theorem write_after_request_ended_is_noop (b : Bus) (c : Cog) (byte : Nat)
    (hb : b.dev.m_request_ended = true) (hc : c.dev.m_request_ended = true) :
    b.write byte = some b ∧ c.write byte = .returned () c := by
  constructor
  · simp [Bus.write, hb]
  · simp [Cog.write, hc]

theorem write_after_request_ended_is_noop_witness :
    ((⟨I2CSlave.ctor 0x42 4 (fun _ => 0) true, ⟨false, false, [⟨true, true⟩], []⟩⟩ :
        Bus).dev.m_request_ended = true ∧
      (Cog.boot 0x42 4 (fun _ => 0) true [] [false]).dev.m_request_ended = true) ∧
    Bus.write ⟨I2CSlave.ctor 0x42 4 (fun _ => 0) true, ⟨false, false, [⟨true, true⟩], []⟩⟩ 0xA5
      = some ⟨I2CSlave.ctor 0x42 4 (fun _ => 0) true, ⟨false, false, [⟨true, true⟩], []⟩⟩ ∧
    (Cog.boot 0x42 4 (fun _ => 0) true [] [false]).write 0xA5
      = .returned () (Cog.boot 0x42 4 (fun _ => 0) true [] [false]) :=
  ⟨by decide,
    write_after_request_ended_is_noop
      ⟨I2CSlave.ctor 0x42 4 (fun _ => 0) true, ⟨false, false, [⟨true, true⟩], []⟩⟩
      (Cog.boot 0x42 4 (fun _ => 0) true [] [false]) 0xA5 (by decide) (by decide)⟩

/-- C12. Bit order of `write` and the recording of ACK/NAK: when `m_request_ended` is
false and the master supplies the clock (SCL low, eight pulses, a ninth rise), `write(b)`
returns after it has taken SDA, put the bits `7, 6, .., 0` of `b` on it, one before each
of the eight pulses, released SDA, waited for the ninth rise and sampled SDA once;
`m_request_ended` is the sampled level: true for SDA high (NAK), false for SDA low
(ACK). -/
theorem write_sends_msb_first (b : Bus) (byte : Nat) (low : Edge) (pulses : List Pulse)
    (ninth : Edge) (a : Pins) (rest : List Pins)
    (hre : b.dev.m_request_ended = false) (hbyte : byte < 256)
    (hlow : low.reaches false) (hlen : pulses.length = 8) (hval : ∀ x ∈ pulses, x.valid)
    (hninth : ninth.reaches true)
    (hina : b.port.ina = low.looks ++ pulses.flatMap Pulse.looks ++ ninth.looks ++ a :: rest) :
    b.write byte = some
      { dev := { b.dev with m_request_ended := a.sda }
        port :=
          { dira_sda := false
            outa_sda := byte.testBit 0
            ina := rest
            wire := b.port.wire ++ [.scl_low, .dira_sda true]
              ++ [.outa_sda (byte.testBit 7), .scl_high, .scl_low,
                  .outa_sda (byte.testBit 6), .scl_high, .scl_low,
                  .outa_sda (byte.testBit 5), .scl_high, .scl_low,
                  .outa_sda (byte.testBit 4), .scl_high, .scl_low,
                  .outa_sda (byte.testBit 3), .scl_high, .scl_low,
                  .outa_sda (byte.testBit 2), .scl_high, .scl_low,
                  .outa_sda (byte.testBit 1), .scl_high, .scl_low,
                  .outa_sda (byte.testBit 0), .scl_high, .scl_low]
              ++ [.dira_sda false, .scl_high, .test_sda a.sda] } } := by
  have hu : u8 byte = byte := Nat.mod_eq_of_lt hbyte
  have h1 := waitpne_scl_edge b.port low
    (pulses.flatMap Pulse.looks ++ (ninth.looks ++ a :: rest)) hlow (by simp [hina])
  have h2 := write_loop_spec byte 7 pulses 32
    ({ b.port with ina := pulses.flatMap Pulse.looks ++ (ninth.looks ++ a :: rest),
                   wire := b.port.wire ++ [.scl_low] } : Port).or_dira_sda
    (ninth.looks ++ a :: rest) hlen hval (by decide) rfl
  have h2' : Port.write_loop byte 32 128
      ({ b.port with ina := pulses.flatMap Pulse.looks ++ (ninth.looks ++ a :: rest),
                     wire := b.port.wire ++ [.scl_low] } : Port).or_dira_sda = _ := h2
  simp only [Bus.write, hre, Bool.false_eq_true, if_false, hu, Port.write_asm, h1,
    Option.bind_eq_bind, Option.some_bind, h2']
  rw [waitpeq_scl_edge _ ninth (a :: rest) hninth rfl]
  simp [Port.test_sda, Port.or_dira_sda, Port.andn_dira_sda, Wire.sends]

theorem write_sends_msb_first_witness :
    (Bus.demo.dev.m_request_ended = false ∧ 0xA5 < 256 ∧
      (⟨[⟨true, true⟩], ⟨false, true⟩⟩ : Edge).reaches false ∧
      (List.replicate 8
        (⟨⟨[], ⟨true, true⟩⟩, ⟨[⟨true, true⟩], ⟨false, true⟩⟩⟩ : Pulse)).length = 8 ∧
      (∀ x ∈ List.replicate 8
        (⟨⟨[], ⟨true, true⟩⟩, ⟨[⟨true, true⟩], ⟨false, true⟩⟩⟩ : Pulse), x.valid) ∧
      (⟨[⟨false, true⟩], ⟨true, true⟩⟩ : Edge).reaches true) ∧
    (Bus.demo.write 0xA5).map
        (fun r => (r.dev.m_request_ended, r.port.ina, r.port.wire.filterMap
          (fun w => match w with
            | .outa_sda l => some l
            | _ => none)))
      = some (true, [⟨false, true⟩],
          [true, false, true, false, false, true, false, true]) :=
  ⟨by decide,
    by
      have h := write_sends_msb_first Bus.demo 0xA5 ⟨[⟨true, true⟩], ⟨false, true⟩⟩
        (List.replicate 8 ⟨⟨[], ⟨true, true⟩⟩, ⟨[⟨true, true⟩], ⟨false, true⟩⟩⟩)
        ⟨[⟨false, true⟩], ⟨true, true⟩⟩ ⟨true, true⟩ [⟨false, true⟩]
        (by decide) (by decide) (by decide) (by decide) (by decide) (by decide) (by decide)
      rw [h]
      decide⟩

theorem detectStop_ends (rounds : List (Pins × Pins)) (a b : Pins) (rest : List Pins)
    (hr : Pins.idlePolls false rounds) (ha : a.scl = true) (hb : b.sda = true) :
    ∀ w, ∃ w', Pins.DetectStop (Pins.pollLooks rounds ++ [a, b] ++ rest) w
      = some (some 0, rest, w') := by
  induction rounds with
  | nil => intro w; simp [Pins.pollLooks, Pins.DetectStop, ha, hb]
  | cons r rs ih =>
    intro w
    obtain ⟨h1, h2⟩ := hr r (by simp)
    obtain ⟨w', hw⟩ := ih (fun x hx => hr x (by simp [hx]))
      (w ++ [.test_scl true, .test_sda false])
    refine ⟨w', ?_⟩
    simpa [Pins.pollLooks, Pins.DetectStop, h1, h2] using hw

theorem detectStop_data (rounds : List (Pins × Pins)) (a : Pins) (rest : List Pins)
    (hr : Pins.idlePolls false rounds) (ha : a.scl = false) :
    ∀ w, ∃ w', Pins.DetectStop (Pins.pollLooks rounds ++ [a] ++ rest) w
      = some (none, rest, w') := by
  induction rounds with
  | nil =>
    intro w
    cases rest with
    | nil => simp [Pins.pollLooks, Pins.DetectStop, ha]
    | cons q qs => simp [Pins.pollLooks, Pins.DetectStop, ha]
  | cons r rs ih =>
    intro w
    obtain ⟨h1, h2⟩ := hr r (by simp)
    obtain ⟨w', hw⟩ := ih (fun x hx => hr x (by simp [hx]))
      (w ++ [.test_scl true, .test_sda false])
    refine ⟨w', ?_⟩
    simpa [Pins.pollLooks, Pins.DetectStop, h1, h2] using hw

theorem detectRestart_ends (rounds : List (Pins × Pins)) (a b : Pins) (rest : List Pins)
    (hr : Pins.idlePolls true rounds) (ha : a.scl = true) (hb : b.sda = false) :
    ∀ w, ∃ w', Pins.DetectRestart (Pins.pollLooks rounds ++ [a, b] ++ rest) w
      = some (some 1, rest, w') := by
  induction rounds with
  | nil => intro w; simp [Pins.pollLooks, Pins.DetectRestart, ha, hb]
  | cons r rs ih =>
    intro w
    obtain ⟨h1, h2⟩ := hr r (by simp)
    obtain ⟨w', hw⟩ := ih (fun x hx => hr x (by simp [hx]))
      (w ++ [.test_scl true, .test_sda true])
    refine ⟨w', ?_⟩
    simpa [Pins.pollLooks, Pins.DetectRestart, h1, h2] using hw

theorem detectRestart_data (rounds : List (Pins × Pins)) (a : Pins) (rest : List Pins)
    (hr : Pins.idlePolls true rounds) (ha : a.scl = false) :
    ∀ w, ∃ w', Pins.DetectRestart (Pins.pollLooks rounds ++ [a] ++ rest) w
      = some (none, rest, w') := by
  induction rounds with
  | nil =>
    intro w
    cases rest with
    | nil => simp [Pins.pollLooks, Pins.DetectRestart, ha]
    | cons q qs => simp [Pins.pollLooks, Pins.DetectRestart, ha]
  | cons r rs ih =>
    intro w
    obtain ⟨h1, h2⟩ := hr r (by simp)
    obtain ⟨w', hw⟩ := ih (fun x hx => hr x (by simp [hx]))
      (w ++ [.test_scl true, .test_sda true])
    refine ⟨w', ?_⟩
    simpa [Pins.pollLooks, Pins.DetectRestart, h1, h2] using hw

theorem polled_cons (first : Bool) (v : Option Nat) (a b : Pins) (l rest : List Pins)
    (ha : a.scl = true) (hb : b.sda = first) (h : Pins.Polled first v l rest) :
    Pins.Polled first v (a :: b :: l) rest := by
  rcases h with ⟨hv, rounds, x, y, h1, h2, h3, h4⟩ | ⟨hv, rounds, x, h1, h2, h4⟩
  · refine Or.inl ⟨hv, (a, b) :: rounds, x, y, ?_, h2, h3, by simp [Pins.pollLooks, h4]⟩
    intro r hr
    rcases List.mem_cons.1 hr with rfl | hr
    · exact ⟨ha, hb⟩
    · exact h1 r hr
  · refine Or.inr ⟨hv, (a, b) :: rounds, x, ?_, h2, by simp [Pins.pollLooks, h4]⟩
    intro r hr
    rcases List.mem_cons.1 hr with rfl | hr
    · exact ⟨ha, hb⟩
    · exact h1 r hr

theorem detectStop_inv : ∀ (l : List Pins) (w : List Wire) (v : Option Nat)
    (rest : List Pins) (w' : List Wire),
    Pins.DetectStop l w = some (v, rest, w') → Pins.Polled false v l rest := by
  intro l w
  induction l, w using Pins.DetectStop.induct with
  | case1 w => intro v rest w' h; simp [Pins.DetectStop] at h
  | case2 a w ha =>
    intro v rest w' h
    simp only [Pins.DetectStop, ha, if_true, Option.some.injEq, Prod.mk.injEq] at h
    obtain ⟨rfl, rfl, _⟩ := h
    exact Or.inr ⟨rfl, [], a, by simp [Pins.idlePolls], ha, by simp [Pins.pollLooks]⟩
  | case3 a w ha =>
    intro v rest w' h
    simp [Pins.DetectStop, ha] at h
  | case4 a b rest0 w ha =>
    intro v rest w' h
    simp only [Pins.DetectStop, ha, if_true, Option.some.injEq, Prod.mk.injEq] at h
    obtain ⟨rfl, rfl, _⟩ := h
    exact Or.inr ⟨rfl, [], a, by simp [Pins.idlePolls], ha, by simp [Pins.pollLooks]⟩
  | case5 a b rest0 w ha hb =>
    intro v rest w' h
    simp only [Pins.DetectStop, ha, hb, if_true, if_false, Option.some.injEq,
      Prod.mk.injEq] at h
    obtain ⟨rfl, rfl, _⟩ := h
    exact Or.inl ⟨rfl, [], a, b, by simp [Pins.idlePolls], by simpa using ha, by simpa using hb,
      by simp [Pins.pollLooks]⟩
  | case6 a b rest0 w ha hb ih =>
    intro v rest w' h
    simp only [Pins.DetectStop, ha, hb, if_false] at h
    exact polled_cons false v a b rest0 rest (by simpa using ha) (by simpa using hb)
      (ih v rest w' h)

theorem detectRestart_inv : ∀ (l : List Pins) (w : List Wire) (v : Option Nat)
    (rest : List Pins) (w' : List Wire),
    Pins.DetectRestart l w = some (v, rest, w') → Pins.Polled true v l rest := by
  intro l w
  induction l, w using Pins.DetectRestart.induct with
  | case1 w => intro v rest w' h; simp [Pins.DetectRestart] at h
  | case2 a w ha =>
    intro v rest w' h
    simp only [Pins.DetectRestart, ha, if_true, Option.some.injEq, Prod.mk.injEq] at h
    obtain ⟨rfl, rfl, _⟩ := h
    exact Or.inr ⟨rfl, [], a, by simp [Pins.idlePolls], ha, by simp [Pins.pollLooks]⟩
  | case3 a w ha =>
    intro v rest w' h
    simp [Pins.DetectRestart, ha] at h
  | case4 a b rest0 w ha =>
    intro v rest w' h
    simp only [Pins.DetectRestart, ha, if_true, Option.some.injEq, Prod.mk.injEq] at h
    obtain ⟨rfl, rfl, _⟩ := h
    exact Or.inr ⟨rfl, [], a, by simp [Pins.idlePolls], ha, by simp [Pins.pollLooks]⟩
  | case5 a b rest0 w ha hb =>
    intro v rest w' h
    simp only [Pins.DetectRestart, ha, hb, if_true, if_false, Option.some.injEq,
      Prod.mk.injEq] at h
    obtain ⟨rfl, rfl, _⟩ := h
    exact Or.inl ⟨rfl, [], a, b, by simp [Pins.idlePolls], by simpa using ha, by simpa using hb,
      by simp [Pins.pollLooks]⟩
  | case6 a b rest0 w ha hb ih =>
    intro v rest w' h
    simp only [Pins.DetectRestart, ha, hb, if_false] at h
    exact polled_cons true v a b rest0 rest (by simpa using ha) (by simpa using hb)
      (ih v rest w' h)

theorem await_suffix (level : Bool) (l rest : List Pins) (h : Pins.await level l = some rest) :
    rest <:+ l := by
  obtain ⟨e, _, hl⟩ := await_inv level l rest h
  exact ⟨e.looks, hl.symm⟩

theorem waitpne_scl_inv (p p' : Port) (h : p.waitpne_scl = some p') :
    ∃ e : Edge, e.reaches false ∧ p.ina = e.looks ++ p'.ina ∧
      p'.dira_sda = p.dira_sda ∧ p'.outa_sda = p.outa_sda := by
  simp only [Port.waitpne_scl, Option.map_eq_some'] at h
  obtain ⟨rest, h1, rfl⟩ := h
  obtain ⟨e, he, hl⟩ := await_inv false p.ina rest h1
  exact ⟨e, he, hl, rfl, rfl⟩

theorem waitpeq_scl_inv (p p' : Port) (h : p.waitpeq_scl = some p') :
    ∃ e : Edge, e.reaches true ∧ p.ina = e.looks ++ p'.ina ∧
      p'.dira_sda = p.dira_sda ∧ p'.outa_sda = p.outa_sda := by
  simp only [Port.waitpeq_scl, Option.map_eq_some'] at h
  obtain ⟨rest, h1, rfl⟩ := h
  obtain ⟨e, he, hl⟩ := await_inv true p.ina rest h1
  exact ⟨e, he, hl, rfl, rfl⟩

theorem test_sda_inv (p p' : Port) (c : Bool) (h : p.test_sda = some (c, p')) :
    ∃ s : Pins, s.sda = c ∧ p.ina = s :: p'.ina ∧
      p'.dira_sda = p.dira_sda ∧ p'.outa_sda = p.outa_sda := by
  unfold Port.test_sda at h
  split at h
  · simp at h
  · rename_i q rest hq
    simp only [Option.some.injEq, Prod.mk.injEq] at h
    obtain ⟨rfl, rfl⟩ := h
    exact ⟨q, rfl, hq, rfl, rfl⟩

theorem read_loop_inv (n : Nat) : ∀ (result : Nat) (p p' : Port) (res : Nat),
    Port.read_loop n result p = some (res, p') →
    ∃ bits : List Bool, bits.length = n ∧ res = bits.foldl rcl result ∧
      p'.ina <:+ p.ina ∧ p'.dira_sda = p.dira_sda ∧ p'.outa_sda = p.outa_sda := by
  induction n with
  | zero => intro result p p' res h; simp [Port.read_loop] at h
  | succ m ih =>
    intro result p p' res h
    simp only [Port.read_loop, Option.bind_eq_bind, Option.bind_eq_some] at h
    obtain ⟨p1, h1, p2, h2, cp, h3, h4⟩ := h
    obtain ⟨e1, _, l1, d1, o1⟩ := waitpne_scl_inv p p1 h1
    obtain ⟨e2, _, l2, d2, o2⟩ := waitpeq_scl_inv p1 p2 h2
    obtain ⟨s, _, l3, d3, o3⟩ := test_sda_inv p2 cp.2 cp.1 h3
    have hsuf : cp.2.ina <:+ p.ina :=
      ⟨e1.looks ++ e2.looks ++ [s], by rw [l1, l2, l3]; simp⟩
    by_cases hm : m = 0
    · subst hm
      simp only [ne_eq, not_true_eq_false, if_false, Option.some.injEq, Prod.mk.injEq] at h4
      obtain ⟨rfl, rfl⟩ := h4
      exact ⟨[cp.1], rfl, rfl, hsuf, by rw [d3, d2, d1], by rw [o3, o2, o1]⟩
    · simp only [ne_eq, hm, not_false_eq_true, if_true] at h4
      obtain ⟨bits, hb, hres, hs, hd, ho⟩ := ih _ _ _ _ h4
      exact ⟨cp.1 :: bits, by simp [hb], by simp [hres], hs.trans hsuf,
        by rw [hd, d3, d2, d1], by rw [ho, o3, o2, o1]⟩

theorem first_bit_is_bit7 (c : Bool) (bits : List Bool) (h : bits.length = 7) :
    (bits.foldl rcl (rcl 0 c)).testBit 7 = c ∧ bits.foldl rcl (rcl 0 c) < 256 := by
  obtain ⟨b6, t6, rfl⟩ : ∃ b t, bits = b :: t := by
    cases bits with
    | nil => simp at h
    | cons b t => exact ⟨b, t, rfl⟩
  obtain ⟨b5, t5, rfl⟩ : ∃ b t, t6 = b :: t := by
    cases t6 with
    | nil => simp at h
    | cons b t => exact ⟨b, t, rfl⟩
  obtain ⟨b4, t4, rfl⟩ : ∃ b t, t5 = b :: t := by
    cases t5 with
    | nil => simp at h
    | cons b t => exact ⟨b, t, rfl⟩
  obtain ⟨b3, t3, rfl⟩ : ∃ b t, t4 = b :: t := by
    cases t4 with
    | nil => simp at h
    | cons b t => exact ⟨b, t, rfl⟩
  obtain ⟨b2, t2, rfl⟩ : ∃ b t, t3 = b :: t := by
    cases t3 with
    | nil => simp at h
    | cons b t => exact ⟨b, t, rfl⟩
  obtain ⟨b1, t1, rfl⟩ : ∃ b t, t2 = b :: t := by
    cases t2 with
    | nil => simp at h
    | cons b t => exact ⟨b, t, rfl⟩
  obtain ⟨b0, t0, rfl⟩ : ∃ b t, t1 = b :: t := by
    cases t1 with
    | nil => simp at h
    | cons b t => exact ⟨b, t, rfl⟩
  have ht : t0 = [] := by
    cases t0 with
    | nil => rfl
    | cons b t => simp at h
  subst ht
  revert c b6 b5 b4 b3 b2 b1 b0
  decide

/-- The assembly block of `read_to_end` on the looks of the end of a phase. -/
theorem read_to_end_asm_ends (p : Port) (restart : Bool) (rest : List Pins)
    (h : Pins.EndsPhase restart p.ina rest) :
    ∃ w : List Wire, p.read_to_end_asm
      = some (⟨restart.toNat, restart.toNat⟩, { p with ina := rest, wire := w }) := by
  obtain ⟨low, high, s, rounds, a, b, hl, hh, hs, hr, ha, hb, hina⟩ := h
  have h1 := waitpne_scl_edge p low
    (high.looks ++ s :: (Pins.pollLooks rounds ++ [a, b] ++ rest)) hl (by simp [hina])
  have h2 := waitpeq_scl_edge
    ({ p with ina := high.looks ++ s :: (Pins.pollLooks rounds ++ [a, b] ++ rest),
              wire := p.wire ++ [.scl_low] } : Port) high
    (s :: (Pins.pollLooks rounds ++ [a, b] ++ rest)) hh rfl
  unfold Port.read_to_end_asm
  rw [h1, Option.some_bind, h2, Option.some_bind]
  simp only [Port.test_sda, Option.some_bind, hs]
  cases restart with
  | true =>
    obtain ⟨w', hw⟩ := detectRestart_ends rounds a b rest hr ha (by simpa using hb)
      (p.wire ++ [.scl_low] ++ [.scl_high] ++ [.test_sda true])
    simp only [if_true, hw, Option.some_bind]
    exact ⟨w', by simp [rcl]⟩
  | false =>
    obtain ⟨w', hw⟩ := detectStop_ends rounds a b rest hr ha (by simpa using hb)
      (p.wire ++ [.scl_low] ++ [.scl_high] ++ [.test_sda false])
    simp only [Bool.false_eq_true, if_false, hw, Option.some_bind]
    exact ⟨w', by simp [rcl]⟩

/-- What the assembly block of `read_to_end` has seen when it is left. -/
theorem read_to_end_asm_inv (p p' : Port) (f : Frame) (h : p.read_to_end_asm = some (f, p')) :
    p'.dira_sda = p.dira_sda ∧ p'.outa_sda = p.outa_sda ∧
    ((f.is_restart = 1 ∧ Pins.EndsPhase true p.ina p'.ina) ∨
      (f.is_restart = 0 ∧ Pins.EndsPhase false p.ina p'.ina) ∨
      (f.is_restart = 2 ∧ f.result < 256 ∧ ∃ (first : Bool) (mid : List Pins),
        Pins.StartsByte first p.ina mid ∧ p'.ina <:+ mid ∧ f.result.testBit 7 = first)) := by
  simp only [Port.read_to_end_asm, Option.bind_eq_bind, Option.bind_eq_some] at h
  obtain ⟨p1, h1, p2, h2, cp, h3, v, h4, h5⟩ := h
  obtain ⟨e1, r1, l1, d1, o1⟩ := waitpne_scl_inv p p1 h1
  obtain ⟨e2, r2, l2, d2, o2⟩ := waitpeq_scl_inv p1 p2 h2
  obtain ⟨s, hs, l3, d3, o3⟩ := test_sda_inv p2 cp.2 cp.1 h3
  have hpolled : Pins.Polled cp.1 v.1 cp.2.ina v.2.1 := by
    by_cases hc : cp.1 = true
    · rw [if_pos hc] at h4
      rw [hc]
      exact detectRestart_inv _ _ _ _ _ h4
    · rw [if_neg hc] at h4
      have hc' : cp.1 = false := by simpa using hc
      rw [hc']
      exact detectStop_inv _ _ _ _ _ h4
  have hina : ∀ tail, cp.2.ina = tail → p.ina = e1.looks ++ e2.looks ++ [s] ++ tail := by
    intro tail ht
    rw [l1, l2, l3, ht]; simp
  rcases hpolled with ⟨hv, rounds, a, b, q1, q2, q3, q4⟩ | ⟨hv, rounds, a, q1, q2, q4⟩
  · rw [hv] at h5
    simp only [Option.some.injEq, Prod.mk.injEq] at h5
    obtain ⟨rfl, rfl⟩ := h5
    refine ⟨by rw [d3, d2, d1], by rw [o3, o2, o1], ?_⟩
    have hend : Pins.EndsPhase cp.1 p.ina v.2.1 :=
      ⟨e1, e2, s, rounds, a, b, r1, r2, hs, q1, q2, q3, by
        rw [hina _ q4]; simp⟩
    cases hc : cp.1 with
    | true => rw [hc] at hend; exact Or.inl ⟨rfl, hend⟩
    | false => rw [hc] at hend; exact Or.inr (Or.inl ⟨rfl, hend⟩)
  · rw [hv] at h5
    simp only [Option.bind_eq_bind, Option.bind_eq_some, Option.some.injEq,
      Prod.mk.injEq] at h5
    obtain ⟨rp, h6, rfl, rfl⟩ := h5
    obtain ⟨bits, hb, hres, hsuf, hd, ho⟩ := read_loop_inv 7 _ _ _ _ h6
    obtain ⟨t7, hlt⟩ := first_bit_is_bit7 cp.1 bits hb
    refine ⟨by rw [hd]; simp [d3, d2, d1], by rw [ho]; simp [o3, o2, o1], Or.inr (Or.inr
      ⟨rfl, by rw [hres]; exact hlt, cp.1, v.2.1,
        ⟨e1, e2, s, rounds, a, r1, r2, hs, q1, q2, by rw [hina _ q4]; simp⟩,
        hsuf, by rw [hres]; exact t7⟩)⟩

theorem read_loop_spec (n : Nat) : ∀ (slots : List BitSlot) (result : Nat) (p : Port)
    (rest : List Pins), slots.length = n + 1 → (∀ x ∈ slots, x.valid) →
    p.ina = slots.flatMap BitSlot.looks ++ rest →
    ∃ w : List Wire, Port.read_loop (n + 1) result p
      = some ((slots.map fun x => x.sample.sda).foldl rcl result,
          { p with ina := rest, wire := w }) := by
  induction n with
  | zero =>
    intro slots result p rest hlen hval hina
    obtain ⟨x, rfl⟩ : ∃ x, slots = [x] := List.length_eq_one.1 hlen
    have hx := hval x (by simp)
    have h1 := waitpne_scl_edge p x.fall (x.rise.looks ++ x.sample :: rest) hx.1
      (by simp [hina, BitSlot.looks])
    have h2 := waitpeq_scl_edge
      ({ p with ina := x.rise.looks ++ x.sample :: rest, wire := p.wire ++ [.scl_low] } : Port)
      x.rise (x.sample :: rest) hx.2 rfl
    unfold Port.read_loop
    rw [h1, Option.some_bind, h2, Option.some_bind]
    simp [Port.test_sda]
  | succ m ih =>
    intro slots result p rest hlen hval hina
    obtain ⟨x, xs, rfl⟩ : ∃ x xs, slots = x :: xs := by
      cases slots with
      | nil => simp at hlen
      | cons x xs => exact ⟨x, xs, rfl⟩
    have hx := hval x (by simp)
    have h1 := waitpne_scl_edge p x.fall
      (x.rise.looks ++ x.sample :: (xs.flatMap BitSlot.looks ++ rest)) hx.1
      (by simp [hina, BitSlot.looks])
    have h2 := waitpeq_scl_edge
      ({ p with ina := x.rise.looks ++ x.sample :: (xs.flatMap BitSlot.looks ++ rest),
                wire := p.wire ++ [.scl_low] } : Port)
      x.rise (x.sample :: (xs.flatMap BitSlot.looks ++ rest)) hx.2 rfl
    unfold Port.read_loop
    rw [h1, Option.some_bind, h2, Option.some_bind]
    simp only [Port.test_sda, Option.some_bind, ne_eq, Nat.add_one_ne_zero,
      not_false_eq_true, if_true]
    obtain ⟨w, hw⟩ := ih xs (rcl result x.sample.sda)
      ({ p with ina := xs.flatMap BitSlot.looks ++ rest,
                wire := p.wire ++ [.scl_low] ++ [.scl_high] ++ [.test_sda x.sample.sda] } : Port)
      rest (by simpa using hlen) (fun y hy => hval y (by simp [hy])) rfl
    exact ⟨w, by rw [hw]; simp⟩

/-- The assembly block of `read_to_end` on the looks of a complete data byte. -/
theorem read_to_end_asm_byte (p : Port) (first : Bool) (mid rest : List Pins)
    (slots : List BitSlot) (h : Pins.StartsByte first p.ina mid)
    (hlen : slots.length = 7) (hval : ∀ x ∈ slots, x.valid)
    (hmid : mid = slots.flatMap BitSlot.looks ++ rest) :
    ∃ w : List Wire, p.read_to_end_asm
      = some (⟨(slots.map fun x => x.sample.sda).foldl rcl (rcl 0 first), 2⟩,
          { p with ina := rest, wire := w }) := by
  obtain ⟨low, high, s, rounds, a, hl, hh, hs, hr, ha, hina⟩ := h
  have h1 := waitpne_scl_edge p low
    (high.looks ++ s :: (Pins.pollLooks rounds ++ [a] ++ mid)) hl (by simp [hina])
  have h2 := waitpeq_scl_edge
    ({ p with ina := high.looks ++ s :: (Pins.pollLooks rounds ++ [a] ++ mid),
              wire := p.wire ++ [.scl_low] } : Port) high
    (s :: (Pins.pollLooks rounds ++ [a] ++ mid)) hh rfl
  unfold Port.read_to_end_asm
  rw [h1, Option.some_bind, h2, Option.some_bind]
  simp only [Port.test_sda, Option.some_bind, hs]
  cases first with
  | true =>
    obtain ⟨w', hw⟩ := detectRestart_data rounds a mid hr ha
      (p.wire ++ [.scl_low] ++ [.scl_high] ++ [.test_sda true])
    simp only [if_true, hw, Option.some_bind]
    obtain ⟨w, hloop⟩ := read_loop_spec 6 slots (rcl 0 true)
      ({ p with ina := mid, wire := w' } : Port) rest hlen hval hmid
    rw [hloop]
    exact ⟨w, rfl⟩
  | false =>
    obtain ⟨w', hw⟩ := detectStop_data rounds a mid hr ha
      (p.wire ++ [.scl_low] ++ [.scl_high] ++ [.test_sda false])
    simp only [Bool.false_eq_true, if_false, hw, Option.some_bind]
    obtain ⟨w, hloop⟩ := read_loop_spec 6 slots (rcl 0 false)
      ({ p with ina := mid, wire := w' } : Port) rest hlen hval hmid
    rw [hloop]
    exact ⟨w, rfl⟩

theorem send_ack_asm_spec (p : Port) (x : AckSlot) (rest : List Pins) (hx : x.valid)
    (hina : p.ina = x.looks ++ rest) :
    p.send_ack_asm = some
      { dira_sda := false, outa_sda := false, ina := rest,
        wire := p.wire ++ [.scl_low, .dira_sda true, .outa_sda false, .scl_high, .scl_low,
          .dira_sda false] } := by
  have h1 := waitpne_scl_edge p x.low (x.rise.looks ++ (x.fall.looks ++ rest)) hx.1
    (by simp [hina, AckSlot.looks])
  have h2 := waitpeq_scl_edge
    ({ p with ina := x.rise.looks ++ (x.fall.looks ++ rest),
              wire := p.wire ++ [.scl_low] } : Port).or_dira_sda.andn_outa_sda
    x.rise (x.fall.looks ++ rest) hx.2.1 rfl
  unfold Port.send_ack_asm
  rw [h1, Option.some_bind, h2, Option.some_bind]
  rw [waitpne_scl_edge _ x.fall rest hx.2.2 rfl]
  simp [Port.or_dira_sda, Port.andn_outa_sda, Port.andn_dira_sda]

theorem send_ack_asm_suffix (p p' : Port) (h : p.send_ack_asm = some p') :
    p'.ina <:+ p.ina := by
  simp only [Port.send_ack_asm, Option.bind_eq_bind, Option.bind_eq_some,
    Option.some.injEq] at h
  obtain ⟨p1, h1, p2, h2, p3, h3, rfl⟩ := h
  obtain ⟨e1, _, l1, _⟩ := waitpne_scl_inv p p1 h1
  obtain ⟨e2, _, l2, _⟩ := waitpeq_scl_inv _ p2 h2
  obtain ⟨e3, _, l3, _⟩ := waitpne_scl_inv p2 p3 h3
  refine ⟨e1.looks ++ e2.looks ++ e3.looks, ?_⟩
  have l2' : p1.ina = e2.looks ++ p2.ina := l2
  have : p3.andn_dira_sda.ina = p3.ina := rfl
  rw [this, l1, l2', l3]; simp

theorem read_to_end_pass_ends (b : Bus) (restart : Bool) (rest : List Pins)
    (h : Pins.EndsPhase restart b.port.ina rest) :
    ∃ w : List Wire, b.read_to_end_pass
      = some (some restart, { b with port := { b.port with ina := rest, wire := w } }) := by
  obtain ⟨w, hw⟩ := read_to_end_asm_ends b.port restart rest h
  refine ⟨w, ?_⟩
  unfold Bus.read_to_end_pass
  rw [hw, Option.some_bind]
  cases restart <;> simp

theorem read_to_end_pass_byte (b : Bus) (first : Bool) (mid rest : List Pins)
    (slots : List BitSlot) (ack : AckSlot) (h : Pins.StartsByte first b.port.ina mid)
    (hlen : slots.length = 7) (hval : ∀ x ∈ slots, x.valid) (hack : ack.valid)
    (hmid : mid = slots.flatMap BitSlot.looks ++ (ack.looks ++ rest)) :
    ∃ w : List Wire, b.read_to_end_pass
      = some (none,
          { dev := b.dev.append_receive_buffer
              ((slots.map fun x => x.sample.sda).foldl rcl (rcl 0 first))
            port := { dira_sda := false, outa_sda := false, ina := rest, wire := w } }) := by
  obtain ⟨w, hw⟩ := read_to_end_asm_byte b.port first mid (ack.looks ++ rest) slots h hlen
    hval hmid
  have hsa := send_ack_asm_spec ({ b.port with ina := ack.looks ++ rest, wire := w } : Port)
    ack rest hack rfl
  have hlt := (first_bit_is_bit7 first (slots.map fun x => x.sample.sda)
    (by simpa using hlen)).2
  refine ⟨w ++ [.scl_low, .dira_sda true, .outa_sda false, .scl_high, .scl_low,
    .dira_sda false], ?_⟩
  unfold Bus.read_to_end_pass
  rw [hw, Option.some_bind]
  simp only [ne_eq, not_true_eq_false, if_false]
  rw [hsa, Option.some_bind]
  simp only [u8, Nat.mod_eq_of_lt hlt]

theorem read_to_end_pass_inv (b b' : Bus) (r : Option Bool)
    (h : b.read_to_end_pass = some (r, b')) :
    (∃ restart : Bool, r = some restart ∧ Pins.EndsPhase restart b.port.ina b'.port.ina ∧
      b'.dev = b.dev) ∨
    (r = none ∧ b'.port.ina <:+ b.port.ina ∧ b'.port.ina.length < b.port.ina.length ∧
      ∃ (first : Bool) (mid : List Pins) (value : Nat),
      Pins.StartsByte first b.port.ina mid ∧ value.testBit 7 = first ∧
      b'.dev = b.dev.append_receive_buffer value) := by
  simp only [Bus.read_to_end_pass, Option.bind_eq_bind, Option.bind_eq_some] at h
  obtain ⟨fp, h1, h2⟩ := h
  obtain ⟨_, _, hcase⟩ := read_to_end_asm_inv b.port fp.2 fp.1 h1
  by_cases hr : fp.1.is_restart ≠ 2
  · rw [if_pos hr] at h2
    simp only [Option.some.injEq, Prod.mk.injEq] at h2
    obtain ⟨rfl, rfl⟩ := h2
    rcases hcase with ⟨h1', he⟩ | ⟨h0, he⟩ | ⟨h2', _⟩
    · exact Or.inl ⟨true, by simp [h1'], he, rfl⟩
    · exact Or.inl ⟨false, by simp [h0], he, rfl⟩
    · exact absurd h2' hr
  · rw [if_neg hr] at h2
    simp only [Option.bind_eq_bind, Option.bind_eq_some, Option.some.injEq,
      Prod.mk.injEq] at h2
    obtain ⟨p, hp, rfl, rfl⟩ := h2
    have hsuf := send_ack_asm_suffix fp.2 p hp
    rcases hcase with ⟨h1', _⟩ | ⟨h0, _⟩ | ⟨_, hlt, first, mid, hs, hm, ht⟩
    · exact absurd (by rw [h1']; decide) hr
    · exact absurd (by rw [h0]; decide) hr
    · obtain ⟨low, high, s, rounds, a, q1, q2, q3, q4, q5, q6⟩ := hs
      refine Or.inr ⟨rfl, ?_, ?_, first, mid, fp.1.result,
        ⟨low, high, s, rounds, a, q1, q2, q3, q4, q5, q6⟩, ht, ?_⟩
      · exact (hsuf.trans hm).trans ⟨low.looks ++ high.looks ++ [s] ++ Pins.pollLooks rounds
          ++ [a], by rw [q6]⟩
      · have h1 := (hsuf.trans hm).length_le
        rw [q6]
        simp only [List.length_append, List.length_singleton]
        omega
      · simp [u8, Nat.mod_eq_of_lt hlt]

theorem read_to_end_inv (passes : Nat) : ∀ (b b' : Bus) (restart : Bool),
    b.read_to_end passes = some (restart, b') →
    ∃ looks : List Pins, looks <:+ b.port.ina ∧ Pins.EndsPhase restart looks b'.port.ina := by
  induction passes with
  | zero => intro b b' restart h; simp [Bus.read_to_end] at h
  | succ n ih =>
    intro b b' restart h
    simp only [Bus.read_to_end, Option.bind_eq_bind, Option.bind_eq_some] at h
    obtain ⟨r, h1, h2⟩ := h
    rcases read_to_end_pass_inv b r.2 r.1 h1 with ⟨x, hx, he, _⟩ | ⟨hx, hsuf, _, _⟩
    · rw [hx] at h2
      simp only [Option.some.injEq, Prod.mk.injEq] at h2
      obtain ⟨rfl, rfl⟩ := h2
      exact ⟨b.port.ina, List.suffix_refl _, he⟩
    · rw [hx] at h2
      obtain ⟨looks, hl, he⟩ := ih r.2 b' restart h2
      exact ⟨looks, hl.trans hsuf, he⟩

theorem read_to_end_enough_passes (n : Nat) : ∀ (b : Bus) (m : Nat),
    b.port.ina.length < n → n ≤ m → b.read_to_end m = b.read_to_end n := by
  induction n with
  | zero => intro b m h; omega
  | succ k ih =>
    intro b m hlen hm
    obtain ⟨j, rfl⟩ : ∃ j, m = j + 1 := ⟨m - 1, by omega⟩
    unfold Bus.read_to_end
    cases hp : b.read_to_end_pass with
    | none => rfl
    | some r =>
      obtain ⟨v, b'⟩ := r
      cases v with
      | some restart => rfl
      | none =>
        rcases read_to_end_pass_inv b b' none hp with ⟨x, hx, _⟩ | ⟨_, _, hlt, _⟩
        · cases hx
        · simp only [Option.some_bind]
          exact ih b' j (by omega) (by omega)

/-- What `read_to_end` tells on the wires. (1) When it returns `true` the phase
has ended with a restart condition, and when it returns `false` with a stop condition:
the looks it has used up end with a first bit sampled high (low), polls that find SCL high
and SDA unchanged, a look that finds SCL still high and a look that finds SDA low (high).
(2) Conversely it returns `true` on the looks of a restart condition and `false` on those
of a stop condition. (3) When a poll finds that SCL has fallen while SDA had not changed,
the sampled bit is bit 7 of the byte that is read, acknowledged and appended, and the
loop goes round. (4) The bound on the passes does not matter once it exceeds the number
of looks. The two closed statements at the end run the code on a stop and on a
restart. -/
theorem read_to_end_tells_restart_from_stop (b : Bus) (passes : Nat) :
    (∀ (restart : Bool) (b' : Bus), b.read_to_end passes = some (restart, b') →
      ∃ looks : List Pins, looks <:+ b.port.ina ∧
        Pins.EndsPhase restart looks b'.port.ina) ∧
    (∀ (restart : Bool) (rest : List Pins), Pins.EndsPhase restart b.port.ina rest →
      ∃ w : List Wire, b.read_to_end (passes + 1)
        = some (restart, { b with port := { b.port with ina := rest, wire := w } })) ∧
    (∀ (first : Bool) (mid rest : List Pins) (slots : List BitSlot) (ack : AckSlot),
      Pins.StartsByte first b.port.ina mid → slots.length = 7 → (∀ x ∈ slots, x.valid) →
      ack.valid → mid = slots.flatMap BitSlot.looks ++ (ack.looks ++ rest) →
      ∃ (value : Nat) (w : List Wire), value.testBit 7 = first ∧ value < 256 ∧
        b.read_to_end_pass = some (none,
          { dev := b.dev.append_receive_buffer value
            port := { dira_sda := false, outa_sda := false, ina := rest, wire := w } }) ∧
        b.read_to_end (passes + 1) = Bus.read_to_end passes
          { dev := b.dev.append_receive_buffer value
            port := { dira_sda := false, outa_sda := false, ina := rest, wire := w } }) ∧
    (∀ m : Nat, b.port.ina.length < passes → passes ≤ m →
      b.read_to_end m = b.read_to_end passes) ∧
    (Bus.read_to_end 1 ⟨I2CSlave.ctor 0x42 4 (fun _ => 0) false, ⟨false, false,
        [⟨false, false⟩, ⟨true, false⟩, ⟨true, false⟩, ⟨true, false⟩, ⟨true, false⟩,
          ⟨true, false⟩, ⟨true, true⟩, ⟨true, true⟩], []⟩⟩).map (fun r => (r.1, r.2.port.ina))
      = some (false, [⟨true, true⟩]) ∧
    (Bus.read_to_end 1 ⟨I2CSlave.ctor 0x42 4 (fun _ => 0) false, ⟨false, false,
        [⟨false, true⟩, ⟨true, true⟩, ⟨true, true⟩, ⟨true, true⟩, ⟨true, true⟩,
          ⟨true, true⟩, ⟨true, false⟩, ⟨true, false⟩], []⟩⟩).map (fun r => (r.1, r.2.port.ina))
      = some (true, [⟨true, false⟩]) := by
  refine ⟨fun restart b' h => read_to_end_inv passes b b' restart h, ?_, ?_,
    fun m h1 h2 => read_to_end_enough_passes passes b m h1 h2, by decide, by decide⟩
  · intro restart rest h
    obtain ⟨w, hw⟩ := read_to_end_pass_ends b restart rest h
    exact ⟨w, by simp [Bus.read_to_end, hw]⟩
  · intro first mid rest slots ack hs hlen hval hack hmid
    obtain ⟨w, hw⟩ := read_to_end_pass_byte b first mid rest slots ack hs hlen hval hack hmid
    obtain ⟨t7, hlt⟩ := first_bit_is_bit7 first (slots.map fun x => x.sample.sda)
      (by simpa using hlen)
    exact ⟨_, w, t7, hlt, hw, by simp [Bus.read_to_end, hw]⟩

/-- C13. The result of `read_to_end` when SDA changes late. On the states
`Pins.lateChangeBus first` of the wires there is neither a restart nor a stop condition:
SCL falls before SDA changes, and no look of the cog shows SDA changed with SCL high. Yet,
when the fall of SCL and the change of SDA come between `test SCLMask, ina` and
`test SDAMask, ina` of a poll, `read_to_end` ends the phase and returns `true` after a
first bit sampled high and `false` after a first bit sampled low, without reading,
acknowledging or appending a byte. (A poll that comes after the fall of SCL goes on to the
bit loop, as the comments of the assembly say.) -/
theorem read_to_end_reports_condition_after_scl_fell (first : Bool) :
    List.Sublist (Pins.lateChangeLooks first) (Pins.lateChangeBus first) ∧
    Pins.restartCondition (Pins.lateChangeBus first) = false ∧
    Pins.stopCondition (Pins.lateChangeBus first) = false ∧
    (∀ p ∈ Pins.lateChangeLooks first, p.sda ≠ first → p.scl = false) ∧
    (∀ (b : Bus) (rest : List Pins) (passes : Nat), ∃ w : List Wire,
      Bus.read_to_end (passes + 1)
          { b with port := { b.port with ina := Pins.lateChangeLooks first ++ rest } }
        = some (first, { b with port := { b.port with ina := rest, wire := w } })) ∧
    (Bus.read_to_end 1
        { dev := I2CSlave.ctor 0x42 4 (fun _ => 0) false
          port := { dira_sda := false, outa_sda := false,
                    ina := Pins.lateChangeLooks first, wire := [] } })
      = some (first,
          { dev := I2CSlave.ctor 0x42 4 (fun _ => 0) false
            port := { dira_sda := false, outa_sda := false, ina := [],
                      wire := [.scl_low, .scl_high, .test_sda first, .test_scl true,
                        .test_sda (!first)] } }) ∧
    Pins.DetectRestart ((Pins.lateChangeBus true).drop 4) []
      = some (none, [⟨false, false⟩], [.test_scl false]) ∧
    Pins.DetectStop ((Pins.lateChangeBus false).drop 4) []
      = some (none, [⟨false, true⟩], [.test_scl false]) := by
  refine ⟨by cases first <;> decide, by cases first <;> decide, by cases first <;> decide,
    by cases first <;> decide, ?_, by cases first <;> decide, by decide, by decide⟩
  intro b rest passes
  have he : Pins.EndsPhase first (Pins.lateChangeLooks first ++ rest) rest :=
    ⟨⟨[], ⟨false, first⟩⟩, ⟨[], ⟨true, first⟩⟩, ⟨true, first⟩, [], ⟨true, first⟩,
      ⟨false, !first⟩, by simp [Edge.reaches], by simp [Edge.reaches], rfl,
      by simp [Pins.idlePolls], rfl, rfl,
      by simp [Pins.lateChangeLooks, Edge.looks, Pins.pollLooks]⟩
  obtain ⟨w, hw⟩ := read_to_end_pass_ends
    { b with port := { b.port with ina := Pins.lateChangeLooks first ++ rest } } first rest he
  exact ⟨w, by simp [Bus.read_to_end, hw]⟩

/-! ## The flag bits, the colour wheel, the read sentinel -/

/-- C21. The numbering of the SPI modes against the table of the comment and the flag
bits: with `BIT_0 = 1`, `BIT_1 = 2` and `BIT_2 = 4`, for every row of the table the
enumerator of that mode has the value `2 * CPOL + CPHA`, its bit `PHASE_BIT` is set
exactly when `CPHA = 1` and its bit `POLARITY_BIT` exactly when `CPOL = 1`; `BITMODE_BIT`
has no bit in common with the other two. The same holds for the legacy header. -/
theorem spi_mode_numbering_matches_table (BIT_0 BIT_1 BIT_2 : Nat) (h0 : BIT_0 = 2 ^ 0)
    (h1 : BIT_1 = 2 ^ 1) (h2 : BIT_2 = 2 ^ 2) :
    (∀ row ∈ SPI.modeTable, ∃ m, SPI.modeOfNumber row.mode = some m ∧
      m = 2 * row.CPOL + row.CPHA ∧
      (m &&& SPI.PHASE_BIT BIT_0 ≠ 0 ↔ row.CPHA = 1) ∧
      (m &&& SPI.POLARITY_BIT BIT_1 ≠ 0 ↔ row.CPOL = 1) ∧
      m &&& SPI.BITMODE_BIT BIT_2 = 0) ∧
    (∀ row ∈ SPI.modeTable, ∃ m, SPI_modeOfNumber row.mode = some m ∧
      m = 2 * row.CPOL + row.CPHA ∧
      (m &&& SPI_PHASE_BIT BIT_0 ≠ 0 ↔ row.CPHA = 1) ∧
      (m &&& SPI_POLARITY_BIT BIT_1 ≠ 0 ↔ row.CPOL = 1) ∧
      m &&& SPI_BITMODE_BIT BIT_2 = 0) ∧
    SPI.modeTable.map SPI.ModeRow.mode = [0, 1, 2, 3] ∧
    [SPI.PHASE_BIT BIT_0, SPI.POLARITY_BIT BIT_1, SPI.BITMODE_BIT BIT_2] = [2 ^ 0, 2 ^ 1, 2 ^ 2] ∧
    [SPI_PHASE_BIT BIT_0, SPI_POLARITY_BIT BIT_1, SPI_BITMODE_BIT BIT_2] = [2 ^ 0, 2 ^ 1, 2 ^ 2] ∧
    SPI.BITMODE_BIT BIT_2 &&& SPI.PHASE_BIT BIT_0 = 0 ∧
    SPI.BITMODE_BIT BIT_2 &&& SPI.POLARITY_BIT BIT_1 = 0 ∧
    SPI_BITMODE_BIT BIT_2 &&& SPI_PHASE_BIT BIT_0 = 0 ∧
    SPI_BITMODE_BIT BIT_2 &&& SPI_POLARITY_BIT BIT_1 = 0 := by
  subst h0 h1 h2
  decide

theorem spi_mode_numbering_matches_table_witness :
    SPI.MODE_2 &&& SPI.POLARITY_BIT 2 ≠ 0 ∧ SPI.MODE_2 &&& SPI.PHASE_BIT 1 = 0 ∧
    SPI.BITMODE_BIT 4 &&& SPI.POLARITY_BIT 2 = 0 := by
  have h := spi_mode_numbering_matches_table 1 2 4 rfl rfl rfl
  exact ⟨by decide, by decide, h.2.2.2.2.2.2.1⟩

/-- C24. The first enumerator of the bit modes against the note of its enumeration
("Initial value is SPI_MODES + 1"): the initialiser is `SPI::MODES` (`SPI_MODES`), so
`LSB_FIRST` is `4` and not `MODES + 1`, which is `5`, in both headers. -/
theorem bit_mode_initial_value_is_not_modes_plus_one :
    SPI.LSB_FIRST ≠ SPI.MODES + 1 ∧ SPI_LSB_FIRST ≠ SPI_MODES + 1 ∧
    SPI.LSB_FIRST = 4 ∧ SPI.MODES + 1 = 5 ∧ SPI_LSB_FIRST = 4 ∧ SPI_MODES + 1 = 5 := by
  decide

/-- C23. The colour wheel on the positions `0 .. 255`: the result is a 24-bit colour whose
components are the three arguments that `wheel` hands to `color`, each of them at most
`255`, and they add up to `255`; the wheel is `RED` at `0` and at `255`, `GREEN` at `85`
and `BLUE` at `170`. -/
theorem wheel_is_rgb_ramp (position : Nat) (h : position ≤ 255) :
    WS2812.wheel position < 2 ^ 24 ∧
    WS2812.wheel position
      = WS2812.color (WS2812.red (WS2812.wheel position))
          (WS2812.green (WS2812.wheel position)) (WS2812.blue (WS2812.wheel position)) ∧
    WS2812.red (WS2812.wheel position) ≤ 255 ∧
    WS2812.green (WS2812.wheel position) ≤ 255 ∧
    WS2812.blue (WS2812.wheel position) ≤ 255 ∧
    WS2812.red (WS2812.wheel position) + WS2812.green (WS2812.wheel position)
      + WS2812.blue (WS2812.wheel position) = 255 ∧
    WS2812.wheel 0 = WS2812.RED ∧ WS2812.wheel 255 = WS2812.RED ∧
    WS2812.wheel 85 = WS2812.GREEN ∧ WS2812.wheel 170 = WS2812.BLUE := by
  have key : ∀ p : Fin 256,
      WS2812.wheel p.1 < 2 ^ 24 ∧
      WS2812.wheel p.1
        = WS2812.color (WS2812.red (WS2812.wheel p.1))
            (WS2812.green (WS2812.wheel p.1)) (WS2812.blue (WS2812.wheel p.1)) ∧
      WS2812.red (WS2812.wheel p.1) ≤ 255 ∧
      WS2812.green (WS2812.wheel p.1) ≤ 255 ∧
      WS2812.blue (WS2812.wheel p.1) ≤ 255 ∧
      WS2812.red (WS2812.wheel p.1) + WS2812.green (WS2812.wheel p.1)
        + WS2812.blue (WS2812.wheel p.1) = 255 := by
    set_option maxRecDepth 1000000 in decide
  obtain ⟨k1, k2, k3, k4, k5, k6⟩ := key ⟨position, by omega⟩
  exact ⟨k1, k2, k3, k4, k5, k6, by decide, by decide, by decide, by decide⟩

theorem wheel_is_rgb_ramp_witness :
    WS2812.wheel 100 = 0x00D22D ∧
    WS2812.red (WS2812.wheel 100) + WS2812.green (WS2812.wheel 100)
      + WS2812.blue (WS2812.wheel 100) = 255 :=
  ⟨by decide, (wheel_is_rgb_ramp 100 (by decide)).2.2.2.2.2.1⟩

/-! ## The read sentinel and the address comparison -/

theorem ctor_bytes (address C : Nat) (heap : Nat → Nat) (request_ended : Bool) :
    (I2CSlave.ctor address C heap request_ended).Bytes := by
  intro c hc
  simp only [I2CSlave.ctor, List.mem_map] at hc
  obtain ⟨i, _, rfl⟩ := hc
  unfold u8; omega

theorem apply_bytes (s : I2CSlave) (op : BufferOp) (h : s.Bytes) : (s.apply op).Bytes := by
  cases op with
  | append_receive_buffer c =>
    intro x hx
    simp only [I2CSlave.apply, I2CSlave.append_receive_buffer] at hx
    split at hx
    · rcases List.mem_or_eq_of_mem_set hx with hm | rfl
      · exact h x hm
      · unfold u8; omega
    · exact h x hx
  | read =>
    intro x hx
    simp only [I2CSlave.apply, I2CSlave.read] at hx
    split at hx
    · exact h x hx
    · exact h x hx
  | reset_receive_buffer => exact h

theorem applyAll_inv_bytes (C : Nat) (hC1 : 1 ≤ C) (hC2 : C < 2 ^ 32) (ops : List BufferOp) :
    ∀ s : I2CSlave, s.Inv C → s.Bytes → (s.applyAll ops).Inv C ∧ (s.applyAll ops).Bytes := by
  induction ops with
  | nil => intro s h hb; exact ⟨h, hb⟩
  | cons op ops ih =>
    intro s h hb
    exact ih _ (apply_inv C hC1 hC2 s op h) (apply_bytes s op hb)

theorem cell_lt_of_bytes (s : I2CSlave) (i : Nat) (h : s.Bytes) : s.cell i < 256 := by
  unfold I2CSlave.cell
  by_cases hi : i < s.m_receive_buffer.length
  · rw [List.getD_eq_getElem _ _ hi]
    exact h _ (List.getElem_mem hi)
  · rw [List.getD_eq_default _ _ (by omega)]
    omega

/-- C27. The sentinel of `read()`: on every state that the buffer operations reach from a
freshly constructed engine of capacity `1 ≤ C < 2 ^ 32`, `read()` returns `-1` exactly
when `available()` is `0`, and then leaves the engine as it is; otherwise it returns the
cell at the fill pointer, a value between `0` and `255`, and `available()` goes down by
one. A stored byte `0xFF` is read back as `255`. -/
theorem read_sentinel_is_unambiguous (C : Nat) (hC1 : 1 ≤ C) (hC2 : C < 2 ^ 32)
    (address : Nat) (heap : Nat → Nat) (request_ended : Bool) (ops : List BufferOp)
    (s : I2CSlave) (hs : s = (I2CSlave.ctor address C heap request_ended).applyAll ops) :
    ((s.read).1 = -1 ↔ s.available = 0) ∧
    (s.available = 0 → s.read = (-1, s)) ∧
    (s.available ≠ 0 →
      (s.read).1 = (s.cell s.m_buffer_ptr : Nat) ∧ 0 ≤ (s.read).1 ∧ (s.read).1 ≤ 255 ∧
      (s.read).2.available = s.available - 1 ∧ (s.read).2.available + 1 = s.available) ∧
    ((s.reset_receive_buffer.append_receive_buffer 0xFF).read).1 = 255 := by
  obtain ⟨hinv, hb⟩ := applyAll_inv_bytes C hC1 hC2 ops _
    (fresh_inv (ctor_fresh address C heap request_ended hC1 hC2))
    (ctor_bytes address C heap request_ended)
  rw [← hs] at hinv hb
  have hav := available_of_inv C s hC1 hC2 hinv
  obtain ⟨⟨hl, hu⟩, hle⟩ := hinv
  have hcell := cell_lt_of_bytes s s.m_buffer_ptr hb
  refine ⟨?_, ?_, ?_, ?_⟩
  · rw [hav]
    by_cases hp : s.m_buffer_ptr ≤ s.m_buffer_upper_bound
    · simp only [I2CSlave.read, hp, if_true]
      constructor
      · intro h; omega
      · intro h; omega
    · simp only [I2CSlave.read, hp, if_false]
      constructor
      · intro _; omega
      · intro _; trivial
  · intro h
    rw [hav] at h
    exact read_empty C s hC1 ⟨hl, hu⟩ (by omega)
  · intro h
    rw [hav] at h
    have hp : s.m_buffer_ptr ≤ s.m_buffer_upper_bound := by omega
    have hinv' : ({ s with m_buffer_ptr := u32 ((s.m_buffer_ptr : Int) + 1) } : I2CSlave).Inv C :=
      ⟨⟨hl, hu⟩, by simp only [u32]; omega⟩
    have hav' := available_of_inv C _ hC1 hC2 hinv'
    simp only [I2CSlave.read, hp, if_true]
    rw [hav', hav]
    simp only [u32]
    refine ⟨?_, ?_, ?_, ?_, ?_⟩
    · trivial
    · omega
    · omega
    · omega
    · omega
  · have hf := reset_fresh C s hC1 hC2 ⟨hl, hu⟩
    obtain ⟨hi, hptr, hcont⟩ := append_spec C s.reset_receive_buffer 0xFF hC2 (fresh_inv hf)
      (by rw [hf.2]; omega)
    obtain ⟨b, hb1, hb2, _⟩ := read_spec C _ hC2 hi.1 (by rw [hptr, hf.2]; omega)
    rw [hcont] at hb1
    have hb3 : b = u8 0xFF := by
      have := List.head_eq_of_cons_eq hb1
      exact this.symm
    rw [hb2, hb3]
    decide

theorem read_sentinel_is_unambiguous_witness :
    ((((I2CSlave.ctor 0x42 4 (fun _ => 0) false).applyAll
        [.append_receive_buffer 0xFF]).read).1 = 255) ∧
    (((I2CSlave.ctor 0x42 4 (fun _ => 0) false).applyAll
        [.append_receive_buffer 0xFF, .read]).read).1 = -1 ∧
    ((((I2CSlave.ctor 0x42 4 (fun _ => 0) false).applyAll
        [.append_receive_buffer 0xFF, .read]).read).1 = -1 ↔
      ((I2CSlave.ctor 0x42 4 (fun _ => 0) false).applyAll
        [.append_receive_buffer 0xFF, .read]).available = 0) :=
  ⟨by decide, by decide,
    (read_sentinel_is_unambiguous 4 (by decide) (by decide) 0x42 (fun _ => 0) false
      [.append_receive_buffer 0xFF, .read] _ rfl).1⟩

theorem restart_loop_silent (on_receive on_request : Handler) (addresses : List Nat) :
    ∀ c : Cog, 127 < c.dev.m_slave_address →
      Cog.restart_loop on_receive on_request addresses c
        = { c with trace := c.trace
              ++ addresses.flatMap (fun _ => [Event.read_address, Event.await_start])
              ++ [.read_address] } := by
  induction addresses with
  | nil => intro c _; simp [Cog.restart_loop, Cog.log]
  | cons result addresses ih =>
    intro c hc
    have hm : u8 result >>> 1 ≠ (c.log .read_address).dev.m_slave_address := by
      have : u8 result >>> 1 ≤ 127 := by
        rw [Nat.shiftRight_eq_div_pow]; unfold u8; omega
      have hd : (c.log .read_address).dev = c.dev := rfl
      rw [hd]; omega
    rw [restart_loop_break _ _ _ addresses _ _
      (restart_body_mismatch on_receive on_request result (c.log .read_address) hm)]
    rw [Cog.run, ih _ (by exact hc)]
    simp [Cog.log, Cog.await_start]

theorem silent_count (n : List Nat) :
    (n.flatMap (fun _ => [Event.read_address, Event.await_start])).count .send_ack = 0 ∧
    (n.flatMap (fun _ => [Event.read_address, Event.await_start])).countP Event.isOnRequest
      = 0 ∧
    (n.flatMap (fun _ => [Event.read_address, Event.await_start])).countP Event.isOnReceive
      = 0 := by
  induction n with
  | nil => simp
  | cons a n ih =>
    obtain ⟨i1, i2, i3⟩ := ih
    have e : (a :: n).flatMap (fun _ => [Event.read_address, Event.await_start])
        = .read_address :: .await_start
            :: n.flatMap (fun _ => [Event.read_address, Event.await_start]) := by
      simp
    rw [e]
    refine ⟨?_, ?_, ?_⟩
    · rw [List.count_cons, List.count_cons, i1]; simp
    · rw [List.countP_cons, List.countP_cons, i2]; simp [Event.isOnRequest]
    · rw [List.countP_cons, List.countP_cons, i3]; simp [Event.isOnReceive]

/-- C28. An engine constructed with an address above `127` (the parameter is a `uint8_t`,
so at most `255`) never answers: whatever byte `read_address` returns, the comparison
`(address >> 1) == m_slave_address` is false, and `run()` on any bus only alternates
`await_start` and `read_address`; it makes no call of `send_ack`, of `on_request` or of
`on_receive`, and the engine stays as constructed. -/
theorem out_of_range_address_never_responds (address : Nat) (h1 : 127 < address)
    (h2 : address < 256) (receive_buffer_size : Nat) (heap : Nat → Nat)
    (request_ended : Bool) (frames : List Frame) (naks : List Bool)
    (on_receive on_request : Handler) (addresses : List Nat) :
    (∀ result : Nat, u8 result >>> 1
      ≠ (I2CSlave.ctor address receive_buffer_size heap request_ended).m_slave_address) ∧
    Cog.run on_receive on_request addresses
        (Cog.boot address receive_buffer_size heap request_ended frames naks)
      = { dev := I2CSlave.ctor address receive_buffer_size heap request_ended
          frames := frames
          naks := naks
          trace := [.await_start]
            ++ addresses.flatMap (fun _ => [Event.read_address, Event.await_start])
            ++ [.read_address] } ∧
    (Cog.run on_receive on_request addresses
        (Cog.boot address receive_buffer_size heap request_ended frames naks)).trace.count
      .send_ack = 0 ∧
    (Cog.run on_receive on_request addresses
        (Cog.boot address receive_buffer_size heap request_ended frames naks)).trace.countP
      Event.isOnRequest = 0 ∧
    (Cog.run on_receive on_request addresses
        (Cog.boot address receive_buffer_size heap request_ended frames naks)).trace.countP
      Event.isOnReceive = 0 := by
  have ha : (I2CSlave.ctor address receive_buffer_size heap request_ended).m_slave_address
      = address := by
    simp only [I2CSlave.ctor, u8]; omega
  have hrun : Cog.run on_receive on_request addresses
        (Cog.boot address receive_buffer_size heap request_ended frames naks)
      = { dev := I2CSlave.ctor address receive_buffer_size heap request_ended
          frames := frames
          naks := naks
          trace := [.await_start]
            ++ addresses.flatMap (fun _ => [Event.read_address, Event.await_start])
            ++ [.read_address] } := by
    rw [Cog.run, restart_loop_silent on_receive on_request addresses _
      (by show 127 < (I2CSlave.ctor address receive_buffer_size heap
            request_ended).m_slave_address
          rw [ha]; exact h1)]
    simp [Cog.boot, Cog.await_start, Cog.log]
  obtain ⟨i1, i2, i3⟩ := silent_count addresses
  refine ⟨?_, hrun, ?_, ?_, ?_⟩
  · intro result
    rw [ha]
    have : u8 result >>> 1 ≤ 127 := by
      rw [Nat.shiftRight_eq_div_pow]; unfold u8; omega
    omega
  · rw [hrun]
    simp only [List.count_append, i1]
    simp
  · rw [hrun]
    simp only [List.countP_append, i2]
    simp [Event.isOnRequest]
  · rw [hrun]
    simp only [List.countP_append, i3]
    simp [Event.isOnReceive]

theorem out_of_range_address_never_responds_witness :
    (Cog.run (.write 1 .done) (.read fun _ => .done) [0x90, 0x91, 0x20]
        (Cog.boot 0x90 4 (fun _ => 0) false [⟨0x11, 2⟩, ⟨0, 0⟩] [true])).trace
      = [.await_start, .read_address, .await_start, .read_address, .await_start,
          .read_address, .await_start, .read_address] :=
  (out_of_range_address_never_responds 0x90 (by decide) (by decide) 4 (fun _ => 0) false
      [⟨0x11, 2⟩, ⟨0, 0⟩] [true] (.write 1 .done) (.read fun _ => .done)
      [0x90, 0x91, 0x20]).2.1 ▸ rfl

/-! ## The MCP300x driver -/

theorem firstError_eq_zero (xs : List Int) :
    MCP300x.firstError xs = 0 ↔ ∀ x ∈ xs, x = 0 := by
  induction xs with
  | nil => simp [MCP300x.firstError]
  | cons x xs ih =>
    by_cases hx : x = 0
    · simp [MCP300x.firstError, hx, ih]
    · simp [MCP300x.firstError, hx]

theorem int8_of_fit (x : Int) (h : -128 ≤ x ∧ x ≤ 127) : int8 x = x := by
  unfold int8; omega

/-- C30. `MCP300x::start`, with `check_errors` returning on a code that is not zero:
chip-select is remembered, made an output and set high before anything else, then
`is_running()` is asked. When the SPI driver runs, `start` is not called on it:
`set_mode(SPI_MODE)` is called and, when it returns `0`, `set_bit_mode(SPI_BITMODE)`.
When the SPI driver does not run, `start` is called on it once, with `SPI_DEFAULT_FREQ`,
`SPI_MODE` and `SPI_BITMODE`, and neither setter is called. The value returned is the
first code that is not zero among those of the calls made, and `0` when there is none.
The legacy macros give `100000`, `SPI_MODE_2` and `SPI_MSB_FIRST` for the three
constants. -/
theorem mcp300x_start_does_not_relaunch (d : MCP300x) (k : MCP300x.Header)
    (r : MCP300x.Replies) (mosi miso sclk cs : Nat) (hk : k.ReturnsOnError) :
    (d.start k r mosi miso sclk cs).1 = { d with m_cs := cs } ∧
    [MCP300x.Call.set_dir_out cs, .pin_set cs, .is_running]
      <+: (d.start k r mosi miso sclk cs).2.calls ∧
    (r.is_running = true →
      (d.start k r mosi miso sclk cs).2.calls
        = [.set_dir_out cs, .pin_set cs, .is_running, .set_mode k.SPI_MODE]
          ++ (if r.set_mode = 0 then [.set_bit_mode k.SPI_BITMODE] else []) ∧
      (d.start k r mosi miso sclk cs).2.calls.countP MCP300x.Call.isStart = 0 ∧
      (d.start k r mosi miso sclk cs).2.returned
        = some (MCP300x.firstError [r.set_mode, r.set_bit_mode])) ∧
    (r.is_running = false →
      (d.start k r mosi miso sclk cs).2.calls
        = [.set_dir_out cs, .pin_set cs, .is_running,
            .start mosi miso sclk k.SPI_DEFAULT_FREQ k.SPI_MODE k.SPI_BITMODE] ∧
      (d.start k r mosi miso sclk cs).2.calls.countP MCP300x.Call.isStart = 1 ∧
      (d.start k r mosi miso sclk cs).2.calls.countP MCP300x.Call.isConfig = 0 ∧
      (d.start k r mosi miso sclk cs).2.returned = some (MCP300x.firstError [r.start])) ∧
    (MCP300X_SPI_DEFAULT_FREQ, MCP300X_SPI_MODE, MCP300X_SPI_BITMODE)
      = (100000, SPI_MODE_2, SPI_MSB_FIRST) := by
  have hce : ∀ (store : Int → Int) (x : Int),
      k.check_errors store x = if store x = 0 then none else some (store x) := hk
  refine ⟨rfl, ?_, ?_, ?_, rfl⟩
  · cases hr : r.is_running <;> by_cases h0 : r.start = 0 <;>
      by_cases h1 : r.set_mode = 0 <;> by_cases h2 : r.set_bit_mode = 0 <;>
      simp [MCP300x.start, MCP300x.Run.call, MCP300x.Run.check_errors, MCP300x.Run.leave,
        MCP300x.Run.enter, hce, hr, h0, h1, h2]
  · intro hr
    by_cases h1 : r.set_mode = 0 <;> by_cases h2 : r.set_bit_mode = 0 <;>
      simp [MCP300x.start, MCP300x.Run.call, MCP300x.Run.check_errors, MCP300x.Run.leave,
        MCP300x.Run.enter, hce, hr, h1, h2, MCP300x.firstError, MCP300x.Call.isStart]
  · intro hr
    by_cases h1 : r.start = 0 <;>
      simp [MCP300x.start, MCP300x.Run.call, MCP300x.Run.check_errors, MCP300x.Run.leave,
        MCP300x.Run.enter, hce, hr, h1, MCP300x.firstError, MCP300x.Call.isStart,
        MCP300x.Call.isConfig]

theorem mcp300x_start_does_not_relaunch_witness :
    ((MCP300x.ctor 0).start MCP300x.Header.demo ⟨true, 0, 0, 6, 0, 0⟩ 1 2 4 8).2
      = { calls := [.set_dir_out 8, .pin_set 8, .is_running, .set_mode 2, .set_bit_mode 5]
          returned := some 6 } ∧
    ((MCP300x.ctor 0).start MCP300x.Header.demo ⟨false, 9, 0, 0, 0, 0⟩ 1 2 4 8).2
      = { calls := [.set_dir_out 8, .pin_set 8, .is_running, .start 1 2 4 100000 2 5]
          returned := some 9 } ∧
    ((MCP300x.ctor 0).start MCP300x.Header.demo ⟨false, 9, 0, 0, 0, 0⟩ 1 2 4 8).2.returned
      = some (MCP300x.firstError [9]) :=
  ⟨by decide, by decide,
    ((mcp300x_start_does_not_relaunch (MCP300x.ctor 0) MCP300x.Header.demo
      ⟨false, 9, 0, 0, 0, 0⟩ 1 2 4 8 (fun _ _ => rfl)).2.2.2.1 rfl).2.2.2⟩

theorem applyAll_switch (k : MCP300x.Header) (ops : List MCP300x.Op) :
    ∀ (d : MCP300x) (b : Bool), d.m_alwaysSetMode = b.toNat →
      (d.applyAll k ops).m_alwaysSetMode
        = (ops.foldl (fun b op => match op with
            | .always_set_spi_mode alwaysSetMode => alwaysSetMode
            | _ => b) b).toNat := by
  induction ops with
  | nil => intro d b h; simpa [MCP300x.applyAll] using h
  | cons op ops ih =>
    intro d b h
    cases op with
    | start mosi miso sclk cs r => exact ih _ b h
    | always_set_spi_mode a => exact ih _ a rfl
    | read channel r => exact ih _ b h
    | read_diff channels r => exact ih _ b h

/-- C22. The switch of `always_set_spi_mode`. After construction it is off, and after any
sequence of calls of the methods it is on exactly when the last call of
`always_set_spi_mode` had the argument `true`. `read` and `read_diff` call a setter of the
SPI object exactly when the switch is on. With the switch off they call neither
`set_mode` nor `set_bit_mode` and begin with the clearing of chip-select and `shift_out`.
With the switch on they begin with `set_mode(SPI_MODE)`; whenever chip-select is cleared
or `shift_out` is called, `set_mode(SPI_MODE)` and `set_bit_mode(SPI_BITMODE)` have been
called before, in this order, and that is the case when both setters return `0` (with
`check_errors` returning on a code that is not zero, a setter that fails ends the method
before chip-select is touched). -/
theorem mcp300x_always_set_mode_switch (k : MCP300x.Header) (hk : k.ReturnsOnError)
    (d : MCP300x) (r : MCP300x.Replies) (channel : Nat) :
    (∀ cs : Nat, (MCP300x.ctor cs).m_alwaysSetMode = 0) ∧
    (∀ (cs : Nat) (ops : List MCP300x.Op),
      ((MCP300x.ctor cs).applyAll k ops).m_alwaysSetMode ≠ 0
        ↔ MCP300x.lastSwitch ops = true) ∧
    ((d.read k r channel).calls.any MCP300x.Call.isConfig = true ↔ d.m_alwaysSetMode ≠ 0) ∧
    ((d.read_diff k r channel).calls.any MCP300x.Call.isConfig = true
      ↔ d.m_alwaysSetMode ≠ 0) ∧
    (d.m_alwaysSetMode = 0 →
      (d.read k r channel).calls.countP MCP300x.Call.isConfig = 0 ∧
      (d.read_diff k r channel).calls.countP MCP300x.Call.isConfig = 0 ∧
      [.pin_clear d.m_cs, .shift_out (u8 k.OPTN_WIDTH)
          (MCP300x.optionsWord (k.START ||| k.SINGLE_ENDED ||| channel))]
        <+: (d.read k r channel).calls ∧
      [.pin_clear d.m_cs, .shift_out (u8 k.OPTN_WIDTH)
          (MCP300x.optionsWord (k.START ||| k.DIFFERENTIAL ||| channel))]
        <+: (d.read_diff k r channel).calls) ∧
    (d.m_alwaysSetMode ≠ 0 →
      (d.read k r channel).calls.head? = some (.set_mode k.SPI_MODE) ∧
      (d.read_diff k r channel).calls.head? = some (.set_mode k.SPI_MODE) ∧
      (∀ c ∈ (d.read k r channel).calls, c = .pin_clear d.m_cs ∨ c.isShiftOut = true →
        [.set_mode k.SPI_MODE, .set_bit_mode k.SPI_BITMODE, .pin_clear d.m_cs,
          .shift_out (u8 k.OPTN_WIDTH)
            (MCP300x.optionsWord (k.START ||| k.SINGLE_ENDED ||| channel))]
          <+: (d.read k r channel).calls) ∧
      (∀ c ∈ (d.read_diff k r channel).calls, c = .pin_clear d.m_cs ∨ c.isShiftOut = true →
        [.set_mode k.SPI_MODE, .set_bit_mode k.SPI_BITMODE, .pin_clear d.m_cs,
          .shift_out (u8 k.OPTN_WIDTH)
            (MCP300x.optionsWord (k.START ||| k.DIFFERENTIAL ||| channel))]
          <+: (d.read_diff k r channel).calls) ∧
      (r.set_mode = 0 → r.set_bit_mode = 0 →
        [.set_mode k.SPI_MODE, .set_bit_mode k.SPI_BITMODE, .pin_clear d.m_cs,
          .shift_out (u8 k.OPTN_WIDTH)
            (MCP300x.optionsWord (k.START ||| k.SINGLE_ENDED ||| channel))]
          <+: (d.read k r channel).calls ∧
        [.set_mode k.SPI_MODE, .set_bit_mode k.SPI_BITMODE, .pin_clear d.m_cs,
          .shift_out (u8 k.OPTN_WIDTH)
            (MCP300x.optionsWord (k.START ||| k.DIFFERENTIAL ||| channel))]
          <+: (d.read_diff k r channel).calls)) := by
  have hce : ∀ (store : Int → Int) (x : Int),
      k.check_errors store x = if store x = 0 then none else some (store x) := hk
  have hz : int8 0 = 0 := by decide
  refine ⟨fun _ => rfl, ?_, ?_, ?_, ?_, ?_⟩
  · intro cs ops
    rw [applyAll_switch k ops (MCP300x.ctor cs) false rfl, MCP300x.lastSwitch]
    cases (ops.foldl (fun b op => match op with
            | .always_set_spi_mode alwaysSetMode => alwaysSetMode
            | _ => b) false) <;> simp
  · by_cases h0 : d.m_alwaysSetMode = 0 <;> by_cases h1 : r.set_mode = 0 <;>
      by_cases h2 : r.set_bit_mode = 0 <;> by_cases h3 : r.shift_out = 0 <;>
      by_cases h4 : r.shift_in = 0 <;>
      simp [MCP300x.read, MCP300x.Run.call, MCP300x.Run.check_errors, MCP300x.Run.leave,
        MCP300x.Run.enter, hce, h0, h1, h2, h3, h4, MCP300x.Call.isConfig]
  · by_cases h0 : d.m_alwaysSetMode = 0 <;> by_cases h1 : int8 r.set_mode = 0 <;>
      by_cases h2 : int8 r.set_bit_mode = 0 <;> by_cases h3 : int8 r.shift_out = 0 <;>
      by_cases h4 : int8 r.shift_in = 0 <;>
      simp [MCP300x.read_diff, MCP300x.Run.call, MCP300x.Run.check_errors,
        MCP300x.Run.leave, MCP300x.Run.enter, hce, h0, h1, h2, h3, h4,
        MCP300x.Call.isConfig]
  · intro h0
    refine ⟨?_, ?_, ?_, ?_⟩
    · by_cases h3 : r.shift_out = 0 <;> by_cases h4 : r.shift_in = 0 <;>
        simp [MCP300x.read, MCP300x.Run.call, MCP300x.Run.check_errors, MCP300x.Run.leave,
          MCP300x.Run.enter, hce, h0, h3, h4, MCP300x.Call.isConfig]
    · by_cases h3 : int8 r.shift_out = 0 <;> by_cases h4 : int8 r.shift_in = 0 <;>
        simp [MCP300x.read_diff, MCP300x.Run.call, MCP300x.Run.check_errors,
          MCP300x.Run.leave, MCP300x.Run.enter, hce, h0, h3, h4, MCP300x.Call.isConfig]
    · by_cases h3 : r.shift_out = 0 <;> by_cases h4 : r.shift_in = 0 <;>
        simp [MCP300x.read, MCP300x.Run.call, MCP300x.Run.check_errors, MCP300x.Run.leave,
          MCP300x.Run.enter, hce, h0, h3, h4, MCP300x.optionsWord]
    · by_cases h3 : int8 r.shift_out = 0 <;> by_cases h4 : int8 r.shift_in = 0 <;>
        simp [MCP300x.read_diff, MCP300x.Run.call, MCP300x.Run.check_errors,
          MCP300x.Run.leave, MCP300x.Run.enter, hce, h0, h3, h4, MCP300x.optionsWord]
  · intro h0
    refine ⟨?_, ?_, ?_, ?_, ?_⟩
    · by_cases h1 : r.set_mode = 0 <;>
        by_cases h2 : r.set_bit_mode = 0 <;> by_cases h3 : r.shift_out = 0 <;>
        by_cases h4 : r.shift_in = 0 <;>
        simp [MCP300x.read, MCP300x.Run.call, MCP300x.Run.check_errors, MCP300x.Run.leave,
          MCP300x.Run.enter, hce, h0, h1, h2, h3, h4]
    · by_cases h1 : int8 r.set_mode = 0 <;>
        by_cases h2 : int8 r.set_bit_mode = 0 <;> by_cases h3 : int8 r.shift_out = 0 <;>
        by_cases h4 : int8 r.shift_in = 0 <;>
        simp [MCP300x.read_diff, MCP300x.Run.call, MCP300x.Run.check_errors,
          MCP300x.Run.leave, MCP300x.Run.enter, hce, h0, h1, h2, h3, h4]
    · by_cases h1 : r.set_mode = 0 <;>
        by_cases h2 : r.set_bit_mode = 0 <;> by_cases h3 : r.shift_out = 0 <;>
        by_cases h4 : r.shift_in = 0 <;>
        simp [MCP300x.read, MCP300x.Run.call, MCP300x.Run.check_errors, MCP300x.Run.leave,
          MCP300x.Run.enter, hce, h0, h1, h2, h3, h4, MCP300x.optionsWord,
          MCP300x.Call.isShiftOut]
    · by_cases h1 : int8 r.set_mode = 0 <;>
        by_cases h2 : int8 r.set_bit_mode = 0 <;> by_cases h3 : int8 r.shift_out = 0 <;>
        by_cases h4 : int8 r.shift_in = 0 <;>
        simp [MCP300x.read_diff, MCP300x.Run.call, MCP300x.Run.check_errors,
          MCP300x.Run.leave, MCP300x.Run.enter, hce, h0, h1, h2, h3, h4,
          MCP300x.optionsWord, MCP300x.Call.isShiftOut]
    · intro h1 h2
      constructor
      · by_cases h3 : r.shift_out = 0 <;> by_cases h4 : r.shift_in = 0 <;>
          simp [MCP300x.read, MCP300x.Run.call, MCP300x.Run.check_errors,
            MCP300x.Run.leave, MCP300x.Run.enter, hce, h0, h1, h2, h3, h4,
            MCP300x.optionsWord]
      · by_cases h3 : int8 r.shift_out = 0 <;> by_cases h4 : int8 r.shift_in = 0 <;>
          simp [MCP300x.read_diff, MCP300x.Run.call, MCP300x.Run.check_errors,
            MCP300x.Run.leave, MCP300x.Run.enter, hce, h0, h1, h2, h3, h4, hz,
            MCP300x.optionsWord]

theorem mcp300x_always_set_mode_switch_witness :
    (((MCP300x.ctor 8).applyAll MCP300x.Header.demo
        [.always_set_spi_mode false, .always_set_spi_mode true,
          .start 1 2 4 8 ⟨true, 0, 0, 0, 0, 0⟩]).read
          MCP300x.Header.demo ⟨true, 0, 0, 0, 0, 0⟩ 3).calls
      = [.set_mode 2, .set_bit_mode 5, .pin_clear 8, .shift_out 7 0x6C, .shift_in 11 2,
          .pin_set 8] ∧
    (((MCP300x.ctor 8).applyAll MCP300x.Header.demo
        [.always_set_spi_mode true, .always_set_spi_mode false]).read
          MCP300x.Header.demo ⟨true, 0, 0, 0, 0, 0⟩ 3).calls
      = [.pin_clear 8, .shift_out 7 0x6C, .shift_in 11 2, .pin_set 8] ∧
    (((MCP300x.ctor 8).read MCP300x.Header.demo ⟨true, 0, 0, 0, 0, 0⟩ 3).calls.any
      MCP300x.Call.isConfig = true ↔ (MCP300x.ctor 8).m_alwaysSetMode ≠ 0) :=
  ⟨by decide, by decide,
    (mcp300x_always_set_mode_switch MCP300x.Header.demo (fun _ _ => rfl) (MCP300x.ctor 8)
      ⟨true, 0, 0, 0, 0, 0⟩ 3).2.2.1⟩

/-- C29. The error path of `read` and `read_diff`, with `check_errors` returning on a code
that is not zero. The value returned is the first code that is not zero among those of
`set_mode`, `set_bit_mode` (with the switch on), `shift_out` and `shift_in`, and it is `0`
only when all of them are `0`. Chip-select is left high by the method only when it returns
`0`. When `shift_out` has been called and has returned a code that is not zero, the method
returns that code, chip-select is left low and `shift_in` is not called; when `shift_in`
has been called and has returned a code that is not zero, the method returns that code and
chip-select is left low. For `read_diff`, whose local variable `err` is an `int8_t`, this
is stated for codes that are values of an `int8_t`. -/
theorem mcp300x_read_error_leaves_chip_select_low (k : MCP300x.Header)
    (hk : k.ReturnsOnError) (d : MCP300x) (r : MCP300x.Replies) (channel : Nat) :
    ((d.read k r channel).returned = some (MCP300x.firstError (d.codes r)) ∧
      ((d.read k r channel).returned = some 0 ↔ ∀ x ∈ d.codes r, x = 0) ∧
      (MCP300x.chipSelect d.m_cs (d.read k r channel).calls = some true
        ↔ (d.read k r channel).returned = some 0) ∧
      ((d.read k r channel).calls.any MCP300x.Call.isShiftOut = true → r.shift_out ≠ 0 →
        (d.read k r channel).returned = some r.shift_out ∧
        MCP300x.chipSelect d.m_cs (d.read k r channel).calls = some false ∧
        (d.read k r channel).calls.any MCP300x.Call.isShiftIn = false) ∧
      ((d.read k r channel).calls.any MCP300x.Call.isShiftIn = true → r.shift_in ≠ 0 →
        (d.read k r channel).returned = some r.shift_in ∧
        MCP300x.chipSelect d.m_cs (d.read k r channel).calls = some false)) ∧
    (r.FitInt8 →
      (d.read_diff k r channel).returned = some (MCP300x.firstError (d.codes r)) ∧
      ((d.read_diff k r channel).returned = some 0 ↔ ∀ x ∈ d.codes r, x = 0) ∧
      (MCP300x.chipSelect d.m_cs (d.read_diff k r channel).calls = some true
        ↔ (d.read_diff k r channel).returned = some 0) ∧
      ((d.read_diff k r channel).calls.any MCP300x.Call.isShiftOut = true →
        r.shift_out ≠ 0 →
        (d.read_diff k r channel).returned = some r.shift_out ∧
        MCP300x.chipSelect d.m_cs (d.read_diff k r channel).calls = some false ∧
        (d.read_diff k r channel).calls.any MCP300x.Call.isShiftIn = false) ∧
      ((d.read_diff k r channel).calls.any MCP300x.Call.isShiftIn = true →
        r.shift_in ≠ 0 →
        (d.read_diff k r channel).returned = some r.shift_in ∧
        MCP300x.chipSelect d.m_cs (d.read_diff k r channel).calls = some false)) := by
  have hce : ∀ (store : Int → Int) (x : Int),
      k.check_errors store x = if store x = 0 then none else some (store x) := hk
  constructor
  · by_cases h0 : d.m_alwaysSetMode = 0 <;> by_cases h1 : r.set_mode = 0 <;>
      by_cases h2 : r.set_bit_mode = 0 <;> by_cases h3 : r.shift_out = 0 <;>
      by_cases h4 : r.shift_in = 0 <;>
      simp [MCP300x.read, MCP300x.Run.call, MCP300x.Run.check_errors, MCP300x.Run.leave,
        MCP300x.Run.enter, hce, h0, h1, h2, h3, h4, MCP300x.Call.isShiftOut,
        MCP300x.Call.isShiftIn, MCP300x.chipSelect, MCP300x.codes, MCP300x.firstError]
  · intro hfit
    have e1 : int8 r.set_mode = r.set_mode := int8_of_fit _ (hfit _ (by simp))
    have e2 : int8 r.set_bit_mode = r.set_bit_mode := int8_of_fit _ (hfit _ (by simp))
    have e3 : int8 r.shift_out = r.shift_out := int8_of_fit _ (hfit _ (by simp))
    have e4 : int8 r.shift_in = r.shift_in := int8_of_fit _ (hfit _ (by simp))
    have hz : int8 0 = 0 := by decide
    by_cases h0 : d.m_alwaysSetMode = 0 <;> by_cases h1 : r.set_mode = 0 <;>
      by_cases h2 : r.set_bit_mode = 0 <;> by_cases h3 : r.shift_out = 0 <;>
      by_cases h4 : r.shift_in = 0 <;>
      simp [MCP300x.read_diff, MCP300x.Run.call, MCP300x.Run.check_errors,
        MCP300x.Run.leave, MCP300x.Run.enter, hce, e1, e2, e3, e4, hz, h0, h1, h2, h3, h4,
        MCP300x.Call.isShiftOut, MCP300x.Call.isShiftIn, MCP300x.chipSelect, MCP300x.codes,
        MCP300x.firstError]

theorem mcp300x_read_error_leaves_chip_select_low_witness :
    ((MCP300x.ctor 8).read MCP300x.Header.demo ⟨true, 0, 0, 0, 6, 0⟩ 3)
      = { calls := [.pin_clear 8, .shift_out 7 0x6C], returned := some 6 } ∧
    ((MCP300x.ctor 8).read_diff MCP300x.Header.demo ⟨true, 0, 0, 0, 0, 7⟩ 3)
      = { calls := [.pin_clear 8, .shift_out 7 0x4C, .shift_in 11 2], returned := some 7 } ∧
    MCP300x.chipSelect 8
      ((MCP300x.ctor 8).read MCP300x.Header.demo ⟨true, 0, 0, 0, 6, 0⟩ 3).calls
      = some false :=
  ⟨by decide, by decide,
    ((mcp300x_read_error_leaves_chip_select_low MCP300x.Header.demo (fun _ _ => rfl)
      (MCP300x.ctor 8) ⟨true, 0, 0, 0, 6, 0⟩ 3).1.2.2.2.1 (by decide) (by decide)).2.1⟩

/-! ## The WS2812 driver -/

theorem rcl_testBit_succ (x : Nat) (c : Bool) (j : Nat) (hj : j + 1 < 32) :
    (rcl x c).testBit (j + 1) = x.testBit j := by
  unfold rcl
  rw [Nat.testBit_mod_two_pow, Nat.testBit_succ]
  have : (2 * x + c.toNat) / 2 = x := by
    cases c <;> simp
    omega
  rw [this]
  simp [hj]

theorem shift_out_loop_spec (longPulse shortPulse : Nat) (n : Nat) :
    ∀ (rounds colorbits : Nat) (c : Bool) (out : List WS2812.Slot),
      n + 1 ≤ rounds → n + 1 ≤ 32 →
      ∃ (cb : Nat) (c' : Bool),
        WS2812.shift_out_loop longPulse shortPulse rounds (n + 1) colorbits c out
          = some (cb, c', out ++ (List.range (n + 1)).map fun i =>
              if colorbits.testBit (31 - i) then (⟨longPulse, shortPulse⟩ : WS2812.Slot)
              else ⟨shortPulse, longPulse⟩) := by
  induction n with
  | zero =>
    intro rounds colorbits c out hr _
    obtain ⟨r, rfl⟩ : ∃ r, rounds = r + 1 := ⟨rounds - 1, by omega⟩
    exact ⟨rcl colorbits c, colorbits.testBit 31, by
      have hr1 : List.range 1 = [0] := by decide
      simp [WS2812.shift_out_loop, u32, hr1]⟩
  | succ m ih =>
    intro rounds colorbits c out hr h32
    obtain ⟨r, rfl⟩ : ∃ r, rounds = r + 1 := ⟨rounds - 1, by omega⟩
    have hu : u32 (((m + 1 + 1 : Nat) : Int) - 1) = m + 1 := by unfold u32; omega
    obtain ⟨cb, c', h⟩ := ih r (rcl colorbits c) (colorbits.testBit 31)
      (out ++ [if colorbits.testBit 31 then (⟨longPulse, shortPulse⟩ : WS2812.Slot)
        else ⟨shortPulse, longPulse⟩]) (by omega) (by omega)
    refine ⟨cb, c', ?_⟩
    rw [WS2812.shift_out_loop]
    simp only [hu, ne_eq, Nat.add_one_ne_zero, not_false_eq_true, if_true]
    rw [h, List.range_succ_eq_map (m + 1)]
    simp only [List.map_cons, List.map_map, List.append_assoc, List.singleton_append,
      Nat.sub_zero]
    have hmap : List.map (fun i =>
          if (rcl colorbits c).testBit (31 - i) then (⟨longPulse, shortPulse⟩ : WS2812.Slot)
          else ⟨shortPulse, longPulse⟩) (List.range (m + 1))
        = List.map ((fun i =>
          if colorbits.testBit (31 - i) then (⟨longPulse, shortPulse⟩ : WS2812.Slot)
          else ⟨shortPulse, longPulse⟩) ∘ Nat.succ) (List.range (m + 1)) := by
      apply List.map_congr_left
      intro i hi
      have hi' : i < m + 1 := List.mem_range.1 hi
      have e : 31 - i = (30 - i) + 1 := by omega
      simp only [Function.comp, Nat.succ_eq_add_one]
      rw [e, rcl_testBit_succ _ _ _ (by omega)]
      have e2 : 31 - (i + 1) = 30 - i := by omega
      rw [e2]
    rw [hmap]

theorem testBit_255 (j : Nat) : Nat.testBit 255 j = decide (j < 8) := by
  have h : (255 : Nat) = 2 ^ 8 - 1 := by decide
  rw [h, Nat.testBit_two_pow_sub_one]

theorem red_testBit (x j : Nat) :
    (WS2812.red x).testBit j = (decide (j < 8) && x.testBit (16 + j)) := by
  simp [WS2812.red, Nat.testBit_and, Nat.testBit_shiftRight, testBit_255, Bool.and_comm]

theorem green_testBit (x j : Nat) :
    (WS2812.green x).testBit j = (decide (j < 8) && x.testBit (8 + j)) := by
  simp [WS2812.green, Nat.testBit_and, Nat.testBit_shiftRight, testBit_255, Bool.and_comm]

theorem blue_testBit (x j : Nat) :
    (WS2812.blue x).testBit j = (decide (j < 8) && x.testBit j) := by
  simp [WS2812.blue, Nat.testBit_and, testBit_255, Bool.and_comm]

theorem shifted_testBit (x j : Nat) :
    ((x <<< 8) % 2 ^ 32).testBit j = (decide (j < 32) && (decide (8 ≤ j) && x.testBit (j - 8))) := by
  rw [Nat.testBit_mod_two_pow, Nat.testBit_shiftLeft]

theorem shifted_msb24 (x : Nat) :
    ((List.range 24).map fun i => ((x <<< 8) % 2 ^ 32).testBit (31 - i))
      = WS2812.bits8 (WS2812.red x) ++ WS2812.bits8 (WS2812.green x)
          ++ WS2812.bits8 (WS2812.blue x) := by
  have hr : List.range 24 = [0, 1, 2, 3, 4, 5, 6, 7, 8, 9, 10, 11, 12, 13, 14, 15, 16, 17,
      18, 19, 20, 21, 22, 23] := by decide
  rw [hr]
  simp only [List.map_cons, List.map_nil, shifted_testBit, WS2812.bits8, red_testBit,
    green_testBit, blue_testBit]
  simp [-Nat.testBit_zero]

theorem testBit_FF00 (j : Nat) :
    Nat.testBit 0xFF00 j = (decide (8 ≤ j) && decide (j - 8 < 8)) := by
  have h : (0xFF00 : Nat) = 255 <<< 8 := by decide
  rw [h, Nat.testBit_shiftLeft, testBit_255]

theorem testBit_FF0000 (j : Nat) :
    Nat.testBit 0xFF0000 j = (decide (16 ≤ j) && decide (j - 16 < 8)) := by
  have h : (0xFF0000 : Nat) = 255 <<< 16 := by decide
  rw [h, Nat.testBit_shiftLeft, testBit_255]

theorem fix_colors_testBit (x j : Nat) :
    (WS2812.fix_colors 0xFF00 0xFF0000 x).testBit j
      = ((x.testBit j && decide (j < 8))
          || (x.testBit (8 + j) && (decide (8 ≤ j) && decide (j - 8 < 8)))
          || ((decide (j < 32) && (decide (8 ≤ j) && x.testBit (j - 8)))
              && (decide (16 ≤ j) && decide (j - 16 < 8)))) := by
  simp only [WS2812.fix_colors, Nat.testBit_or, Nat.testBit_and, Nat.testBit_shiftRight,
    shifted_testBit, testBit_FF00, testBit_FF0000, testBit_255]

theorem fix_colors_red (x : Nat) :
    WS2812.red (WS2812.fix_colors 0xFF00 0xFF0000 x) = WS2812.green x := by
  apply Nat.eq_of_testBit_eq
  intro j
  rw [red_testBit, green_testBit, fix_colors_testBit]
  by_cases hj : j < 8
  · have e : 16 + j - 8 = 8 + j := by omega
    have e1 : ¬ 16 + j < 8 := by omega
    have e2 : ¬ 16 + j - 8 < 8 := by omega
    have e3 : 16 + j < 32 := by omega
    have e4 : 8 ≤ 16 + j := by omega
    have e5 : 16 + j - 16 < 8 := by omega
    simp [hj, e, e1, e2, e3, e4, e5]
  · simp [hj]

theorem fix_colors_green (x : Nat) :
    WS2812.green (WS2812.fix_colors 0xFF00 0xFF0000 x) = WS2812.red x := by
  apply Nat.eq_of_testBit_eq
  intro j
  rw [red_testBit, green_testBit, fix_colors_testBit]
  by_cases hj : j < 8
  · have e : 8 + (8 + j) = 16 + j := by omega
    have e1 : ¬ 8 + j < 8 := by omega
    have e2 : 8 + j - 8 < 8 := by omega
    have e4 : ¬ 16 ≤ 8 + j := by omega
    simp [hj, e, e1, e2, e4]
  · simp [hj]

theorem fix_colors_blue (x : Nat) :
    WS2812.blue (WS2812.fix_colors 0xFF00 0xFF0000 x) = WS2812.blue x := by
  apply Nat.eq_of_testBit_eq
  intro j
  rw [blue_testBit, blue_testBit, fix_colors_testBit]
  by_cases hj : j < 8
  · have e1 : ¬ 8 ≤ j := by omega
    have e2 : ¬ 16 ≤ j := by omega
    simp [hj, e1, e2]
  · simp [hj]

theorem red_mod (x n : Nat) (h : 24 ≤ n) : WS2812.red (x % 2 ^ n) = WS2812.red x := by
  apply Nat.eq_of_testBit_eq
  intro j
  rw [red_testBit, red_testBit, Nat.testBit_mod_two_pow]
  by_cases hj : j < 8
  · have : 16 + j < n := by omega
    simp [hj, this]
  · simp [hj]

theorem green_mod (x n : Nat) (h : 24 ≤ n) : WS2812.green (x % 2 ^ n) = WS2812.green x := by
  apply Nat.eq_of_testBit_eq
  intro j
  rw [green_testBit, green_testBit, Nat.testBit_mod_two_pow]
  by_cases hj : j < 8
  · have : 8 + j < n := by omega
    simp [hj, this]
  · simp [hj]

theorem blue_mod (x n : Nat) (h : 24 ≤ n) : WS2812.blue (x % 2 ^ n) = WS2812.blue x := by
  apply Nat.eq_of_testBit_eq
  intro j
  rw [blue_testBit, blue_testBit, Nat.testBit_mod_two_pow]
  by_cases hj : j < 8
  · have : j < n := by omega
    simp [hj, this]
  · simp [hj]

theorem fix_colors_twice (x : Nat) :
    WS2812.fix_colors 0xFF00 0xFF0000 (WS2812.fix_colors 0xFF00 0xFF0000 x) = x % 2 ^ 24 := by
  apply Nat.eq_of_testBit_eq
  intro j
  rw [fix_colors_testBit, fix_colors_testBit, fix_colors_testBit, fix_colors_testBit,
    Nat.testBit_mod_two_pow]
  by_cases h1 : j < 8
  · have e1 : ¬ 8 ≤ j := by omega
    have e2 : ¬ 16 ≤ j := by omega
    have e3 : j < 24 := by omega
    simp [h1, e1, e2, e3]
  · by_cases h2 : j < 16
    · have e1 : 8 ≤ j := by omega
      have e2 : ¬ 16 ≤ j := by omega
      have e3 : j < 24 := by omega
      have e4 : j - 8 < 8 := by omega
      have e5 : ¬ 8 + j < 8 := by omega
      have e6 : 8 + j < 32 := by omega
      have e7 : 8 + j - 8 = j := by omega
      have e8 : 16 ≤ 8 + j := by omega
      have e9 : 8 + j - 16 < 8 := by omega
      have e10 : ¬ 8 + j - 8 < 8 := by omega
      simp [h1, e1, e2, e3, e4, e5, e6, e7, e8, e9, e10]
    · by_cases h3 : j < 24
      · have e1 : 8 ≤ j := by omega
        have e2 : 16 ≤ j := by omega
        have e4 : ¬ j - 8 < 8 := by omega
        have e5 : j - 16 < 8 := by omega
        have e6 : j < 32 := by omega
        have e7 : ¬ j - 8 < 8 := by omega
        have e8 : 8 ≤ j - 8 := by omega
        have e9 : j - 8 - 8 < 8 := by omega
        have e10 : 8 + (j - 8) = j := by omega
        have e11 : ¬ 16 ≤ j - 8 := by omega
        simp [h1, h3, e1, e2, e4, e5, e6, e8, e9, e10, e11]
      · have e1 : 8 ≤ j := by omega
        have e2 : 16 ≤ j := by omega
        have e4 : ¬ j - 8 < 8 := by omega
        have e5 : ¬ j - 16 < 8 := by omega
        simp [h1, h3, e1, e2, e4, e5]

theorem word_slots (MICROSECOND BYTE_1 BYTE_2 m_type word : Nat) (h1 : BYTE_1 = 0xFF00)
    (h2 : BYTE_2 = 0xFF0000) :
    ((List.range 24).map fun i =>
      if ((((if m_type = 0 then word % 2 ^ 32
          else WS2812.fix_colors BYTE_1 BYTE_2 (word % 2 ^ 32)) <<< 8) % 2 ^ 32).testBit
            (31 - i))
      then (⟨WS2812.LONG_PULSE_WIDTH MICROSECOND, WS2812.SHORT_PULSE_WIDTH MICROSECOND⟩ :
        WS2812.Slot)
      else ⟨WS2812.SHORT_PULSE_WIDTH MICROSECOND, WS2812.LONG_PULSE_WIDTH MICROSECOND⟩)
      = ((WS2812.wireBytes m_type word).flatMap WS2812.bits8).map
          (WS2812.slot MICROSECOND) := by
  subst h1 h2
  have e : ∀ x : Nat, ((List.range 24).map fun i =>
      if ((x <<< 8) % 2 ^ 32).testBit (31 - i)
      then (⟨WS2812.LONG_PULSE_WIDTH MICROSECOND, WS2812.SHORT_PULSE_WIDTH MICROSECOND⟩ :
        WS2812.Slot)
      else ⟨WS2812.SHORT_PULSE_WIDTH MICROSECOND, WS2812.LONG_PULSE_WIDTH MICROSECOND⟩)
      = ((List.range 24).map fun i => ((x <<< 8) % 2 ^ 32).testBit (31 - i)).map
          (WS2812.slot MICROSECOND) := by
    intro x
    rw [List.map_map]
    rfl
  rw [e, shifted_msb24]
  by_cases hm : m_type = 0
  · simp only [hm, if_true, WS2812.wireBytes, WS2812.RGB, red_mod _ 32 (by decide),
      green_mod _ 32 (by decide), blue_mod _ 32 (by decide)]
    simp [List.flatMap]
  · simp only [hm, if_false, WS2812.wireBytes, WS2812.RGB, fix_colors_red,
      fix_colors_green, fix_colors_blue, red_mod _ 32 (by decide),
      green_mod _ 32 (by decide), blue_mod _ 32 (by decide)]
    simp [List.flatMap]

theorem frame_loop_spec (MICROSECOND BYTE_1 BYTE_2 m_type : Nat) (h1 : BYTE_1 = 0xFF00)
    (h2 : BYTE_2 = 0xFF0000) (buffer : List Nat) :
    ∀ (c : Bool) (out : List WS2812.Slot), 1 ≤ buffer.length → buffer.length < 2 ^ 32 →
      WS2812.frame_loop BYTE_1 BYTE_2 (WS2812.LONG_PULSE_WIDTH MICROSECOND)
          (WS2812.SHORT_PULSE_WIDTH MICROSECOND) m_type buffer buffer.length c out
        = some (out ++ buffer.flatMap fun word =>
            ((WS2812.wireBytes m_type word).flatMap WS2812.bits8).map
              (WS2812.slot MICROSECOND)) := by
  induction buffer with
  | nil => intro c out h; simp at h
  | cons word rest ih =>
    intro c out _ hlt
    obtain ⟨cb, c', hloop⟩ := shift_out_loop_spec (WS2812.LONG_PULSE_WIDTH MICROSECOND)
      (WS2812.SHORT_PULSE_WIDTH MICROSECOND) 23 24
      (((if m_type = 0 then word % 2 ^ 32
          else WS2812.fix_colors BYTE_1 BYTE_2 (word % 2 ^ 32)) <<< 8) % 2 ^ 32) c out
      (by decide) (by decide)
    rw [word_slots MICROSECOND BYTE_1 BYTE_2 m_type word h1 h2] at hloop
    have hu : u32 (((word :: rest).length : Int) - 1) = rest.length := by
      simp only [List.length_cons, u32] at hlt ⊢
      omega
    rw [WS2812.frame_loop]
    simp only [hloop, Option.some_bind, hu]
    cases rest with
    | nil => simp
    | cons w ws =>
      have hne : (w :: ws).length ≠ 0 := by simp
      simp only [ne_eq, hne, not_false_eq_true, if_true]
      rw [ih c' _ (by simp) (by simp only [List.length_cons] at hlt ⊢; omega)]
      simp

/-- C26. The colour order of `send_array`, with `BYTE_1 = 0xFF00` and `BYTE_2 = 0xFF0000`:
for a buffer of `1 ≤ length < 2 ^ 32` words, every word is sent as 24 bit slots, most
significant bit first, a one as the long pulse and a zero as the short pulse; the bytes
are green, red, blue for a driver of type `GRB` and red, green, blue for a driver of type
`RGB`. The top byte of a word and the flag `C` at the entry do not show in what is sent.
The swap of red and green exchanges these two components and keeps blue, and applied
twice it gives back the 24 bits of the word. -/
theorem send_array_colour_order (MICROSECOND BYTE_1 BYTE_2 m_type : Nat) (buffer : List Nat)
    (c : Bool) (h1 : BYTE_1 = 0xFF00) (h2 : BYTE_2 = 0xFF0000) (hlen : 1 ≤ buffer.length)
    (hlt : buffer.length < 2 ^ 32) :
    WS2812.send_array MICROSECOND BYTE_1 BYTE_2 m_type buffer buffer.length c
      = some (buffer.flatMap fun word =>
          ((WS2812.wireBytes m_type word).flatMap WS2812.bits8).map
            (WS2812.slot MICROSECOND)) ∧
    (∀ word : Nat, ((WS2812.wireBytes m_type word).flatMap WS2812.bits8).length = 24) ∧
    (∀ word : Nat, WS2812.wireBytes WS2812.GRB word
      = [WS2812.green word, WS2812.red word, WS2812.blue word]) ∧
    (∀ word : Nat, WS2812.wireBytes WS2812.RGB word
      = [WS2812.red word, WS2812.green word, WS2812.blue word]) ∧
    (∀ word : Nat, WS2812.wireBytes m_type (word % 2 ^ 24) = WS2812.wireBytes m_type word) ∧
    (∀ word : Nat,
      WS2812.red (WS2812.fix_colors BYTE_1 BYTE_2 word) = WS2812.green word ∧
      WS2812.green (WS2812.fix_colors BYTE_1 BYTE_2 word) = WS2812.red word ∧
      WS2812.blue (WS2812.fix_colors BYTE_1 BYTE_2 word) = WS2812.blue word) ∧
    (∀ word : Nat,
      WS2812.fix_colors BYTE_1 BYTE_2 (WS2812.fix_colors BYTE_1 BYTE_2 word)
        = word % 2 ^ 24) ∧
    (∀ word : Nat, word < 2 ^ 24 →
      WS2812.fix_colors BYTE_1 BYTE_2 (WS2812.fix_colors BYTE_1 BYTE_2 word) = word) := by
  refine ⟨?_, ?_, ?_, ?_, ?_, ?_, ?_, ?_⟩
  · have hm : buffer.length % 2 ^ 32 = buffer.length := Nat.mod_eq_of_lt hlt
    rw [WS2812.send_array, hm,
      frame_loop_spec MICROSECOND BYTE_1 BYTE_2 m_type h1 h2 buffer c [] hlen hlt]
    simp
  · intro word
    by_cases hm : m_type = WS2812.RGB <;> simp [WS2812.wireBytes, hm, WS2812.bits8]
  · intro word; rfl
  · intro word; rfl
  · intro word
    simp only [WS2812.wireBytes, red_mod _ 24 (le_refl _), green_mod _ 24 (le_refl _),
      blue_mod _ 24 (le_refl _)]
  · intro word
    subst h1 h2
    exact ⟨fix_colors_red word, fix_colors_green word, fix_colors_blue word⟩
  · intro word
    subst h1 h2
    exact fix_colors_twice word
  · intro word hw
    subst h1 h2
    rw [fix_colors_twice, Nat.mod_eq_of_lt hw]

theorem send_array_colour_order_witness :
    WS2812.wireBytes WS2812.GRB 0xAB123456 = [0x34, 0x12, 0x56] ∧
    WS2812.send_array 80 0xFF00 0xFF0000 WS2812.GRB [0xAB123456] 1 true
      = some ([0xAB123456].flatMap fun word =>
          ((WS2812.wireBytes WS2812.GRB word).flatMap WS2812.bits8).map (WS2812.slot 80)) :=
  ⟨by decide,
    (send_array_colour_order 80 0xFF00 0xFF0000 WS2812.GRB [0xAB123456] true rfl rfl
      (by decide) (by decide)).1⟩

/-! ## The wire record of a receive phase -/

theorem detectStop_data_wire (rounds : List (Pins × Pins)) (a : Pins) (rest : List Pins)
    (hr : Pins.idlePolls false rounds) (ha : a.scl = false) :
    ∀ w, Pins.DetectStop (Pins.pollLooks rounds ++ [a] ++ rest) w
      = some (none, rest, w ++ Wire.polls false rounds.length ++ [.test_scl false]) := by
  induction rounds with
  | nil =>
    intro w
    cases rest with
    | nil => simp [Pins.pollLooks, Pins.DetectStop, ha, Wire.polls]
    | cons q qs => simp [Pins.pollLooks, Pins.DetectStop, ha, Wire.polls]
  | cons r rs ih =>
    intro w
    obtain ⟨h1, h2⟩ := hr r (by simp)
    have hw := ih (fun x hx => hr x (by simp [hx])) (w ++ [.test_scl true, .test_sda false])
    simpa [Pins.pollLooks, Pins.DetectStop, h1, h2, Wire.polls] using hw

theorem detectRestart_data_wire (rounds : List (Pins × Pins)) (a : Pins) (rest : List Pins)
    (hr : Pins.idlePolls true rounds) (ha : a.scl = false) :
    ∀ w, Pins.DetectRestart (Pins.pollLooks rounds ++ [a] ++ rest) w
      = some (none, rest, w ++ Wire.polls true rounds.length ++ [.test_scl false]) := by
  induction rounds with
  | nil =>
    intro w
    cases rest with
    | nil => simp [Pins.pollLooks, Pins.DetectRestart, ha, Wire.polls]
    | cons q qs => simp [Pins.pollLooks, Pins.DetectRestart, ha, Wire.polls]
  | cons r rs ih =>
    intro w
    obtain ⟨h1, h2⟩ := hr r (by simp)
    have hw := ih (fun x hx => hr x (by simp [hx])) (w ++ [.test_scl true, .test_sda true])
    simpa [Pins.pollLooks, Pins.DetectRestart, h1, h2, Wire.polls] using hw

theorem detectStop_ends_wire (rounds : List (Pins × Pins)) (a b : Pins) (rest : List Pins)
    (hr : Pins.idlePolls false rounds) (ha : a.scl = true) (hb : b.sda = true) :
    ∀ w, Pins.DetectStop (Pins.pollLooks rounds ++ [a, b] ++ rest) w
      = some (some 0, rest,
          w ++ Wire.polls false rounds.length ++ [.test_scl true, .test_sda true]) := by
  induction rounds with
  | nil => intro w; simp [Pins.pollLooks, Pins.DetectStop, ha, hb, Wire.polls]
  | cons r rs ih =>
    intro w
    obtain ⟨h1, h2⟩ := hr r (by simp)
    have hw := ih (fun x hx => hr x (by simp [hx])) (w ++ [.test_scl true, .test_sda false])
    simpa [Pins.pollLooks, Pins.DetectStop, h1, h2, Wire.polls] using hw

theorem detectRestart_ends_wire (rounds : List (Pins × Pins)) (a b : Pins)
    (rest : List Pins) (hr : Pins.idlePolls true rounds) (ha : a.scl = true)
    (hb : b.sda = false) :
    ∀ w, Pins.DetectRestart (Pins.pollLooks rounds ++ [a, b] ++ rest) w
      = some (some 1, rest,
          w ++ Wire.polls true rounds.length ++ [.test_scl true, .test_sda false]) := by
  induction rounds with
  | nil => intro w; simp [Pins.pollLooks, Pins.DetectRestart, ha, hb, Wire.polls]
  | cons r rs ih =>
    intro w
    obtain ⟨h1, h2⟩ := hr r (by simp)
    have hw := ih (fun x hx => hr x (by simp [hx])) (w ++ [.test_scl true, .test_sda true])
    simpa [Pins.pollLooks, Pins.DetectRestart, h1, h2, Wire.polls] using hw

theorem read_loop_wire (n : Nat) : ∀ (slots : List BitSlot) (result : Nat) (p : Port)
    (rest : List Pins), slots.length = n + 1 → (∀ x ∈ slots, x.valid) →
    p.ina = slots.flatMap BitSlot.looks ++ rest →
    Port.read_loop (n + 1) result p
      = some ((slots.map fun x => x.sample.sda).foldl rcl result,
          { p with
            ina := rest
            wire := p.wire ++ slots.flatMap
              (fun s => [Wire.scl_low, Wire.scl_high, Wire.test_sda s.sample.sda]) }) := by
  induction n with
  | zero =>
    intro slots result p rest hlen hval hina
    obtain ⟨x, rfl⟩ : ∃ x, slots = [x] := List.length_eq_one.1 hlen
    have hx := hval x (by simp)
    have h1 := waitpne_scl_edge p x.fall (x.rise.looks ++ x.sample :: rest) hx.1
      (by simp [hina, BitSlot.looks])
    have h2 := waitpeq_scl_edge
      ({ p with ina := x.rise.looks ++ x.sample :: rest, wire := p.wire ++ [.scl_low] } : Port)
      x.rise (x.sample :: rest) hx.2 rfl
    unfold Port.read_loop
    rw [h1, Option.some_bind, h2, Option.some_bind]
    simp [Port.test_sda]
  | succ m ih =>
    intro slots result p rest hlen hval hina
    obtain ⟨x, xs, rfl⟩ : ∃ x xs, slots = x :: xs := by
      cases slots with
      | nil => simp at hlen
      | cons x xs => exact ⟨x, xs, rfl⟩
    have hx := hval x (by simp)
    have h1 := waitpne_scl_edge p x.fall
      (x.rise.looks ++ x.sample :: (xs.flatMap BitSlot.looks ++ rest)) hx.1
      (by simp [hina, BitSlot.looks])
    have h2 := waitpeq_scl_edge
      ({ p with ina := x.rise.looks ++ x.sample :: (xs.flatMap BitSlot.looks ++ rest),
                wire := p.wire ++ [.scl_low] } : Port)
      x.rise (x.sample :: (xs.flatMap BitSlot.looks ++ rest)) hx.2 rfl
    unfold Port.read_loop
    rw [h1, Option.some_bind, h2, Option.some_bind]
    simp only [Port.test_sda, Option.some_bind, ne_eq, Nat.add_one_ne_zero,
      not_false_eq_true, if_true]
    have hw := ih xs (rcl result x.sample.sda)
      ({ p with ina := xs.flatMap BitSlot.looks ++ rest,
                wire := p.wire ++ [.scl_low] ++ [.scl_high] ++ [.test_sda x.sample.sda] } : Port)
      rest (by simpa using hlen) (fun y hy => hval y (by simp [hy])) rfl
    rw [hw]
    simp

theorem samples_value (c : Bool) (bits : List Bool) (h : bits.length = 7) :
    bits.foldl rcl (rcl 0 c)
      = ((List.range 8).map fun i => ((c :: bits).getD (7 - i) false).toNat * 2 ^ i).sum := by
  obtain ⟨b6, t6, rfl⟩ : ∃ b t, bits = b :: t := by
    cases bits with
    | nil => simp at h
    | cons b t => exact ⟨b, t, rfl⟩
  obtain ⟨b5, t5, rfl⟩ : ∃ b t, t6 = b :: t := by
    cases t6 with
    | nil => simp at h
    | cons b t => exact ⟨b, t, rfl⟩
  obtain ⟨b4, t4, rfl⟩ : ∃ b t, t5 = b :: t := by
    cases t5 with
    | nil => simp at h
    | cons b t => exact ⟨b, t, rfl⟩
  obtain ⟨b3, t3, rfl⟩ : ∃ b t, t4 = b :: t := by
    cases t4 with
    | nil => simp at h
    | cons b t => exact ⟨b, t, rfl⟩
  obtain ⟨b2, t2, rfl⟩ : ∃ b t, t3 = b :: t := by
    cases t3 with
    | nil => simp at h
    | cons b t => exact ⟨b, t, rfl⟩
  obtain ⟨b1, t1, rfl⟩ : ∃ b t, t2 = b :: t := by
    cases t2 with
    | nil => simp at h
    | cons b t => exact ⟨b, t, rfl⟩
  obtain ⟨b0, t0, rfl⟩ : ∃ b t, t1 = b :: t := by
    cases t1 with
    | nil => simp at h
    | cons b t => exact ⟨b, t, rfl⟩
  have ht : t0 = [] := by
    cases t0 with
    | nil => rfl
    | cons b t => simp at h
  subst ht
  revert c b6 b5 b4 b3 b2 b1 b0
  decide

theorem byteSlot_value (x : ByteSlot) (h : x.valid) :
    (x.slots.map fun s => s.sample.sda).foldl rcl (rcl 0 x.first.sda) = x.value ∧
    x.value < 256 ∧ x.value.testBit 7 = x.first.sda := by
  have hlen : (x.slots.map fun s => s.sample.sda).length = 7 := by
    simpa using h.2.2.2.2.1
  have hv := samples_value x.first.sda _ hlen
  have hb := first_bit_is_bit7 x.first.sda _ hlen
  have e : x.value = (x.slots.map fun s => s.sample.sda).foldl rcl (rcl 0 x.first.sda) := by
    rw [hv]; rfl
  rw [e]
  exact ⟨rfl, hb.2, hb.1⟩

/-- The pass of `read_to_end` on the looks of a complete data byte. -/
theorem read_to_end_pass_byteSlot (b : Bus) (x : ByteSlot) (rest : List Pins) (h : x.valid)
    (hina : b.port.ina = x.looks ++ rest) :
    b.port.read_to_end_asm
      = some (⟨x.value, 2⟩,
          { b.port with
            ina := x.ack.looks ++ rest
            wire := b.port.wire ++ ([.scl_low, .scl_high, .test_sda x.first.sda]
              ++ Wire.polls x.first.sda x.rounds.length ++ [.test_scl false]
              ++ x.slots.flatMap
                (fun s => [Wire.scl_low, Wire.scl_high, Wire.test_sda s.sample.sda])) }) ∧
    b.read_to_end_pass
      = some (none,
          { dev := b.dev.append_receive_buffer x.value
            port := { dira_sda := false, outa_sda := false, ina := rest,
                      wire := b.port.wire ++ x.wire } }) := by
  obtain ⟨hl, hh, hr, ha, hlen, hval, hack⟩ := h
  obtain ⟨hv, hlt, _⟩ := byteSlot_value x ⟨hl, hh, hr, ha, hlen, hval, hack⟩
  have h1 := waitpne_scl_edge b.port x.low
    (x.high.looks ++ x.first :: (Pins.pollLooks x.rounds ++ [x.fallen]
      ++ (x.slots.flatMap BitSlot.looks ++ (x.ack.looks ++ rest)))) hl
    (by simp [hina, ByteSlot.looks])
  have h2 := waitpeq_scl_edge
    ({ b.port with
        ina := x.high.looks ++ x.first :: (Pins.pollLooks x.rounds ++ [x.fallen]
          ++ (x.slots.flatMap BitSlot.looks ++ (x.ack.looks ++ rest)))
        wire := b.port.wire ++ [.scl_low] } : Port) x.high
    (x.first :: (Pins.pollLooks x.rounds ++ [x.fallen]
      ++ (x.slots.flatMap BitSlot.looks ++ (x.ack.looks ++ rest)))) hh rfl
  have hasm : b.port.read_to_end_asm
      = some (⟨x.value, 2⟩,
          { b.port with
            ina := x.ack.looks ++ rest
            wire := b.port.wire ++ ([.scl_low, .scl_high, .test_sda x.first.sda]
              ++ Wire.polls x.first.sda x.rounds.length ++ [.test_scl false]
              ++ x.slots.flatMap
                (fun s => [Wire.scl_low, Wire.scl_high, Wire.test_sda s.sample.sda])) }) := by
    unfold Port.read_to_end_asm
    rw [h1, Option.some_bind, h2, Option.some_bind]
    simp only [Port.test_sda, Option.some_bind]
    cases hf : x.first.sda with
    | true =>
      rw [hf] at hr hv
      have hw := detectRestart_data_wire x.rounds x.fallen
        (x.slots.flatMap BitSlot.looks ++ (x.ack.looks ++ rest)) hr ha
        (b.port.wire ++ [.scl_low] ++ [.scl_high] ++ [.test_sda true])
      simp only [if_true, hw, Option.some_bind]
      have hloop := read_loop_wire 6 x.slots (rcl 0 true)
        ({ b.port with
            ina := x.slots.flatMap BitSlot.looks ++ (x.ack.looks ++ rest)
            wire := b.port.wire ++ [.scl_low] ++ [.scl_high] ++ [.test_sda true]
              ++ Wire.polls true x.rounds.length ++ [.test_scl false] } : Port)
        (x.ack.looks ++ rest) hlen hval rfl
      rw [hloop, Option.some_bind, hv]
      simp
    | false =>
      rw [hf] at hr hv
      have hw := detectStop_data_wire x.rounds x.fallen
        (x.slots.flatMap BitSlot.looks ++ (x.ack.looks ++ rest)) hr ha
        (b.port.wire ++ [.scl_low] ++ [.scl_high] ++ [.test_sda false])
      simp only [Bool.false_eq_true, if_false, hw, Option.some_bind]
      have hloop := read_loop_wire 6 x.slots (rcl 0 false)
        ({ b.port with
            ina := x.slots.flatMap BitSlot.looks ++ (x.ack.looks ++ rest)
            wire := b.port.wire ++ [.scl_low] ++ [.scl_high] ++ [.test_sda false]
              ++ Wire.polls false x.rounds.length ++ [.test_scl false] } : Port)
        (x.ack.looks ++ rest) hlen hval rfl
      rw [hloop, Option.some_bind, hv]
      simp
  refine ⟨hasm, ?_⟩
  have hsa := send_ack_asm_spec
    ({ b.port with
        ina := x.ack.looks ++ rest
        wire := b.port.wire ++ ([.scl_low, .scl_high, .test_sda x.first.sda]
          ++ Wire.polls x.first.sda x.rounds.length ++ [.test_scl false]
          ++ x.slots.flatMap
            (fun s => [Wire.scl_low, Wire.scl_high, Wire.test_sda s.sample.sda])) } : Port)
    x.ack rest hack rfl
  unfold Bus.read_to_end_pass
  rw [hasm, Option.some_bind]
  simp only [ne_eq, not_true_eq_false, if_false]
  rw [hsa, Option.some_bind]
  simp [u8, Nat.mod_eq_of_lt hlt, ByteSlot.wire, Wire.send_ack]

/-- The pass of `read_to_end` on the looks of the end of a phase. -/
theorem read_to_end_pass_endSlot (b : Bus) (e : EndSlot) (restart : Bool) (rest : List Pins)
    (h : e.valid restart) (hina : b.port.ina = e.looks ++ rest) :
    b.read_to_end_pass
      = some (some restart,
          { b with port := { b.port with ina := rest, wire := b.port.wire ++ e.wire } }) := by
  obtain ⟨hl, hh, hs, hr, ha, hb⟩ := h
  have h1 := waitpne_scl_edge b.port e.low
    (e.high.looks ++ e.first :: (Pins.pollLooks e.rounds ++ [e.still, e.changed] ++ rest)) hl
    (by simp [hina, EndSlot.looks])
  have h2 := waitpeq_scl_edge
    ({ b.port with
        ina := e.high.looks ++ e.first
          :: (Pins.pollLooks e.rounds ++ [e.still, e.changed] ++ rest)
        wire := b.port.wire ++ [.scl_low] } : Port) e.high
    (e.first :: (Pins.pollLooks e.rounds ++ [e.still, e.changed] ++ rest)) hh rfl
  unfold Bus.read_to_end_pass Port.read_to_end_asm
  rw [h1, Option.some_bind, h2, Option.some_bind]
  simp only [Port.test_sda, Option.some_bind, hs]
  cases restart with
  | true =>
    have hw := detectRestart_ends_wire e.rounds e.still e.changed rest hr ha (by simpa using hb)
      (b.port.wire ++ [.scl_low] ++ [.scl_high] ++ [.test_sda true])
    simp only [if_true, hw, Option.some_bind]
    have hb' : e.changed.sda = false := by simpa using hb
    simp [EndSlot.wire, hs, hb']
  | false =>
    have hw := detectStop_ends_wire e.rounds e.still e.changed rest hr ha (by simpa using hb)
      (b.port.wire ++ [.scl_low] ++ [.scl_high] ++ [.test_sda false])
    simp only [Bool.false_eq_true, if_false, hw, Option.some_bind]
    have hb' : e.changed.sda = true := by simpa using hb
    simp [EndSlot.wire, hs, hb']

theorem byteSlot_acks (x : ByteSlot) : Wire.acks x.wire = 1 := by
  have hp : ∀ (f : Bool) (n : Nat), (Wire.polls f n).count (Wire.dira_sda true) = 0 := by
    intro f n
    induction n with
    | zero => simp [Wire.polls]
    | succ n ih =>
      simp only [Wire.polls, List.count_append, ih]
      simp [List.count_cons]
  have hs : ∀ (l : List BitSlot), (l.flatMap
      (fun s => [Wire.scl_low, Wire.scl_high, Wire.test_sda s.sample.sda])).count
        (Wire.dira_sda true) = 0 := by
    intro l
    induction l with
    | nil => simp
    | cons s l ih =>
      simp only [List.flatMap_cons, List.count_append, ih]
      simp [List.count_cons]
  simp only [Wire.acks, ByteSlot.wire, List.count_append, hp, hs, Wire.send_ack]
  simp [List.count_cons]

theorem endSlot_acks (e : EndSlot) : Wire.acks e.wire = 0 := by
  have hp : ∀ (f : Bool) (n : Nat), (Wire.polls f n).count (Wire.dira_sda true) = 0 := by
    intro f n
    induction n with
    | zero => simp [Wire.polls]
    | succ n ih =>
      simp only [Wire.polls, List.count_append, ih]
      simp [List.count_cons]
  simp only [Wire.acks, EndSlot.wire, List.count_append, hp]
  simp [List.count_cons]

theorem bytes_acks (bytes : List ByteSlot) :
    Wire.acks (bytes.flatMap ByteSlot.wire) = bytes.length := by
  induction bytes with
  | nil => simp [Wire.acks]
  | cons x xs ih =>
    have hx := byteSlot_acks x
    simp only [Wire.acks] at ih hx ⊢
    simp only [List.flatMap_cons, List.count_append, ih, hx, List.length_cons]
    omega

/-- The method `read_to_end` on the looks of a receive phase of complete data bytes. -/
theorem read_to_end_bytes (e : EndSlot) (restart : Bool) (rest : List Pins)
    (he : e.valid restart) (bytes : List ByteSlot) :
    ∀ (b : Bus) (passes : Nat), (∀ x ∈ bytes, x.valid) → bytes.length < passes →
      b.port.ina = bytes.flatMap ByteSlot.looks ++ e.looks ++ rest →
      ∃ b' : Bus, b.read_to_end passes = some (restart, b') ∧
        b'.dev = b.dev.appends (bytes.map ByteSlot.value) ∧
        b'.port.ina = rest ∧
        b'.port.wire = b.port.wire ++ bytes.flatMap ByteSlot.wire ++ e.wire := by
  induction bytes with
  | nil =>
    intro b passes _ hp hina
    obtain ⟨n, rfl⟩ : ∃ n, passes = n + 1 := ⟨passes - 1, by simp at hp; omega⟩
    have h := read_to_end_pass_endSlot b e restart rest he (by simpa using hina)
    exact ⟨{ b with port := { b.port with ina := rest, wire := b.port.wire ++ e.wire } },
      by simp [Bus.read_to_end, h], rfl, rfl, by simp⟩
  | cons x xs ih =>
    intro b passes hv hp hina
    obtain ⟨n, rfl⟩ : ∃ n, passes = n + 1 := ⟨passes - 1, by simp at hp; omega⟩
    have h := (read_to_end_pass_byteSlot b x (xs.flatMap ByteSlot.looks ++ e.looks ++ rest)
      (hv x (by simp)) (by simp [hina])).2
    obtain ⟨b', h1, h2, h3, h4⟩ := ih
      { dev := b.dev.append_receive_buffer x.value
        port := { dira_sda := false, outa_sda := false,
                  ina := xs.flatMap ByteSlot.looks ++ e.looks ++ rest,
                  wire := b.port.wire ++ x.wire } } n
      (fun y hy => hv y (by simp [hy])) (by simp at hp; omega) rfl
    refine ⟨b', ?_, ?_, h3, ?_⟩
    · rw [Bus.read_to_end, h, Option.some_bind]
      exact h1
    · rw [h2]; simp [I2CSlave.appends]
    · rw [h4]; simp

theorem samples_testBit (c : Bool) (bits : List Bool) (h : bits.length = 7) :
    ∀ i : Fin 8,
      (((List.range 8).map fun i => ((c :: bits).getD (7 - i) false).toNat * 2 ^ i).sum).testBit
        i.1 = (c :: bits).getD (7 - i.1) false := by
  obtain ⟨b6, t6, rfl⟩ : ∃ b t, bits = b :: t := by
    cases bits with
    | nil => simp at h
    | cons b t => exact ⟨b, t, rfl⟩
  obtain ⟨b5, t5, rfl⟩ : ∃ b t, t6 = b :: t := by
    cases t6 with
    | nil => simp at h
    | cons b t => exact ⟨b, t, rfl⟩
  obtain ⟨b4, t4, rfl⟩ : ∃ b t, t5 = b :: t := by
    cases t5 with
    | nil => simp at h
    | cons b t => exact ⟨b, t, rfl⟩
  obtain ⟨b3, t3, rfl⟩ : ∃ b t, t4 = b :: t := by
    cases t4 with
    | nil => simp at h
    | cons b t => exact ⟨b, t, rfl⟩
  obtain ⟨b2, t2, rfl⟩ : ∃ b t, t3 = b :: t := by
    cases t3 with
    | nil => simp at h
    | cons b t => exact ⟨b, t, rfl⟩
  obtain ⟨b1, t1, rfl⟩ : ∃ b t, t2 = b :: t := by
    cases t2 with
    | nil => simp at h
    | cons b t => exact ⟨b, t, rfl⟩
  obtain ⟨b0, t0, rfl⟩ : ∃ b t, t1 = b :: t := by
    cases t1 with
    | nil => simp at h
    | cons b t => exact ⟨b, t, rfl⟩
  have ht : t0 = [] := by
    cases t0 with
    | nil => rfl
    | cons b t => simp at h
  subst ht
  revert c b6 b5 b4 b3 b2 b1 b0
  decide

theorem appends_full (bs : List Nat) : ∀ s : I2CSlave, s.m_buffer_ptr = 0 →
    s.appends bs = s := by
  induction bs with
  | nil => intro s _; rfl
  | cons c bs ih =>
    intro s h
    have e : s.appends (c :: bs) = (s.append_receive_buffer c).appends bs := rfl
    rw [e, append_full s c h]
    exact ih s h

/-- C25. The reception of data bytes in `read_to_end`, on the wires. For a receive phase
made of complete data bytes (eight samples of SDA on eight high phases of SCL, no stop or
restart condition found after the first) and ended by a stop or restart condition:
every byte has the value `sum (s_i * 2 ^ i)` of its samples `s7, .., s0`, the first
sample being bit 7; the pass of the loop on a byte hands that value to
`append_receive_buffer` once and calls `send_ack` once, after the assembly block, which
only looks at the wires; `read_to_end` returns after as many acknowledges as there are
bytes, with the bytes appended in order. On a buffer that is already full the bytes are
dropped and acknowledged all the same. The last part states the same count on the calls
of the engine. -/
theorem data_bytes_are_acknowledged_and_appended (b : Bus) (bytes : List ByteSlot)
    (e : EndSlot) (restart : Bool) (rest : List Pins) (passes : Nat)
    (hv : ∀ x ∈ bytes, x.valid) (he : e.valid restart) (hp : bytes.length < passes)
    (hina : b.port.ina = bytes.flatMap ByteSlot.looks ++ e.looks ++ rest) :
    (∀ x ∈ bytes, x.value < 256 ∧
      (∀ i : Fin 8, x.value.testBit i.1 = x.samples.getD (7 - i.1) false) ∧
      Wire.acks x.wire = 1) ∧
    (∀ (x : ByteSlot) (tail : List Pins), x.valid → b.port.ina = x.looks ++ tail →
      (b.port.read_to_end_asm.map fun r => (r.1, Wire.acks r.2.wire))
        = some (⟨x.value, 2⟩, Wire.acks b.port.wire) ∧
      b.read_to_end_pass
        = some (none,
            { dev := b.dev.append_receive_buffer x.value
              port := { dira_sda := false, outa_sda := false, ina := tail,
                        wire := b.port.wire ++ x.wire } })) ∧
    (∃ b' : Bus, b.read_to_end passes = some (restart, b') ∧
      b'.dev = b.dev.appends (bytes.map ByteSlot.value) ∧
      b'.port.ina = rest ∧
      b'.port.wire = b.port.wire ++ bytes.flatMap ByteSlot.wire ++ e.wire ∧
      Wire.acks b'.port.wire = Wire.acks b.port.wire + bytes.length ∧
      (b.dev.m_buffer_ptr = 0 → b'.dev = b.dev)) ∧
    (∀ (c : Cog) (ds : List Nat) (t : Frame) (fs : List Frame),
      c.frames = Frame.data ds ++ t :: fs → t.is_restart ≠ 2 →
      ∃ c' : Cog, c.read_to_end = .returned (decide (t.is_restart ≠ 0)) c' ∧
        Cog.since c c' = .read_to_end c.dev :: Event.received ds ∧
        (Cog.since c c').count .send_ack = ds.length ∧
        c'.dev = c.dev.appends ds) := by
  refine ⟨?_, ?_, ?_, ?_⟩
  · intro x hx
    obtain ⟨_, hlt, _⟩ := byteSlot_value x (hv x hx)
    have hlen : (x.slots.map fun s => s.sample.sda).length = 7 := by
      simpa using (hv x hx).2.2.2.2.1
    exact ⟨hlt, samples_testBit x.first.sda _ hlen, byteSlot_acks x⟩
  · intro x tail hx hxi
    obtain ⟨h1, h2⟩ := read_to_end_pass_byteSlot b x tail hx hxi
    refine ⟨?_, h2⟩
    rw [h1]
    have hp0 : ∀ (f : Bool) (n : Nat), (Wire.polls f n).count (Wire.dira_sda true) = 0 := by
      intro f n
      induction n with
      | zero => simp [Wire.polls]
      | succ n ih =>
        simp only [Wire.polls, List.count_append, ih]
        simp [List.count_cons]
    have hs0 : ∀ (l : List BitSlot), (l.flatMap
        (fun s => [Wire.scl_low, Wire.scl_high, Wire.test_sda s.sample.sda])).count
          (Wire.dira_sda true) = 0 := by
      intro l
      induction l with
      | nil => simp
      | cons s l ih =>
        simp only [List.flatMap_cons, List.count_append, ih]
        simp [List.count_cons]
    simp only [Option.map_some', Wire.acks, List.count_append, hp0, hs0]
    simp [List.count_cons]
  · obtain ⟨b', h1, h2, h3, h4⟩ := read_to_end_bytes e restart rest he bytes b passes hv hp hina
    refine ⟨b', h1, h2, h3, h4, ?_, ?_⟩
    · have hb := bytes_acks bytes
      have hz := endSlot_acks e
      simp only [Wire.acks] at hb hz ⊢
      rw [h4, List.count_append, List.count_append, hb, hz]
      omega
    · intro hfull
      rw [h2, appends_full _ _ hfull]
  · intro c ds t fs hfr ht
    have h := read_to_end_spec c ds t fs hfr ht
    refine ⟨_, h, ?_, ?_, rfl⟩
    · simp [Cog.since]
    · have hc := (received_count ds).1
      simp only [Cog.since, List.append_assoc, List.drop_left]
      rw [List.singleton_append, List.count_cons, hc]
      simp

theorem data_bytes_are_acknowledged_and_appended_witness :
    ByteSlot.demo.value = 0xA5 ∧
    ∃ b' : Bus,
      Bus.read_to_end 2
          { dev := I2CSlave.ctor 0x42 4 (fun _ => 0) false
            port := { dira_sda := false, outa_sda := false,
                      ina := [ByteSlot.demo].flatMap ByteSlot.looks ++ EndSlot.demo.looks ++ [],
                      wire := [] } }
        = some (false, b') ∧
      b'.dev = (I2CSlave.ctor 0x42 4 (fun _ => 0) false).appends
        ([ByteSlot.demo].map ByteSlot.value) ∧
      Wire.acks b'.port.wire = Wire.acks [] + [ByteSlot.demo].length := by
  obtain ⟨b', h1, h2, _, _, h5, _⟩ :=
    (data_bytes_are_acknowledged_and_appended
      { dev := I2CSlave.ctor 0x42 4 (fun _ => 0) false
        port := { dira_sda := false, outa_sda := false,
                  ina := [ByteSlot.demo].flatMap ByteSlot.looks ++ EndSlot.demo.looks ++ [],
                  wire := [] } }
      [ByteSlot.demo] EndSlot.demo false [] 2 (by decide) (by decide) (by decide) rfl).2.2.1
  exact ⟨by decide, b', h1, h2, h5⟩

end PropWare
